import Mathlib

/-!
# SQLiteStudio console: the tabular result renderer of `CliCommandSql`

A shallow embedding of `Console/commands/clicommandsql.cpp`:

* `SortedColumnWidth` and its mutators (lines 410-506),
* `shrinkColumns` (lines 278-360),
* `printResultsClassic`, `printResultsFixed`, `printResultsColumns`,
  `printResultsRowByRow` (lines 89-276),
* `printColumnHeader`, `printColumnDataRow`, `getValueString` (lines 362-401).

Conventions.

* C++ `int` is `Int`. All quantities are string lengths, column counts and the
  terminal width, far from the 32-bit range, so no wrap-around is modelled.
* `QString` is a list of characters; its length is the length of the list.
* An operation that is undefined in C++ (integer division by zero,
  `QList::operator[]` outside the list) is a `Fault`.
* `qOut << s` appends to the `out` text of an `Outcome`; `println(s)` appends
  `s` to its `printed` list.
-/

namespace CliCommandSql

/-! ## Basic types -/

/-- A `QString`: a sequence of characters. -/
abbrev QString := List Char

/-- Operations whose behaviour C++ leaves undefined. -/
inductive Fault where
  | divisionByZero
  | indexOutOfRange
deriving DecidableEq

/-- A `QVariant` cell value as the renderer uses it: either invalid or null, or a
value together with its `toString()` form. -/
inductive QVariant where
  | null
  | value (s : QString)
deriving DecidableEq

/-- Qt `QVariant::toString()`: an invalid or null variant converts to the empty string. -/
def QVariant.toString : QVariant → QString
  | .null => []
  | .value s => s

/-! ## SortedColumnWidth (lines 410-506) -/

/-- The class `SortedColumnWidth`. The list handled by the renderer is a
`QList<SortedColumnWidth*>`; `addr` is the address of the object, that is the
pointer value stored in the list. The three other fields are the members of the
class. -/
structure SortedColumnWidth where
  addr : Nat
  dataWidth : Int
  headerWidth : Int
  width : Int
deriving DecidableEq

namespace SortedColumnWidth

/-- The constructor (lines 410-415), for an object allocated at `addr`. -/
def create (addr : Nat) : SortedColumnWidth :=
  { addr := addr, dataWidth := 0, headerWidth := 0, width := 0 }

/-- Function `updateWidth` (lines 503-506): `width = qMax(headerWidth, dataWidth)`. -/
def updateWidth (c : SortedColumnWidth) : SortedColumnWidth :=
  { c with width := max c.headerWidth c.dataWidth }

/-- Operator `operator<` (lines 417-420). -/
def lt (c other : SortedColumnWidth) : Bool :=
  decide (c.width < other.width)

def getHeaderWidth (c : SortedColumnWidth) : Int := c.headerWidth

def setHeaderWidth (c : SortedColumnWidth) (value : Int) : SortedColumnWidth :=
  updateWidth { c with headerWidth := value }

def setMaxHeaderWidth (c : SortedColumnWidth) (value : Int) : SortedColumnWidth :=
  if c.headerWidth > value then updateWidth { c with headerWidth := value } else c

def incrHeaderWidth (c : SortedColumnWidth) (value : Int) : SortedColumnWidth :=
  updateWidth { c with headerWidth := c.headerWidth + value }

def decrHeaderWidth (c : SortedColumnWidth) (value : Int) : SortedColumnWidth :=
  updateWidth { c with headerWidth := c.headerWidth - value }

def getDataWidth (c : SortedColumnWidth) : Int := c.dataWidth

def setDataWidth (c : SortedColumnWidth) (value : Int) : SortedColumnWidth :=
  updateWidth { c with dataWidth := value }

def setMinDataWidth (c : SortedColumnWidth) (value : Int) : SortedColumnWidth :=
  if c.dataWidth < value then updateWidth { c with dataWidth := value } else c

def incrDataWidth (c : SortedColumnWidth) (value : Int) : SortedColumnWidth :=
  updateWidth { c with dataWidth := c.dataWidth + value }

def decrDataWidth (c : SortedColumnWidth) (value : Int) : SortedColumnWidth :=
  updateWidth { c with dataWidth := c.dataWidth - value }

/-- Function `incrWidth` (lines 486-491): the width grows and both parts are set to it. -/
def incrWidth (c : SortedColumnWidth) (value : Int) : SortedColumnWidth :=
  { c with width := c.width + value,
           dataWidth := c.width + value,
           headerWidth := c.width + value }

def getWidth (c : SortedColumnWidth) : Int := c.width

def isHeaderLonger (c : SortedColumnWidth) : Bool :=
  decide (c.headerWidth > c.dataWidth)

end SortedColumnWidth

/-! ## qSort

`qSort` is Qt library code. It orders a container with `qLess<T>`, that is with
`t1 < t2` on the element type. The elements of `columnWidths` are pointers, so
the comparison Qt applies is the one on the pointer values (`ptrLess`); the
class also declares `operator<` on widths (`SortedColumnWidth.lt`), which is what
the comment in `shrinkColumns` describes. The comparison is a parameter of the
model, so every result below is stated for both.  `qSort` gives no promise on
the relative order of elements that compare equal; the model keeps them in
their order. -/

/-- The comparison of two pointers to column objects. -/
def ptrLess (a b : SortedColumnWidth) : Bool :=
  decide (a.addr < b.addr)

/-- Insertion of one element after the elements of the list that are less than it. -/
def orderedInsert (less : SortedColumnWidth → SortedColumnWidth → Bool)
    (x : SortedColumnWidth) : List SortedColumnWidth → List SortedColumnWidth
  | [] => [x]
  | y :: ys => if less y x then y :: orderedInsert less x ys else x :: y :: ys

/-- The list in ascending order of `less`. -/
def qSort (less : SortedColumnWidth → SortedColumnWidth → Bool) :
    List SortedColumnWidth → List SortedColumnWidth
  | [] => []
  | x :: xs => orderedInsert less x (qSort less xs)

/-! ## shrinkColumns (lines 278-360) -/

/-- The variables of the loop of `shrinkColumns`. -/
structure ShrinkState where
  columnWidths : List SortedColumnWidth
  totalWidth : Int
  previousTotalWidth : Int
deriving DecidableEq

/-- Variable `maxSingleColumnWidth` (line 287). -/
def maxSingleColumnWidth (termCols resultColumnsCount : Int) : Int :=
  termCols - (resultColumnsCount - 1) * 2 - 1

/-- The condition of the `while` loop (line 290). -/
def shrinkLoopCond (termCols : Int) (s : ShrinkState) : Bool :=
  decide (s.totalWidth > termCols) && decide (s.totalWidth ≠ s.previousTotalWidth)

/-- Modelled from the spec: the default argument of `decrHeaderWidth()` and
`decrDataWidth()`, declared in `clicommandsql.h`, which is not among the
sources. The spec has the width decremented by exactly 1 (section 4.2, step d),
and the code lowers `totalWidth` by 1 at both calls. -/
abbrev defaultStep : Int := 1

/-- The `for` loop of lines 311-331, with `i + 1` given as a natural number: the
first argument `k + 1` is the iteration `i = k`, and `0` is the exit `i < 0`.
Returns the list and `totalWidth` after the loop. -/
def shrinkDataScan (maxSingle : Int) :
    Nat → List SortedColumnWidth → Int → Except Fault (List SortedColumnWidth × Int)
  | 0, cols, totalWidth => .ok (cols, totalWidth)
  | k + 1, cols, totalWidth =>
    match cols[k]? with
    | none => .error .indexOutOfRange
    | some c =>
      if c.getDataWidth > maxSingle then
        .ok (cols.set k ((c.setDataWidth maxSingle).setMaxHeaderWidth maxSingle),
             totalWidth - (c.getDataWidth - maxSingle))
      else if c.getDataWidth > 1 then
        .ok (cols.set k ((c.decrDataWidth defaultStep).setMaxHeaderWidth
               (c.decrDataWidth defaultStep).getDataWidth),
             totalWidth - 1)
      else shrinkDataScan maxSingle k cols totalWidth

/-- The `for` loop of lines 335-354, indexed as `shrinkDataScan`. -/
def shrinkHeaderScan (maxSingle : Int) :
    Nat → List SortedColumnWidth → Int → Except Fault (List SortedColumnWidth × Int)
  | 0, cols, totalWidth => .ok (cols, totalWidth)
  | k + 1, cols, totalWidth =>
    match cols[k]? with
    | none => .error .indexOutOfRange
    | some c =>
      if !c.isHeaderLonger then shrinkHeaderScan maxSingle k cols totalWidth
      else if c.getHeaderWidth > maxSingle then
        .ok (cols.set k (c.setHeaderWidth maxSingle),
             totalWidth - (c.getHeaderWidth - maxSingle))
      else if c.getHeaderWidth > 1 then
        .ok (cols.set k (c.decrHeaderWidth defaultStep), totalWidth - 1)
      else shrinkHeaderScan maxSingle k cols totalWidth

/-- One pass of the `while` loop (lines 292-355). -/
def shrinkPass (less : SortedColumnWidth → SortedColumnWidth → Bool)
    (termCols resultColumnsCount : Int) (s : ShrinkState) : Except Fault ShrinkState :=
  let maxSingle := maxSingleColumnWidth termCols resultColumnsCount
  let sorted := qSort less s.columnWidths
  let shrinkData := !(sorted.any SortedColumnWidth.isHeaderLonger)
  let scan := if shrinkData
    then shrinkDataScan maxSingle resultColumnsCount.toNat sorted s.totalWidth
    else shrinkHeaderScan maxSingle resultColumnsCount.toNat sorted s.totalWidth
  match scan with
  | .error e => .error e
  | .ok (cols, totalWidth) =>
    .ok { columnWidths := cols, totalWidth := totalWidth, previousTotalWidth := s.totalWidth }

/-- The `while` loop (lines 290-356), run for at most `fuel` passes. -/
def shrinkLoop (less : SortedColumnWidth → SortedColumnWidth → Bool)
    (termCols resultColumnsCount : Int) : Nat → ShrinkState → Except Fault ShrinkState
  | 0, s => .ok s
  | fuel + 1, s =>
    if shrinkLoopCond termCols s then
      match shrinkPass less termCols resultColumnsCount s with
      | .error e => .error e
      | .ok s1 => shrinkLoop less termCols resultColumnsCount fuel s1
    else .ok s

/-- The number of passes `shrinkLoop` makes with the same arguments. -/
def shrinkPasses (less : SortedColumnWidth → SortedColumnWidth → Bool)
    (termCols resultColumnsCount : Int) : Nat → ShrinkState → Nat
  | 0, _ => 0
  | fuel + 1, s =>
    if shrinkLoopCond termCols s then
      match shrinkPass less termCols resultColumnsCount s with
      | .error _ => 1
      | .ok s1 => 1 + shrinkPasses less termCols resultColumnsCount fuel s1
    else 0

/-- The state on entry to the loop (lines 288-289). -/
def shrinkInit (columnWidths : List SortedColumnWidth) (totalWidth : Int) : ShrinkState :=
  { columnWidths := columnWidths, totalWidth := totalWidth, previousTotalWidth := -1 }

/-- The number of passes given to the loop: the distance of `totalWidth` to
`termCols`. `shrinkLoop_fuel` shows that the loop never needs more. -/
def shrinkFuel (termCols totalWidth : Int) : Nat := (totalWidth - termCols).toNat

/-- Function `shrinkColumns`: the state of the loop variables when the loop has ended;
`columnWidths` is the list the caller sees afterwards. -/
def shrinkColumns (less : SortedColumnWidth → SortedColumnWidth → Bool)
    (columnWidths : List SortedColumnWidth) (termCols resultColumnsCount totalWidth : Int) :
    Except Fault ShrinkState :=
  shrinkLoop less termCols resultColumnsCount (shrinkFuel termCols totalWidth)
    (shrinkInit columnWidths totalWidth)

/-- The condition under which `shrinkColumns` emits its `qWarning` (line 358). -/
def shrinkWarning (termCols : Int) (s : ShrinkState) : Bool :=
  decide (s.totalWidth = s.previousTotalWidth) && decide (s.totalWidth > termCols)

/-! ## QString operations used by the renderer -/

/-- Qt `QString::left(n)`: the first `n` characters; the whole string when `n` is
negative or not smaller than the size. -/
def left (str : QString) (n : Int) : QString :=
  if n < 0 ∨ n ≥ (str.length : Int) then str else str.take n.toNat

/-- Qt `QString::repeated(times)`: empty when `times < 1`. -/
def repeated (str : QString) (times : Int) : QString :=
  (List.replicate times.toNat str).flatten

/-- Qt `QStringList::join(sep)`. -/
def join (sep : QString) : List QString → QString
  | [] => []
  | [x] => x
  | x :: y :: rest => x ++ sep ++ join sep (y :: rest)

/-- Modelled from the spec: `pad` (declared in `cliutils.h`) is not among the
sources. The spec has cells left-padded with the fill character to exactly the
assigned width (section 4.3), and ROW mode, which passes the negated width,
padded with trailing fill characters (scenario D: `"id  : 1"`). A string that
already has `|length|` characters or more is returned as it is. -/
def pad (str : QString) (length : Int) (fillChar : Char) : QString :=
  if (str.length : Int) ≥ |length| then str
  else if length ≥ 0 then List.replicate (|length|.toNat - str.length) fillChar ++ str
  else str ++ List.replicate (|length|.toNat - str.length) fillChar

/-- Modelled from the spec: `center` (declared in `cliutils.h`) is not among the
sources. The spec has the banner centred and filled to the given width
(section 4.3); when the fill cannot be split evenly the extra character goes
to the left. -/
def center (str : QString) (length : Int) (fillChar : Char) : QString :=
  if (str.length : Int) ≥ length then str
  else
    let fill := (length - str.length).toNat
    List.replicate (fill - fill / 2) fillChar ++ str ++ List.replicate (fill / 2) fillChar

/-- Function `getValueString` (lines 395-401); `nullValue` is `CFG_CLI.Console.NullValue`. -/
def getValueString (nullValue : QString) : QVariant → QString
  | .value s => s
  | .null => nullValue

/-- Modelled from the spec: `SqlResultsRow::value(int)` is not among the
sources. The spec gives the renderer no failure path for a row of the wrong
arity (section 7), so a position outside the row is read as an invalid
`QVariant`. -/
def rowValue (row : List QVariant) (idx : Nat) : QVariant :=
  row.getD idx .null

/-! ## printColumnHeader and printColumnDataRow (lines 362-393) -/

/-- The `foreach` of lines 366-370, with `i` the running index. -/
def headerCells (widths : List Int) : List QString → Nat → Except Fault (List QString)
  | [], _ => .ok []
  | col :: rest, i =>
    match widths[i]? with
    | none => .error .indexOutOfRange
    | some w =>
      match headerCells widths rest (i + 1) with
      | .error e => .error e
      | .ok line => .ok (pad (left col w) w ' ' :: line)

/-- The `for` of lines 376-377, from index `i` for `count` columns. -/
def ruleCells (widths : List Int) : Nat → Nat → Except Fault (List QString)
  | 0, _ => .ok []
  | count + 1, i =>
    match widths[i]? with
    | none => .error .indexOutOfRange
    | some w =>
      match ruleCells widths count (i + 1) with
      | .error e => .error e
      | .ok line => .ok (repeated ['-'] w :: line)

/-- The header line (lines 364-372). -/
def columnHeaderLine (widths : List Int) (columns : List QString) : Except Fault QString :=
  (headerCells widths columns 0).map (join ['|'])

/-- The rule line (lines 374-379). -/
def columnRuleLine (widths : List Int) (columns : List QString) : Except Fault QString :=
  (ruleCells widths columns.length 0).map (join ['+'])

/-- Function `printColumnHeader`: the text sent to `qOut`, the header line directly
followed by the rule line. -/
def printColumnHeader (widths : List Int) (columns : List QString) : Except Fault QString :=
  match columnHeaderLine widths columns with
  | .error e => .error e
  | .ok header =>
    match columnRuleLine widths columns with
    | .error e => .error e
    | .ok rule => .ok (header ++ rule)

/-- The `foreach` of lines 386-390, with `i` the running index. -/
def dataCells (nullValue : QString) (widths : List Int) :
    List QVariant → Nat → Except Fault (List QString)
  | [], _ => .ok []
  | value :: rest, i =>
    match widths[i]? with
    | none => .error .indexOutOfRange
    | some w =>
      match dataCells nullValue widths rest (i + 1) with
      | .error e => .error e
      | .ok line => .ok (pad (left (getValueString nullValue value) w) w ' ' :: line)

/-- Function `printColumnDataRow`: the text sent to `qOut` for one row. -/
def printColumnDataRow (nullValue : QString) (widths : List Int) (row : List QVariant)
    (rowIdOffset : Nat) : Except Fault QString :=
  (dataCells nullValue widths (row.drop rowIdOffset) 0).map (join ['|'])

/-! ## The four display modes -/

/-- What a call has produced: the messages given to `println`, the text sent to
`qOut`, and the fault that stopped it, if any. -/
structure Outcome where
  printed : List QString
  out : QString
  fault : Option Fault
deriving DecidableEq

/-- The message of lines 136 and 178, for the mode name given; `tr` leaves the
text as it is. -/
def tooManyColumns (mode : String) : QString :=
  "Too many columns to display in ".toList ++ mode.toList ++ " mode.".toList

/-- A loop `printColumnDataRow(widths, row, rowIdColumns)` over the rows, after
`out` has been sent to `qOut`. -/
def printDataRows (nullValue : QString) (widths : List Int) (rowIdColumns : Nat) :
    List (List QVariant) → QString → Outcome
  | [], out => { printed := [], out := out, fault := none }
  | row :: rest, out =>
    match printColumnDataRow nullValue widths row rowIdColumns with
    | .error e => { printed := [], out := out, fault := some e }
    | .ok line => printDataRows nullValue widths rowIdColumns rest (out ++ line)

/-- C++ integer division. -/
def intDiv (a b : Int) : Except Fault Int :=
  if b = 0 then .error .divisionByZero else .ok (Int.tdiv a b)

/-- The list built by the loop of lines 140-149. -/
def fixedWidths (termCols resultColumnsCount baseColWidth : Int) : List Int :=
  (List.range resultColumnsCount.toNat).map fun (i : Nat) =>
    if (i : Int) + 1 = resultColumnsCount
    then baseColWidth + (termCols - resultColumnsCount * (baseColWidth + 1) + 1)
    else baseColWidth

/-- Function `printResultsFixed` (lines 123-163). `resultColumns` holds the display names,
`rows` the value lists the cursor yields. -/
def printResultsFixed (nullValue : QString) (termCols : Int) (resultColumns : List QString)
    (rowIdColumns : Nat) (rows : List (List QVariant)) : Outcome :=
  let resultColumnsCount : Int := resultColumns.length
  match intDiv termCols resultColumns.length with
  | .error e => { printed := [], out := [], fault := some e }
  | .ok quotient =>
    let baseColWidth := quotient - 1
    if resultColumnsCount = 0 then { printed := [], out := [], fault := none }
    else if resultColumnsCount * 2 - 1 > termCols then
      { printed := [tooManyColumns "FIXED"], out := [], fault := none }
    else
      let widths := fixedWidths termCols resultColumnsCount baseColWidth
      match printColumnHeader widths resultColumns with
      | .error e => { printed := [], out := [], fault := some e }
      | .ok header => printDataRows nullValue widths rowIdColumns rows header

/-- The `foreach` of lines 189-195 from column number `i` on: one object per
result column, allocated at `alloc i`, with the header width set. -/
def initialColumnWidths (alloc : Nat → Nat) : List QString → Nat → List SortedColumnWidth
  | [], _ => []
  | name :: rest, i =>
    (SortedColumnWidth.create (alloc i)).setHeaderWidth name.length ::
      initialColumnWidths alloc rest (i + 1)

/-- The inner `for` of lines 200-204 for one row, from column number `i` on. -/
def scanRow (rowIdColumns : Nat) (row : List QVariant) :
    List SortedColumnWidth → Nat → List SortedColumnWidth
  | [], _ => []
  | c :: rest, i =>
    c.setMinDataWidth ((rowValue row (rowIdColumns + i)).toString.length) ::
      scanRow rowIdColumns row rest (i + 1)

/-- The `foreach` of lines 198-205 over all rows. -/
def scanRows (rowIdColumns : Nat) :
    List (List QVariant) → List SortedColumnWidth → List SortedColumnWidth
  | [], cols => cols
  | row :: rest, cols => scanRows rowIdColumns rest (scanRow rowIdColumns row cols 0)

/-- The list `columnWidths` after lines 186-205. -/
def measuredColumnWidths (alloc : Nat → Nat) (resultColumns : List QString)
    (rowIdColumns : Nat) (allRows : List (List QVariant)) : List SortedColumnWidth :=
  scanRows rowIdColumns allRows (initialColumnWidths alloc resultColumns 0)

/-- The sum of `getWidth()` over the list (lines 208-210). -/
def sumWidths (cols : List SortedColumnWidth) : Int :=
  (cols.map SortedColumnWidth.getWidth).sum

/-- Variable `totalWidth` after line 212, for a list of `resultColumnsCount` columns. -/
def totalWidthOf (cols : List SortedColumnWidth) (resultColumnsCount : Int) : Int :=
  sumWidths cols + (resultColumnsCount - 1)

/-- Lines 214-225: grow the last column, or shrink, or leave the list as it is. -/
def adjustColumnWidths (less : SortedColumnWidth → SortedColumnWidth → Bool)
    (columnWidths : List SortedColumnWidth) (termCols resultColumnsCount totalWidth : Int) :
    Except Fault (List SortedColumnWidth) :=
  if totalWidth < termCols then
    match columnWidths.getLast? with
    | none => .error .indexOutOfRange
    | some c => .ok (columnWidths.dropLast ++ [c.incrWidth (termCols - totalWidth)])
  else if totalWidth > termCols then
    (shrinkColumns less columnWidths termCols resultColumnsCount totalWidth).map
      ShrinkState.columnWidths
  else .ok columnWidths

/-- The list `finalWidths` of lines 228-230, computed from the measured columns
(lines 207-230). -/
def columnsFinalWidths (less : SortedColumnWidth → SortedColumnWidth → Bool)
    (columnWidths : List SortedColumnWidth) (termCols resultColumnsCount : Int) :
    Except Fault (List Int) :=
  (adjustColumnWidths less columnWidths termCols resultColumnsCount
    (totalWidthOf columnWidths resultColumnsCount)).map
      (List.map SortedColumnWidth.getWidth)

/-- Function `printResultsColumns` (lines 165-238). `less` is the comparison `qSort`
applies, `alloc i` the address `new` returns for the object of column `i`. -/
def printResultsColumns (less : SortedColumnWidth → SortedColumnWidth → Bool)
    (alloc : Nat → Nat) (nullValue : QString) (termCols : Int) (resultColumns : List QString)
    (rowIdColumns : Nat) (allRows : List (List QVariant)) : Outcome :=
  let resultColumnsCount : Int := resultColumns.length
  if resultColumnsCount = 0 then { printed := [], out := [], fault := none }
  else if resultColumnsCount * 2 - 1 > termCols then
    { printed := [tooManyColumns "COLUMNS"], out := [], fault := none }
  else
    let columnWidths := measuredColumnWidths alloc resultColumns rowIdColumns allRows
    match columnsFinalWidths less columnWidths termCols resultColumnsCount with
    | .error e => { printed := [], out := [], fault := some e }
    | .ok finalWidths =>
      match printColumnHeader finalWidths resultColumns with
      | .error e => { printed := [], out := [], fault := some e }
      | .ok header => printDataRows nullValue finalWidths rowIdColumns allRows header

/-- The text of one data row in CLASSIC mode without its line end (lines 109-116),
`i` being the running index. -/
def classicCells (nullValue : QString) (resultColumnCount : Int) : List QVariant → Nat → QString
  | [], _ => []
  | value :: rest, i =>
    getValueString nullValue value ++
      (if (i : Int) + 1 < resultColumnCount then ['|'] else []) ++
      classicCells nullValue resultColumnCount rest (i + 1)

/-- The `while` loop of lines 104-119. -/
def classicRows (nullValue : QString) (resultColumnCount : Int) (rowIdColumns : Nat) :
    List (List QVariant) → QString
  | [] => []
  | row :: rest =>
    classicCells nullValue resultColumnCount (row.drop rowIdColumns) 0 ++ ['\n'] ++
      classicRows nullValue resultColumnCount rowIdColumns rest

/-- The header text of CLASSIC mode without its line end (lines 95-96). -/
def classicHeader : List QString → QString
  | [] => []
  | name :: rest => name ++ ['|'] ++ classicHeader rest

/-- Function `printResultsClassic` (lines 89-121). -/
def printResultsClassic (nullValue : QString) (resultColumns : List QString)
    (rowIdColumns : Nat) (rows : List (List QVariant)) : Outcome :=
  { printed := [],
    out := classicHeader resultColumns ++ ['\n'] ++
      classicRows nullValue resultColumns.length rowIdColumns rows,
    fault := none }

/-- Variable `colWidth` of lines 244-249: the greatest length of a display name. -/
def labelWidth : List QString → Int
  | [] => 0
  | name :: rest => max (name.length : Int) (labelWidth rest)

/-- The banner text `" " + tr("Row %1").arg(rowCnt) + " "` (line 266). -/
def rowCntString (rowCnt : Nat) : QString :=
  [' '] ++ "Row ".toList ++ Nat.toDigits 10 rowCnt ++ [' ']

/-- The `foreach` of lines 268-272 over the visible values of one row, `i` being
the running index, after `out` has been sent to `qOut`. -/
def rowFields (nullValue : QString) (columns : List QString) :
    List QVariant → Nat → QString → Outcome
  | [], _, out => { printed := [], out := out, fault := none }
  | value :: rest, i, out =>
    match columns[i]? with
    | none => { printed := [], out := out, fault := some .indexOutOfRange }
    | some label =>
      rowFields nullValue columns rest (i + 1)
        (out ++ (label ++ [':', ' '] ++ getValueString nullValue value) ++ ['\n'])

/-- The `while` loop of lines 262-274, `rowCnt` being the number of the next row. -/
def rowByRowLoop (nullValue : QString) (termWidth : Int) (columns : List QString)
    (rowIdColumns : Nat) : List (List QVariant) → Nat → QString → Outcome
  | [], _, out => { printed := [], out := out, fault := none }
  | row :: rest, rowCnt, out =>
    let banner := center (rowCntString rowCnt) (termWidth - 1) '-' ++ ['\n']
    let fields := rowFields nullValue columns (row.drop rowIdColumns) 0 (out ++ banner)
    match fields.fault with
    | some e => { printed := [], out := fields.out, fault := some e }
    | none => rowByRowLoop nullValue termWidth columns rowIdColumns rest (rowCnt + 1) fields.out

/-- Function `printResultsRowByRow` (lines 240-276). -/
def printResultsRowByRow (nullValue : QString) (termWidth : Int) (resultColumns : List QString)
    (rowIdColumns : Nat) (rows : List (List QVariant)) : Outcome :=
  let colWidth := labelWidth resultColumns
  let columns := resultColumns.map fun name => pad name (-colWidth) ' '
  rowByRowLoop nullValue termWidth columns rowIdColumns rows 1 []

/-- Whether every pass the loop makes from `s` (at most `fuel` passes) lowers
`totalWidth` by at most 1, that is, no pass shortens a column by more than one
character in one step. -/
def shrinkSingleSteps (less : SortedColumnWidth → SortedColumnWidth → Bool)
    (termCols resultColumnsCount : Int) : Nat → ShrinkState → Bool
  | 0, _ => true
  | fuel + 1, s =>
    if shrinkLoopCond termCols s then
      match shrinkPass less termCols resultColumnsCount s with
      | .error _ => true
      | .ok s1 =>
        decide (s.totalWidth - s1.totalWidth ≤ 1) &&
          shrinkSingleSteps less termCols resultColumnsCount fuel s1
    else true


/-! ## Predicates used in the statements -/

/-- The invariant of the class: `width` is the greater of the two parts. -/
def WidthOk (c : SortedColumnWidth) : Prop :=
  c.width = max c.headerWidth c.dataWidth

/-- A column whose header and data both fit `maxSingle`, so that no pass
shortens it in one step. -/
def WithinSingle (maxSingle : Int) (c : SortedColumnWidth) : Prop :=
  WidthOk c ∧ c.headerWidth ≤ maxSingle ∧ c.dataWidth ≤ maxSingle

/-- Variable `totalWidth` after line 212 for the columns measured from a result. -/
def measuredTotalWidth (alloc : Nat → Nat) (resultColumns : List QString)
    (rowIdColumns : Nat) (allRows : List (List QVariant)) : Int :=
  totalWidthOf (measuredColumnWidths alloc resultColumns rowIdColumns allRows)
    resultColumns.length

/-! ## The text of the lines -/

/-- The cells of a header line. -/
def headerCellsOf (widths : List Int) (columns : List QString) : List QString :=
  List.zipWith (fun col w => pad (left col w) w ' ') columns widths

/-- The cells of a rule line. -/
def ruleCellsOf (widths : List Int) : List QString :=
  widths.map (repeated ['-'])

/-- The cells of a data row line. -/
def dataCellsOf (nullValue : QString) (widths : List Int) (values : List QVariant) :
    List QString :=
  List.zipWith (fun value w => pad (left (getValueString nullValue value) w) w ' ') values widths

/-- The text FIXED and COLUMNS mode send to `qOut` for the widths given: the
header line, the rule line and the data row lines, one directly after the other. -/
def columnModeText (nullValue : QString) (widths : List Int) (resultColumns : List QString)
    (rowIdColumns : Nat) (rows : List (List QVariant)) : QString :=
  join ['|'] (headerCellsOf widths resultColumns) ++ join ['+'] (ruleCellsOf widths) ++
    (rows.map fun row => join ['|'] (dataCellsOf nullValue widths (row.drop rowIdColumns))).flatten

/-- A list of lines as text, each line followed by one line feed. -/
def terminated (lines : List QString) : QString :=
  (lines.map fun line => line ++ ['\n']).flatten

/-- The lines of CLASSIC mode: the header, then one line per row. -/
def classicLines (nullValue : QString) (resultColumns : List QString) (rowIdColumns : Nat)
    (rows : List (List QVariant)) : List QString :=
  classicHeader resultColumns ::
    rows.map fun row => classicCells nullValue resultColumns.length (row.drop rowIdColumns) 0

/-- A field line of ROW mode. -/
def rowFieldLine (nullValue : QString) (label : QString) (value : QVariant) : QString :=
  label ++ [':', ' '] ++ getValueString nullValue value

/-- The lines of ROW mode from row number `rowCnt` on: for each row the banner,
then one line per visible value. -/
def rowModeLines (nullValue : QString) (termWidth : Int) (columns : List QString)
    (rowIdColumns : Nat) : List (List QVariant) → Nat → List QString
  | [], _ => []
  | row :: rest, rowCnt =>
    (center (rowCntString rowCnt) (termWidth - 1) '-' ::
      List.zipWith (rowFieldLine nullValue) columns (row.drop rowIdColumns)) ++
      rowModeLines nullValue termWidth columns rowIdColumns rest (rowCnt + 1)

/-! ## Example results -/

/-- The address `new` returns for the object of column `i` when the objects lie
at rising addresses. -/
def risingAlloc (i : Nat) : Nat := 4096 + 16 * i

/-- The address `new` returns for the object of column `i` when the objects lie
at falling addresses. -/
def fallingAlloc (i : Nat) : Nat := 4096 - 16 * i

/-- Scenario A of the spec: the display names. -/
def scenarioANames : List QString := ["id".toList, "name".toList, "email".toList]

/-- Scenario A of the spec: the rows. -/
def scenarioARows : List (List QVariant) :=
  [[.value "1".toList, .value "Al".toList, .value "a@x.com".toList]]

/-- Two columns with display names of six characters. -/
def sixSixNames : List QString := ["abcdef".toList, "ghijkl".toList]

/-- Two columns, the wider one first: the display names. -/
def nameIdNames : List QString := ["name".toList, "id".toList]

/-- Two columns, the wider one first: the rows. -/
def nameIdRows : List (List QVariant) := [[.value "Alice".toList, .value "1".toList]]

/-- One column whose header (30 characters) and data (20 characters) both exceed
a terminal of 10 columns: the display names. -/
def longHeaderNames : List QString := [List.replicate 30 'h']

/-- One column whose header and data both exceed the terminal: the rows. -/
def longHeaderRows : List (List QVariant) := [[.value (List.replicate 20 'd')]]

/-- Two columns with display names of eight and of three characters. -/
def eightThreeNames : List QString := ["abcdefgh".toList, "xyz".toList]

/-! ## QVariant as Qt presents it -/

/-- What the renderer can observe of a Qt `QVariant`: the declared type
(`userType()`), `isValid()`, `isNull()` and the text `toString()` gives. -/
structure QVariantData where
  typeId : Nat
  isValid : Bool
  isNull : Bool
  text : QString
deriving DecidableEq

namespace QVariantData

/-- The cell value of the model that stands for these observations. -/
def toVariant (v : QVariantData) : QVariant :=
  if v.isValid && !v.isNull then .value v.text else .null

/-- Function `getValueString` (lines 395-401), branch by branch, on the
observations of a `QVariant`. -/
def getValueString (nullValue : QString) (v : QVariantData) : QString :=
  if v.isValid && !v.isNull then v.text else nullValue

end QVariantData

/-! ## ROW mode as the spec lays it out -/

/-- The greatest length of a display name. -/
def maxLabelLength : List QString → Nat
  | [] => 0
  | name :: rest => max name.length (maxLabelLength rest)

/-- The banner of row `k`: the text ` Row k ` centred in `termWidth - 1` columns
of `-`. -/
def rowBanner (termWidth : Int) (k : Nat) : QString :=
  center ([' '] ++ "Row ".toList ++ Nat.toDigits 10 k ++ [' ']) (termWidth - 1) '-'

/-- A field line: the label, spaces up to the greatest label length, `: `, and
the display string in full. -/
def rowLayoutField (nullValue : QString) (names : List QString) (name : QString)
    (value : QVariant) : QString :=
  name ++ List.replicate (maxLabelLength names - name.length) ' ' ++ [':', ' '] ++
    getValueString nullValue value

/-- The lines of ROW mode from row number `k` on: per row the banner, then one
field line per visible value. -/
def rowLayout (nullValue : QString) (termWidth : Int) (names : List QString)
    (rowIdColumns : Nat) : List (List QVariant) → Nat → List QString
  | [], _ => []
  | row :: rest, k =>
    (rowBanner termWidth k ::
      List.zipWith (rowLayoutField nullValue names) names (row.drop rowIdColumns)) ++
      rowLayout nullValue termWidth names rowIdColumns rest (k + 1)

/-- Scenario D of the spec: the display names. -/
def scenarioDNames : List QString := ["id".toList, "name".toList]

/-- Scenario D of the spec: the rows. -/
def scenarioDRows : List (List QVariant) := [[.value "1".toList, .value "Alice".toList]]

/-! ## The passes of one call of shrinkColumns -/

/-- The value of `shrinkData` in a pass that starts in state `s` (lines 292-306):
true unless a column has its header longer than its data. -/
def shrinkDataFlag (less : SortedColumnWidth → SortedColumnWidth → Bool) (s : ShrinkState) :
    Bool :=
  !((qSort less s.columnWidths).any SortedColumnWidth.isHeaderLonger)

/-- The states in which the passes of the loop start, in order, for a loop that
starts in `s` and is allowed `fuel` passes. -/
def shrinkTrace (less : SortedColumnWidth → SortedColumnWidth → Bool)
    (termCols resultColumnsCount : Int) : Nat → ShrinkState → List ShrinkState
  | 0, _ => []
  | fuel + 1, s =>
    if shrinkLoopCond termCols s then
      match shrinkPass less termCols resultColumnsCount s with
      | .error _ => [s]
      | .ok s1 => s :: shrinkTrace less termCols resultColumnsCount fuel s1
    else []

/-! ## Further example results -/

/-- Two columns with display names of six and of three characters. -/
def sixThreeNames : List QString := ["abcdef".toList, "xyz".toList]

/-- Two columns with display names of one character. -/
def abNames : List QString := ["a".toList, "b".toList]

/-- One row with values of six and of three characters. -/
def sixThreeRows : List (List QVariant) := [[.value "abcdef".toList, .value "xyz".toList]]

/-- One row with an empty text and a text of 20 characters. -/
def emptyLongRows : List (List QVariant) := [[.value [], .value (List.replicate 20 'd')]]

/-- One row with a null value and the text `x`. -/
def nullRows : List (List QVariant) := [[.null, .value "x".toList]]

/-- One column whose header (12 characters) and data (50 characters) are both
wider than a terminal of 10 columns: the display names. -/
def wideNames : List QString := [List.replicate 12 'h']

/-- One column whose header and data are both wider than the terminal: the rows. -/
def wideRows : List (List QVariant) := [[.value (List.replicate 50 'd')]]

/-! # Theorems -/

/-! ## FIXED mode: the widths -/

theorem intDiv_pos (a : Int) (n : Nat) (hn : 1 ≤ n) (ha : 0 ≤ a) :
    intDiv a n = .ok (a / n) := by
  have h0 : (n : Int) ≠ 0 := by omega
  simp only [intDiv, if_neg h0]
  rw [Int.tdiv_eq_ediv ha (by omega)]

theorem fixedWidths_eq (termCols base : Int) (m : Nat) :
    fixedWidths termCols ((m + 1 : Nat) : Int) base =
      List.replicate m base ++ [base + (termCols - ((m + 1 : Nat) : Int) * (base + 1) + 1)] := by
  unfold fixedWidths
  rw [Int.toNat_ofNat, List.range_succ, List.map_append]
  congr 1
  · rw [List.eq_replicate_iff]
    refine ⟨by simp, ?_⟩
    intro b hb
    rw [List.mem_map] at hb
    obtain ⟨i, hi, rfl⟩ := hb
    rw [List.mem_range] at hi
    rw [if_neg]
    push_cast
    omega
  · simp

/-- C4. FIXED mode widths. For `n ≥ 1` columns and `2n - 1 ≤ termCols` the division
of line 129 is defined and gives `floor(termCols / n)`; with
`base = floor(termCols / n) - 1` the list built by `printResultsFixed` has `n`
entries, the first `n - 1` equal to `base` and the last equal to `base` plus
what remains of `termCols` after `n` columns of `base` and `n - 1` separators
(that is `termCols mod n + 1`), and the widths and separators sum to `termCols`. -/
theorem printResultsFixed_widths (termCols : Int) (n : Nat) (hn : 1 ≤ n)
    (hfit : 2 * (n : Int) - 1 ≤ termCols) :
    intDiv termCols n = .ok (termCols / n) ∧
    fixedWidths termCols n (termCols / n - 1) =
      List.replicate (n - 1) (termCols / n - 1) ++
        [(termCols / n - 1) + (termCols - (n * (termCols / n - 1) + ((n : Int) - 1)))] ∧
    termCols - (n * (termCols / n - 1) + ((n : Int) - 1)) = termCols % n + 1 ∧
    (fixedWidths termCols n (termCols / n - 1)).length = n ∧
    (fixedWidths termCols n (termCols / n - 1)).sum + ((n : Int) - 1) = termCols := by
  obtain ⟨m, rfl⟩ : ∃ m, n = m + 1 := ⟨n - 1, by omega⟩
  have hq := Int.emod_add_ediv termCols ((m + 1 : Nat) : Int)
  refine ⟨intDiv_pos termCols _ hn (by omega), ?_, ?_, ?_, ?_⟩
  · rw [fixedWidths_eq]
    simp only [Nat.add_sub_cancel]
    congr 2
    ring
  · linarith
  · rw [fixedWidths_eq]; simp
  · rw [fixedWidths_eq]
    simp only [List.sum_append, List.sum_replicate, List.sum_cons, List.sum_nil, nsmul_eq_mul]
    push_cast
    ring

/-- Three columns in 20 terminal columns: widths 5, 5 and 8. -/
theorem printResultsFixed_widths_witness :
    1 ≤ 3 ∧ 2 * ((3 : Nat) : Int) - 1 ≤ 20 ∧
    fixedWidths 20 (3 : Nat) (20 / (3 : Nat) - 1) =
      List.replicate (3 - 1) (20 / ((3 : Nat) : Int) - 1) ++
        [(20 / ((3 : Nat) : Int) - 1) +
          (20 - (((3 : Nat) : Int) * (20 / ((3 : Nat) : Int) - 1) + (((3 : Nat) : Int) - 1)))] ∧
    (fixedWidths 20 (3 : Nat) (20 / (3 : Nat) - 1)).sum + (((3 : Nat) : Int) - 1) = 20 := by
  obtain ⟨-, h2, -, -, h5⟩ := printResultsFixed_widths 20 3 (by decide) (by decide)
  exact ⟨by decide, by decide, h2, h5⟩


/-! ## Sorting keeps the columns -/

theorem orderedInsert_perm (less : SortedColumnWidth → SortedColumnWidth → Bool)
    (x : SortedColumnWidth) (l : List SortedColumnWidth) :
    (orderedInsert less x l).Perm (x :: l) := by
  induction l with
  | nil => exact List.Perm.refl _
  | cons y ys ih =>
    unfold orderedInsert
    split
    · exact (List.Perm.cons y ih).trans (List.Perm.swap x y ys)
    · exact List.Perm.refl _

theorem qSort_perm (less : SortedColumnWidth → SortedColumnWidth → Bool)
    (l : List SortedColumnWidth) : (qSort less l).Perm l := by
  induction l with
  | nil => exact List.Perm.refl _
  | cons x xs ih =>
    unfold qSort
    exact (orderedInsert_perm less x _).trans (List.Perm.cons x ih)

theorem qSort_length (less : SortedColumnWidth → SortedColumnWidth → Bool)
    (l : List SortedColumnWidth) : (qSort less l).length = l.length :=
  (qSort_perm less l).length_eq

theorem mem_qSort (less : SortedColumnWidth → SortedColumnWidth → Bool)
    (l : List SortedColumnWidth) (c : SortedColumnWidth) : c ∈ qSort less l ↔ c ∈ l :=
  (qSort_perm less l).mem_iff

theorem sumWidths_qSort (less : SortedColumnWidth → SortedColumnWidth → Bool)
    (l : List SortedColumnWidth) : sumWidths (qSort less l) = sumWidths l :=
  ((qSort_perm less l).map SortedColumnWidth.getWidth).sum_eq

theorem sumWidths_set (cols : List SortedColumnWidth) (k : Nat) (c d : SortedColumnWidth)
    (h : cols[k]? = some c) :
    sumWidths (cols.set k d) = sumWidths cols - c.width + d.width := by
  induction cols generalizing k with
  | nil => simp at h
  | cons x xs ih =>
    cases k with
    | zero =>
      simp only [List.getElem?_cons_zero, Option.some.injEq] at h
      subst h
      simp only [sumWidths, List.set_cons_zero, List.map_cons, List.sum_cons,
        SortedColumnWidth.getWidth]
      ring
    | succ k =>
      simp only [List.getElem?_cons_succ] at h
      have := ih k h
      simp only [sumWidths, List.set_cons_succ, List.map_cons, List.sum_cons] at this ⊢
      rw [this]
      ring

/-! ## One pass of the shrink loop: progress -/

theorem shrinkDataScan_progress (maxSingle : Int) (cols : List SortedColumnWidth) (tw : Int)
    (k : Nat) (r : List SortedColumnWidth × Int)
    (h : shrinkDataScan maxSingle k cols tw = .ok r) :
    r.1.length = cols.length ∧ (r.2 + 1 ≤ tw ∨ r = (cols, tw)) := by
  induction k with
  | zero =>
    simp only [shrinkDataScan, Except.ok.injEq] at h
    subst h
    simp
  | succ k ih =>
    simp only [shrinkDataScan] at h
    split at h
    · cases h
    · rename_i c hc
      simp only [SortedColumnWidth.getDataWidth] at h
      split at h
      · simp only [Except.ok.injEq] at h
        subst h
        refine ⟨by simp, Or.inl ?_⟩
        simp only
        omega
      · split at h
        · simp only [Except.ok.injEq] at h
          subst h
          exact ⟨by simp, Or.inl (by simp)⟩
        · exact ih h

theorem shrinkHeaderScan_progress (maxSingle : Int) (cols : List SortedColumnWidth) (tw : Int)
    (k : Nat) (r : List SortedColumnWidth × Int)
    (h : shrinkHeaderScan maxSingle k cols tw = .ok r) :
    r.1.length = cols.length ∧ (r.2 + 1 ≤ tw ∨ r = (cols, tw)) := by
  induction k with
  | zero =>
    simp only [shrinkHeaderScan, Except.ok.injEq] at h
    subst h
    simp
  | succ k ih =>
    simp only [shrinkHeaderScan] at h
    split at h
    · cases h
    · rename_i c hc
      simp only [SortedColumnWidth.getHeaderWidth] at h
      split at h
      · exact ih h
      · split at h
        · simp only [Except.ok.injEq] at h
          subst h
          refine ⟨by simp, Or.inl ?_⟩
          simp only
          omega
        · split at h
          · simp only [Except.ok.injEq] at h
            subst h
            exact ⟨by simp, Or.inl (by simp)⟩
          · exact ih h

theorem shrinkDataScan_ok (maxSingle : Int) (cols : List SortedColumnWidth) (tw : Int)
    (k : Nat) (hk : k ≤ cols.length) :
    ∃ r, shrinkDataScan maxSingle k cols tw = .ok r := by
  induction k with
  | zero => exact ⟨_, rfl⟩
  | succ k ih =>
    have hlt : k < cols.length := hk
    simp only [shrinkDataScan, List.getElem?_eq_getElem hlt]
    split
    · exact ⟨_, rfl⟩
    · split
      · exact ⟨_, rfl⟩
      · exact ih (Nat.le_of_lt hlt)

theorem shrinkHeaderScan_ok (maxSingle : Int) (cols : List SortedColumnWidth) (tw : Int)
    (k : Nat) (hk : k ≤ cols.length) :
    ∃ r, shrinkHeaderScan maxSingle k cols tw = .ok r := by
  induction k with
  | zero => exact ⟨_, rfl⟩
  | succ k ih =>
    have hlt : k < cols.length := hk
    simp only [shrinkHeaderScan, List.getElem?_eq_getElem hlt]
    split
    · exact ih (Nat.le_of_lt hlt)
    · split
      · exact ⟨_, rfl⟩
      · split
        · exact ⟨_, rfl⟩
        · exact ih (Nat.le_of_lt hlt)


theorem shrinkPass_progress (less : SortedColumnWidth → SortedColumnWidth → Bool)
    (termCols n : Int) (s s1 : ShrinkState)
    (h : shrinkPass less termCols n s = .ok s1) :
    s1.previousTotalWidth = s.totalWidth ∧
    s1.columnWidths.length = s.columnWidths.length ∧
    (s1.totalWidth + 1 ≤ s.totalWidth ∨
      (s1.totalWidth = s.totalWidth ∧ s1.columnWidths = qSort less s.columnWidths)) := by
  unfold shrinkPass at h
  simp only at h
  split at h
  · cases h
  · rename_i cols tw hscan
    simp only [Except.ok.injEq] at h
    subst h
    have key : (cols, tw).1.length = (qSort less s.columnWidths).length ∧
        ((cols, tw).2 + 1 ≤ s.totalWidth ∨ (cols, tw) = (qSort less s.columnWidths, s.totalWidth)) := by
      split at hscan
      · exact shrinkDataScan_progress _ _ _ _ _ hscan
      · exact shrinkHeaderScan_progress _ _ _ _ _ hscan
    obtain ⟨hlen, hprog⟩ := key
    refine ⟨rfl, by simpa [qSort_length] using hlen, ?_⟩
    rcases hprog with hp | hp
    · exact Or.inl hp
    · simp only [Prod.mk.injEq] at hp
      exact Or.inr ⟨hp.2, hp.1⟩

theorem shrinkPass_ok (less : SortedColumnWidth → SortedColumnWidth → Bool)
    (termCols n : Int) (s : ShrinkState) (hn : n = s.columnWidths.length) :
    ∃ s1, shrinkPass less termCols n s = .ok s1 := by
  have hk : n.toNat ≤ (qSort less s.columnWidths).length := by
    rw [qSort_length, hn, Int.toNat_ofNat]
  unfold shrinkPass
  simp only
  split
  · rename_i e hscan
    exfalso
    split at hscan
    · obtain ⟨r, hr⟩ := shrinkDataScan_ok (maxSingleColumnWidth termCols n) _ s.totalWidth _ hk
      rw [hr] at hscan
      cases hscan
    · obtain ⟨r, hr⟩ := shrinkHeaderScan_ok (maxSingleColumnWidth termCols n) _ s.totalWidth _ hk
      rw [hr] at hscan
      cases hscan
  · exact ⟨_, rfl⟩

/-- After a pass, either the distance to `termCols` went down or the loop condition is off. -/
theorem shrinkPass_fuel (less : SortedColumnWidth → SortedColumnWidth → Bool)
    (termCols n : Int) (s s1 : ShrinkState) (fuel : Nat)
    (hcond : shrinkLoopCond termCols s = true)
    (hfuel : (s.totalWidth - termCols).toNat ≤ fuel + 1)
    (h : shrinkPass less termCols n s = .ok s1) :
    shrinkLoopCond termCols s1 = true → (s1.totalWidth - termCols).toNat ≤ fuel := by
  obtain ⟨hprev, -, hprog⟩ := shrinkPass_progress less termCols n s s1 h
  intro hc1
  simp only [shrinkLoopCond, Bool.and_eq_true, decide_eq_true_eq] at hcond hc1
  rcases hprog with hp | hp
  · omega
  · exact absurd (hp.1.trans hprev.symm) hc1.2

theorem shrinkLoopCond_fuel_zero (termCols : Int) (s : ShrinkState)
    (h : shrinkLoopCond termCols s = true → (s.totalWidth - termCols).toNat ≤ 0) :
    shrinkLoopCond termCols s = false := by
  by_contra hc
  have hc1 : shrinkLoopCond termCols s = true := by simpa using hc
  have := h hc1
  simp only [shrinkLoopCond, Bool.and_eq_true, decide_eq_true_eq] at hc1
  omega

/-- With enough fuel the loop ends by its own condition. -/
theorem shrinkLoop_exit (less : SortedColumnWidth → SortedColumnWidth → Bool)
    (termCols n : Int) (fuel : Nat) (s sf : ShrinkState)
    (hfuel : shrinkLoopCond termCols s = true → (s.totalWidth - termCols).toNat ≤ fuel)
    (h : shrinkLoop less termCols n fuel s = .ok sf) :
    shrinkLoopCond termCols sf = false := by
  induction fuel generalizing s with
  | zero =>
    simp only [shrinkLoop, Except.ok.injEq] at h
    subst h
    exact shrinkLoopCond_fuel_zero termCols s hfuel
  | succ fuel ih =>
    simp only [shrinkLoop] at h
    split at h
    · rename_i hcond
      split at h
      · cases h
      · rename_i s1 hpass
        exact ih s1 (shrinkPass_fuel less termCols n s s1 fuel hcond (hfuel hcond) hpass) h
    · rename_i hcond
      simp only [Except.ok.injEq] at h
      subst h
      simpa using hcond

/-- More fuel than the distance to `termCols` changes nothing. -/
theorem shrinkLoop_fuel (less : SortedColumnWidth → SortedColumnWidth → Bool)
    (termCols n : Int) (fuel extra : Nat) (s : ShrinkState)
    (hfuel : shrinkLoopCond termCols s = true → (s.totalWidth - termCols).toNat ≤ fuel) :
    shrinkLoop less termCols n (fuel + extra) s = shrinkLoop less termCols n fuel s ∧
    shrinkPasses less termCols n (fuel + extra) s = shrinkPasses less termCols n fuel s := by
  induction fuel generalizing s with
  | zero =>
    have hc := shrinkLoopCond_fuel_zero termCols s hfuel
    cases extra with
    | zero => exact ⟨rfl, rfl⟩
    | succ e =>
      simp only [Nat.zero_add, shrinkLoop, shrinkPasses, hc]
      simp
  | succ fuel ih =>
    rw [show fuel + 1 + extra = (fuel + extra) + 1 by omega]
    simp only [shrinkLoop, shrinkPasses]
    split
    · rename_i hcond
      split
      · exact ⟨rfl, rfl⟩
      · rename_i s1 hpass
        have := ih s1 (shrinkPass_fuel less termCols n s s1 fuel hcond (hfuel hcond) hpass)
        exact ⟨this.1, by rw [this.2]⟩
    · exact ⟨rfl, rfl⟩

theorem shrinkPasses_le (less : SortedColumnWidth → SortedColumnWidth → Bool)
    (termCols n : Int) (fuel : Nat) (s : ShrinkState) :
    shrinkPasses less termCols n fuel s ≤ fuel := by
  induction fuel generalizing s with
  | zero => simp [shrinkPasses]
  | succ fuel ih =>
    simp only [shrinkPasses]
    split
    · split
      · omega
      · rename_i s1 _
        have := ih s1
        omega
    · omega

theorem shrinkInit_fuel (termCols totalWidth : Int) (cols : List SortedColumnWidth) :
    shrinkLoopCond termCols (shrinkInit cols totalWidth) = true →
      ((shrinkInit cols totalWidth).totalWidth - termCols).toNat ≤ shrinkFuel termCols totalWidth := by
  intro _
  exact Nat.le_refl _

/-- However much fuel is given, the loop makes at most `totalWidth - termCols` passes. -/
theorem shrinkPasses_bound (less : SortedColumnWidth → SortedColumnWidth → Bool)
    (termCols n totalWidth : Int) (cols : List SortedColumnWidth) (fuel : Nat) :
    shrinkPasses less termCols n fuel (shrinkInit cols totalWidth) ≤
      (totalWidth - termCols).toNat := by
  rcases Nat.le_total fuel (shrinkFuel termCols totalWidth) with hle | hle
  · exact (shrinkPasses_le less termCols n fuel _).trans hle
  · obtain ⟨extra, rfl⟩ := Nat.exists_eq_add_of_le hle
    rw [(shrinkLoop_fuel less termCols n _ extra _ (shrinkInit_fuel termCols totalWidth cols)).2]
    exact shrinkPasses_le less termCols n _ _


/-! ## One pass of the shrink loop when nothing exceeds `maxSingleColumnWidth` -/

theorem decrData_spec (c : SortedColumnWidth) (hw : WidthOk c)
    (hd : c.headerWidth ≤ c.dataWidth) :
    WidthOk ((c.decrDataWidth defaultStep).setMaxHeaderWidth (c.decrDataWidth defaultStep).getDataWidth) ∧
    ((c.decrDataWidth defaultStep).setMaxHeaderWidth (c.decrDataWidth defaultStep).getDataWidth).width = c.width - 1 ∧
    ((c.decrDataWidth defaultStep).setMaxHeaderWidth (c.decrDataWidth defaultStep).getDataWidth).headerWidth
      ≤ c.headerWidth ∧
    ((c.decrDataWidth defaultStep).setMaxHeaderWidth (c.decrDataWidth defaultStep).getDataWidth).dataWidth
      = c.dataWidth - 1 := by
  unfold WidthOk at hw ⊢
  simp only [defaultStep, SortedColumnWidth.decrDataWidth, SortedColumnWidth.setMaxHeaderWidth,
    SortedColumnWidth.updateWidth, SortedColumnWidth.getDataWidth]
  split
  · simp only [max_self]
    rw [max_eq_right hd] at hw
    refine ⟨trivial, ?_, ?_, trivial⟩ <;> omega
  · rename_i hle
    rw [max_eq_right hd] at hw
    have hm : max c.headerWidth (c.dataWidth - 1) = c.dataWidth - 1 :=
      max_eq_right (by omega)
    simp only [hm]
    refine ⟨trivial, ?_, Int.le_refl _, trivial⟩
    omega

theorem decrHeader_spec (c : SortedColumnWidth) (hw : WidthOk c)
    (hd : c.dataWidth < c.headerWidth) :
    WidthOk (c.decrHeaderWidth defaultStep) ∧ (c.decrHeaderWidth defaultStep).width = c.width - 1 ∧
    (c.decrHeaderWidth defaultStep).headerWidth = c.headerWidth - 1 ∧
    (c.decrHeaderWidth defaultStep).dataWidth = c.dataWidth := by
  unfold WidthOk at hw ⊢
  simp only [defaultStep, SortedColumnWidth.decrHeaderWidth, SortedColumnWidth.updateWidth]
  rw [max_eq_left (by omega)] at hw
  rw [max_eq_left (by omega)]
  refine ⟨trivial, by omega, trivial, trivial⟩

theorem shrinkDataScan_exact (maxSingle : Int) (cols : List SortedColumnWidth) (tw : Int)
    (k : Nat) (r : List SortedColumnWidth × Int)
    (hinv : ∀ c ∈ cols, WithinSingle maxSingle c)
    (hdata : ∀ c ∈ cols, c.headerWidth ≤ c.dataWidth)
    (h : shrinkDataScan maxSingle k cols tw = .ok r) :
    (∀ c ∈ r.1, WithinSingle maxSingle c) ∧
    (r = (cols, tw) ∨ (r.2 = tw - 1 ∧ sumWidths r.1 = sumWidths cols - 1)) := by
  induction k with
  | zero =>
    simp only [shrinkDataScan, Except.ok.injEq] at h
    subst h
    exact ⟨hinv, Or.inl rfl⟩
  | succ k ih =>
    simp only [shrinkDataScan] at h
    split at h
    · cases h
    · rename_i c hc
      have hmem : c ∈ cols := List.getElem?_mem hc
      obtain ⟨hwok, hh, hdw⟩ := hinv c hmem
      simp only [SortedColumnWidth.getDataWidth] at h
      rw [if_neg (by omega)] at h
      split at h
      · simp only [Except.ok.injEq] at h
        subst h
        obtain ⟨h1, h2, h3, h4⟩ := decrData_spec c hwok (hdata c hmem)
        simp only [SortedColumnWidth.getDataWidth] at h1 h2 h3 h4
        refine ⟨?_, Or.inr ⟨rfl, ?_⟩⟩
        · intro x hx
          rcases List.mem_or_eq_of_mem_set hx with hx | hx
          · exact hinv x hx
          · subst hx
            exact ⟨h1, by omega, by omega⟩
        · simp only
          rw [sumWidths_set cols k c _ hc, h2]
          ring
      · exact ih h

theorem shrinkHeaderScan_exact (maxSingle : Int) (cols : List SortedColumnWidth) (tw : Int)
    (k : Nat) (r : List SortedColumnWidth × Int)
    (hinv : ∀ c ∈ cols, WithinSingle maxSingle c)
    (h : shrinkHeaderScan maxSingle k cols tw = .ok r) :
    (∀ c ∈ r.1, WithinSingle maxSingle c) ∧
    (r = (cols, tw) ∨ (r.2 = tw - 1 ∧ sumWidths r.1 = sumWidths cols - 1)) := by
  induction k with
  | zero =>
    simp only [shrinkHeaderScan, Except.ok.injEq] at h
    subst h
    exact ⟨hinv, Or.inl rfl⟩
  | succ k ih =>
    simp only [shrinkHeaderScan] at h
    split at h
    · cases h
    · rename_i c hc
      have hmem : c ∈ cols := List.getElem?_mem hc
      obtain ⟨hwok, hh, hdw⟩ := hinv c hmem
      simp only [SortedColumnWidth.getHeaderWidth] at h
      split at h
      · exact ih h
      · rename_i hlonger
        simp only [SortedColumnWidth.isHeaderLonger, Bool.not_eq_true', decide_eq_false_iff_not,
          not_not] at hlonger
        rw [if_neg (by omega)] at h
        split at h
        · simp only [Except.ok.injEq] at h
          subst h
          obtain ⟨h1, h2, h3, h4⟩ := decrHeader_spec c hwok hlonger
          refine ⟨?_, Or.inr ⟨rfl, ?_⟩⟩
          · intro x hx
            rcases List.mem_or_eq_of_mem_set hx with hx | hx
            · exact hinv x hx
            · subst hx
              exact ⟨h1, by omega, by omega⟩
          · simp only
            rw [sumWidths_set cols k c _ hc, h2]
            ring
        · exact ih h

theorem shrinkPass_exact (less : SortedColumnWidth → SortedColumnWidth → Bool)
    (termCols n : Int) (s s1 : ShrinkState)
    (hinv : ∀ c ∈ s.columnWidths, WithinSingle (maxSingleColumnWidth termCols n) c)
    (h : shrinkPass less termCols n s = .ok s1) :
    (∀ c ∈ s1.columnWidths, WithinSingle (maxSingleColumnWidth termCols n) c) ∧
    ((s1.totalWidth = s.totalWidth ∧ sumWidths s1.columnWidths = sumWidths s.columnWidths) ∨
     (s1.totalWidth = s.totalWidth - 1 ∧
        sumWidths s1.columnWidths = sumWidths s.columnWidths - 1)) := by
  have hinv' : ∀ c ∈ qSort less s.columnWidths,
      WithinSingle (maxSingleColumnWidth termCols n) c :=
    fun c hc => hinv c ((mem_qSort less _ c).1 hc)
  unfold shrinkPass at h
  simp only at h
  split at h
  · cases h
  · rename_i cols tw hscan
    simp only [Except.ok.injEq] at h
    subst h
    have key : (∀ c ∈ (cols, tw).1, WithinSingle (maxSingleColumnWidth termCols n) c) ∧
        ((cols, tw) = (qSort less s.columnWidths, s.totalWidth) ∨
          ((cols, tw).2 = s.totalWidth - 1 ∧
            sumWidths (cols, tw).1 = sumWidths (qSort less s.columnWidths) - 1)) := by
      split at hscan
      · rename_i hany
        refine shrinkDataScan_exact _ _ _ _ _ hinv' ?_ hscan
        intro c hc
        simp only [Bool.not_eq_true', List.any_eq_false] at hany
        have := hany c hc
        simp only [SortedColumnWidth.isHeaderLonger, decide_eq_true_eq] at this
        omega
      · exact shrinkHeaderScan_exact _ _ _ _ _ hinv' hscan
    obtain ⟨hi, hp⟩ := key
    refine ⟨hi, ?_⟩
    rcases hp with hp | hp
    · simp only [Prod.mk.injEq] at hp
      left
      exact ⟨hp.2, by simp only [hp.1, sumWidths_qSort]⟩
    · right
      simpa only [sumWidths_qSort] using hp

theorem shrinkLoop_ok (less : SortedColumnWidth → SortedColumnWidth → Bool)
    (termCols n : Int) (fuel : Nat) (s : ShrinkState) (hn : n = s.columnWidths.length) :
    ∃ sf, shrinkLoop less termCols n fuel s = .ok sf ∧
      sf.columnWidths.length = s.columnWidths.length := by
  induction fuel generalizing s with
  | zero => exact ⟨s, rfl, rfl⟩
  | succ fuel ih =>
    simp only [shrinkLoop]
    split
    · obtain ⟨s1, hs1⟩ := shrinkPass_ok less termCols n s hn
      have hlen := (shrinkPass_progress less termCols n s s1 hs1).2.1
      rw [hs1]
      obtain ⟨sf, hsf, hl⟩ := ih s1 (by rw [hlen]; exact hn)
      exact ⟨sf, hsf, hl.trans hlen⟩
    · exact ⟨s, rfl, rfl⟩

theorem shrinkLoop_exact (less : SortedColumnWidth → SortedColumnWidth → Bool)
    (termCols n : Int) (fuel : Nat) (s sf : ShrinkState)
    (hinv : ∀ c ∈ s.columnWidths, WithinSingle (maxSingleColumnWidth termCols n) c)
    (htrack : s.totalWidth = totalWidthOf s.columnWidths n)
    (hge : termCols ≤ s.totalWidth)
    (h : shrinkLoop less termCols n fuel s = .ok sf) :
    (∀ c ∈ sf.columnWidths, WithinSingle (maxSingleColumnWidth termCols n) c) ∧
    sf.totalWidth = totalWidthOf sf.columnWidths n ∧ termCols ≤ sf.totalWidth := by
  induction fuel generalizing s with
  | zero =>
    simp only [shrinkLoop, Except.ok.injEq] at h
    subst h
    exact ⟨hinv, htrack, hge⟩
  | succ fuel ih =>
    simp only [shrinkLoop] at h
    split at h
    · rename_i hcond
      split at h
      · cases h
      · rename_i s1 hpass
        obtain ⟨hi1, hp⟩ := shrinkPass_exact less termCols n s s1 hinv hpass
        simp only [shrinkLoopCond, Bool.and_eq_true, decide_eq_true_eq] at hcond
        unfold totalWidthOf at htrack ⊢
        refine ih s1 hi1 ?_ ?_ h
        · unfold totalWidthOf
          rcases hp with hp | hp <;> omega
        · rcases hp with hp | hp <;> omega
    · simp only [Except.ok.injEq] at h
      subst h
      exact ⟨hinv, htrack, hge⟩


/-! ## The measured columns -/

theorem widthOk_updateWidth (c : SortedColumnWidth) : WidthOk c.updateWidth := rfl

theorem widthOk_setMinDataWidth (c : SortedColumnWidth) (value : Int) (h : WidthOk c) :
    WidthOk (c.setMinDataWidth value) := by
  unfold SortedColumnWidth.setMinDataWidth
  split
  · exact widthOk_updateWidth _
  · exact h

theorem initialColumnWidths_spec (alloc : Nat → Nat) (names : List QString) (i : Nat) :
    (initialColumnWidths alloc names i).length = names.length ∧
    ∀ c ∈ initialColumnWidths alloc names i, WidthOk c := by
  induction names generalizing i with
  | nil => simp [initialColumnWidths]
  | cons name rest ih =>
    obtain ⟨hl, hw⟩ := ih (i + 1)
    refine ⟨by simp [initialColumnWidths, hl], ?_⟩
    intro c hc
    simp only [initialColumnWidths, List.mem_cons] at hc
    rcases hc with rfl | hc
    · exact widthOk_updateWidth _
    · exact hw c hc

theorem scanRow_spec (rowIdColumns : Nat) (row : List QVariant) (cols : List SortedColumnWidth)
    (i : Nat) (h : ∀ c ∈ cols, WidthOk c) :
    (scanRow rowIdColumns row cols i).length = cols.length ∧
    ∀ c ∈ scanRow rowIdColumns row cols i, WidthOk c := by
  induction cols generalizing i with
  | nil => simp [scanRow]
  | cons x xs ih =>
    obtain ⟨hl, hw⟩ := ih (i + 1) (fun c hc => h c (List.mem_cons_of_mem _ hc))
    refine ⟨by simp [scanRow, hl], ?_⟩
    intro c hc
    simp only [scanRow, List.mem_cons] at hc
    rcases hc with rfl | hc
    · exact widthOk_setMinDataWidth _ _ (h x (List.mem_cons_self _ _))
    · exact hw c hc

theorem scanRows_spec (rowIdColumns : Nat) (rows : List (List QVariant))
    (cols : List SortedColumnWidth) (h : ∀ c ∈ cols, WidthOk c) :
    (scanRows rowIdColumns rows cols).length = cols.length ∧
    ∀ c ∈ scanRows rowIdColumns rows cols, WidthOk c := by
  induction rows generalizing cols with
  | nil => exact ⟨rfl, h⟩
  | cons row rest ih =>
    obtain ⟨hl, hw⟩ := scanRow_spec rowIdColumns row cols 0 h
    obtain ⟨hl2, hw2⟩ := ih (scanRow rowIdColumns row cols 0) hw
    exact ⟨by simp only [scanRows]; rw [hl2, hl], by simpa only [scanRows] using hw2⟩

theorem measuredColumnWidths_spec (alloc : Nat → Nat) (names : List QString)
    (rowIdColumns : Nat) (rows : List (List QVariant)) :
    (measuredColumnWidths alloc names rowIdColumns rows).length = names.length ∧
    ∀ c ∈ measuredColumnWidths alloc names rowIdColumns rows, WidthOk c := by
  obtain ⟨hl, hw⟩ := initialColumnWidths_spec alloc names 0
  obtain ⟨hl2, hw2⟩ := scanRows_spec rowIdColumns rows _ hw
  exact ⟨hl2.trans hl, hw2⟩

/-! ## Growing the last column -/

theorem adjust_grow (less : SortedColumnWidth → SortedColumnWidth → Bool)
    (front : List SortedColumnWidth) (last : SortedColumnWidth) (termCols n total : Int)
    (h : total < termCols) :
    adjustColumnWidths less (front ++ [last]) termCols n total =
      .ok (front ++ [last.incrWidth (termCols - total)]) := by
  unfold adjustColumnWidths
  rw [if_pos h]
  simp

theorem adjust_equal (less : SortedColumnWidth → SortedColumnWidth → Bool)
    (cols : List SortedColumnWidth) (termCols n : Int) :
    adjustColumnWidths less cols termCols n termCols = .ok cols := by
  unfold adjustColumnWidths
  simp

theorem adjust_shrink (less : SortedColumnWidth → SortedColumnWidth → Bool)
    (cols : List SortedColumnWidth) (termCols n total : Int) (h : termCols < total) :
    adjustColumnWidths less cols termCols n total =
      (shrinkColumns less cols termCols n total).map ShrinkState.columnWidths := by
  unfold adjustColumnWidths
  rw [if_neg (by omega), if_pos h]

theorem sumWidths_append_single (front : List SortedColumnWidth) (last : SortedColumnWidth) :
    sumWidths (front ++ [last]) = sumWidths front + last.width := by
  simp [sumWidths, SortedColumnWidth.getWidth]

theorem exists_front_last (cols : List SortedColumnWidth) (h : cols ≠ []) :
    ∃ front last, cols = front ++ [last] :=
  ⟨cols.dropLast, cols.getLast h, (List.dropLast_append_getLast h).symm⟩


/-! ## One pass of the shrink loop: the widths against `totalWidth` -/

theorem widthOk_setMaxHeaderWidth (c : SortedColumnWidth) (value : Int) (h : WidthOk c) :
    WidthOk (c.setMaxHeaderWidth value) := by
  unfold SortedColumnWidth.setMaxHeaderWidth
  split
  · exact widthOk_updateWidth _
  · exact h

theorem clampData_width (c : SortedColumnWidth) (m : Int) :
    ((c.setDataWidth m).setMaxHeaderWidth m).width = m := by
  simp only [SortedColumnWidth.setDataWidth, SortedColumnWidth.setMaxHeaderWidth,
    SortedColumnWidth.updateWidth]
  split
  · simp
  · rename_i h
    simp only
    exact max_eq_right (by omega)

theorem clampHeader_width (c : SortedColumnWidth) (m : Int) :
    (c.setHeaderWidth m).width = max m c.dataWidth := rfl

theorem shrinkDataScan_single (maxSingle : Int) (cols : List SortedColumnWidth) (tw : Int)
    (k : Nat) (r : List SortedColumnWidth × Int)
    (hok : ∀ c ∈ cols, WidthOk c)
    (hdata : ∀ c ∈ cols, c.headerWidth ≤ c.dataWidth)
    (h : shrinkDataScan maxSingle k cols tw = .ok r) :
    (∀ c ∈ r.1, WidthOk c) ∧ sumWidths r.1 - sumWidths cols = r.2 - tw := by
  induction k with
  | zero =>
    simp only [shrinkDataScan, Except.ok.injEq] at h
    subst h
    exact ⟨hok, by simp⟩
  | succ k ih =>
    simp only [shrinkDataScan] at h
    split at h
    · cases h
    · rename_i c hc
      have hmem : c ∈ cols := List.getElem?_mem hc
      have hwc : c.width = c.dataWidth := by
        have := hok c hmem
        unfold WidthOk at this
        rw [this]
        exact max_eq_right (hdata c hmem)
      simp only [SortedColumnWidth.getDataWidth] at h
      split at h
      · simp only [Except.ok.injEq] at h
        subst h
        refine ⟨?_, ?_⟩
        · intro x hx
          rcases List.mem_or_eq_of_mem_set hx with hx | hx
          · exact hok x hx
          · subst hx
            exact widthOk_setMaxHeaderWidth _ _ (widthOk_updateWidth _)
        · simp only
          rw [sumWidths_set cols k c _ hc, clampData_width, hwc]
          ring
      · split at h
        · simp only [Except.ok.injEq] at h
          subst h
          obtain ⟨h1, h2, -, -⟩ := decrData_spec c (hok c hmem) (hdata c hmem)
          simp only [SortedColumnWidth.getDataWidth] at h1 h2
          refine ⟨?_, ?_⟩
          · intro x hx
            rcases List.mem_or_eq_of_mem_set hx with hx | hx
            · exact hok x hx
            · subst hx
              exact h1
          · simp only
            rw [sumWidths_set cols k c _ hc, h2]
            ring
        · exact ih h

theorem shrinkHeaderScan_single (maxSingle : Int) (cols : List SortedColumnWidth) (tw : Int)
    (k : Nat) (r : List SortedColumnWidth × Int)
    (hok : ∀ c ∈ cols, WidthOk c)
    (h : shrinkHeaderScan maxSingle k cols tw = .ok r) :
    (∀ c ∈ r.1, WidthOk c) ∧
    (tw - r.2 ≤ 1 → sumWidths r.1 - sumWidths cols = r.2 - tw) := by
  induction k with
  | zero =>
    simp only [shrinkHeaderScan, Except.ok.injEq] at h
    subst h
    exact ⟨hok, fun _ => by simp⟩
  | succ k ih =>
    simp only [shrinkHeaderScan] at h
    split at h
    · cases h
    · rename_i c hc
      have hmem : c ∈ cols := List.getElem?_mem hc
      simp only [SortedColumnWidth.getHeaderWidth] at h
      split at h
      · exact ih h
      · rename_i hlonger
        simp only [SortedColumnWidth.isHeaderLonger, Bool.not_eq_true', decide_eq_false_iff_not,
          not_not] at hlonger
        have hwc : c.width = c.headerWidth := by
          have := hok c hmem
          unfold WidthOk at this
          rw [this]
          exact max_eq_left (by omega)
        split at h
        · simp only [Except.ok.injEq] at h
          subst h
          refine ⟨?_, ?_⟩
          · intro x hx
            rcases List.mem_or_eq_of_mem_set hx with hx | hx
            · exact hok x hx
            · subst hx
              exact widthOk_updateWidth _
          · intro hdrop
            simp only at hdrop ⊢
            rw [sumWidths_set cols k c _ hc, clampHeader_width, hwc,
              max_eq_left (by omega)]
            ring
        · split at h
          · simp only [Except.ok.injEq] at h
            subst h
            obtain ⟨h1, h2, -, -⟩ := decrHeader_spec c (hok c hmem) hlonger
            refine ⟨?_, fun _ => ?_⟩
            · intro x hx
              rcases List.mem_or_eq_of_mem_set hx with hx | hx
              · exact hok x hx
              · subst hx
                exact h1
            · simp only
              rw [sumWidths_set cols k c _ hc, h2]
              ring
          · exact ih h

theorem shrinkPass_single (less : SortedColumnWidth → SortedColumnWidth → Bool)
    (termCols n : Int) (s s1 : ShrinkState)
    (hok : ∀ c ∈ s.columnWidths, WidthOk c)
    (h : shrinkPass less termCols n s = .ok s1) :
    (∀ c ∈ s1.columnWidths, WidthOk c) ∧
    (s.totalWidth - s1.totalWidth ≤ 1 →
      sumWidths s1.columnWidths - sumWidths s.columnWidths = s1.totalWidth - s.totalWidth) := by
  have hok' : ∀ c ∈ qSort less s.columnWidths, WidthOk c :=
    fun c hc => hok c ((mem_qSort less _ c).1 hc)
  unfold shrinkPass at h
  simp only at h
  split at h
  · cases h
  · rename_i cols tw hscan
    simp only [Except.ok.injEq] at h
    subst h
    simp only
    rw [← sumWidths_qSort less s.columnWidths]
    split at hscan
    · rename_i hany
      have hdata : ∀ c ∈ qSort less s.columnWidths, c.headerWidth ≤ c.dataWidth := by
        intro c hc
        simp only [Bool.not_eq_true', List.any_eq_false] at hany
        have := hany c hc
        simp only [SortedColumnWidth.isHeaderLonger, decide_eq_true_eq] at this
        omega
      obtain ⟨h1, h2⟩ := shrinkDataScan_single _ _ _ _ _ hok' hdata hscan
      exact ⟨h1, fun _ => h2⟩
    · exact shrinkHeaderScan_single _ _ _ _ _ hok' hscan

theorem shrinkLoop_single (less : SortedColumnWidth → SortedColumnWidth → Bool)
    (termCols n : Int) (fuel : Nat) (s sf : ShrinkState)
    (hok : ∀ c ∈ s.columnWidths, WidthOk c)
    (htrack : s.totalWidth = totalWidthOf s.columnWidths n)
    (hge : termCols ≤ s.totalWidth)
    (hsingle : shrinkSingleSteps less termCols n fuel s = true)
    (h : shrinkLoop less termCols n fuel s = .ok sf) :
    sf.totalWidth = totalWidthOf sf.columnWidths n ∧ termCols ≤ sf.totalWidth := by
  induction fuel generalizing s with
  | zero =>
    simp only [shrinkLoop, Except.ok.injEq] at h
    subst h
    exact ⟨htrack, hge⟩
  | succ fuel ih =>
    simp only [shrinkLoop] at h
    simp only [shrinkSingleSteps] at hsingle
    split at h
    · rename_i hcond
      rw [if_pos hcond] at hsingle
      split at h
      · cases h
      · rename_i s1 hpass
        rw [hpass] at hsingle
        simp only [Bool.and_eq_true, decide_eq_true_eq] at hsingle
        obtain ⟨hok1, hp⟩ := shrinkPass_single less termCols n s s1 hok hpass
        have hp := hp hsingle.1
        simp only [shrinkLoopCond, Bool.and_eq_true, decide_eq_true_eq] at hcond
        unfold totalWidthOf at htrack
        refine ih s1 hok1 ?_ ?_ hsingle.2 h
        · unfold totalWidthOf
          omega
        · omega
    · simp only [Except.ok.injEq] at h
      subst h
      exact ⟨htrack, hge⟩

theorem shrinkSingleSteps_of_within (less : SortedColumnWidth → SortedColumnWidth → Bool)
    (termCols n : Int) (fuel : Nat) (s : ShrinkState)
    (hinv : ∀ c ∈ s.columnWidths, WithinSingle (maxSingleColumnWidth termCols n) c) :
    shrinkSingleSteps less termCols n fuel s = true := by
  induction fuel generalizing s with
  | zero => rfl
  | succ fuel ih =>
    simp only [shrinkSingleSteps]
    split
    · split
      · rfl
      · rename_i s1 hpass
        obtain ⟨hi1, hp⟩ := shrinkPass_exact less termCols n s s1 hinv hpass
        simp only [Bool.and_eq_true, decide_eq_true_eq]
        refine ⟨?_, ih s1 hi1⟩
        rcases hp with hp | hp <;> omega
    · rfl


/-! ## COLUMNS mode: the widths after the adjustment -/

theorem measured_ne_nil (alloc : Nat → Nat) (names : List QString) (rowIdColumns : Nat)
    (rows : List (List QVariant)) (hne : names ≠ []) :
    measuredColumnWidths alloc names rowIdColumns rows ≠ [] := by
  intro h
  have hl := (measuredColumnWidths_spec alloc names rowIdColumns rows).1
  rw [h] at hl
  exact hne (List.length_eq_zero.1 hl.symm)

theorem grow_last_spec (less : SortedColumnWidth → SortedColumnWidth → Bool)
    (alloc : Nat → Nat) (termCols : Int) (names : List QString) (rowIdColumns : Nat)
    (rows : List (List QVariant)) (hne : names ≠ [])
    (hfit : measuredTotalWidth alloc names rowIdColumns rows ≤ termCols) :
    ∃ front last,
      measuredColumnWidths alloc names rowIdColumns rows = front ++ [last] ∧
      last.width = max last.headerWidth last.dataWidth ∧
      adjustColumnWidths less (measuredColumnWidths alloc names rowIdColumns rows) termCols
          names.length (measuredTotalWidth alloc names rowIdColumns rows) =
        .ok (front ++ [if measuredTotalWidth alloc names rowIdColumns rows < termCols
          then last.incrWidth (termCols - measuredTotalWidth alloc names rowIdColumns rows)
          else last]) ∧
      last.incrWidth (termCols - measuredTotalWidth alloc names rowIdColumns rows) =
        { addr := last.addr,
          dataWidth := last.width + (termCols - measuredTotalWidth alloc names rowIdColumns rows),
          headerWidth :=
            last.width + (termCols - measuredTotalWidth alloc names rowIdColumns rows),
          width := last.width + (termCols - measuredTotalWidth alloc names rowIdColumns rows) } ∧
      columnsFinalWidths less (measuredColumnWidths alloc names rowIdColumns rows) termCols
          names.length =
        .ok (front.map SortedColumnWidth.getWidth ++
          [last.width + (termCols - measuredTotalWidth alloc names rowIdColumns rows)]) := by
  obtain ⟨front, last, hfl⟩ :=
    exists_front_last _ (measured_ne_nil alloc names rowIdColumns rows hne)
  have hwok : WidthOk last :=
    (measuredColumnWidths_spec alloc names rowIdColumns rows).2 last (by rw [hfl]; simp)
  refine ⟨front, last, hfl, hwok, ?_, rfl, ?_⟩
  · rcases lt_or_eq_of_le hfit with hlt | heq
    · rw [if_pos hlt, hfl]
      exact adjust_grow less front last termCols _ _ hlt
    · rw [if_neg (by omega), heq, ← hfl]
      exact adjust_equal less _ termCols _
  · unfold columnsFinalWidths
    have ht : totalWidthOf (measuredColumnWidths alloc names rowIdColumns rows) names.length =
        measuredTotalWidth alloc names rowIdColumns rows := rfl
    rw [ht]
    rcases lt_or_eq_of_le hfit with hlt | heq
    · rw [hfl, adjust_grow less front last termCols _ _ hlt]
      simp [Except.map, SortedColumnWidth.getWidth, SortedColumnWidth.incrWidth]
    · rw [heq, adjust_equal, hfl]
      simp [Except.map, SortedColumnWidth.getWidth]

/-- C3. Growth only: when the measured total is at most `termCols`, every column
but the last keeps its entry, and the last column's width becomes its measured
width `max(headerWidth, dataWidth)` plus `termCols - total`; when the total is
smaller its header and data width are both set to that width, and at equality
the list is left as it is. -/
theorem printResultsColumns_growth_only (less : SortedColumnWidth → SortedColumnWidth → Bool)
    (alloc : Nat → Nat) (termCols : Int) (names : List QString) (rowIdColumns : Nat)
    (rows : List (List QVariant)) (hne : names ≠ [])
    (hfit : measuredTotalWidth alloc names rowIdColumns rows ≤ termCols) :
    ∃ front last,
      measuredColumnWidths alloc names rowIdColumns rows = front ++ [last] ∧
      last.width = max last.headerWidth last.dataWidth ∧
      adjustColumnWidths less (measuredColumnWidths alloc names rowIdColumns rows) termCols
          names.length (measuredTotalWidth alloc names rowIdColumns rows) =
        .ok (front ++ [if measuredTotalWidth alloc names rowIdColumns rows < termCols
          then last.incrWidth (termCols - measuredTotalWidth alloc names rowIdColumns rows)
          else last]) ∧
      last.incrWidth (termCols - measuredTotalWidth alloc names rowIdColumns rows) =
        { addr := last.addr,
          dataWidth := last.width + (termCols - measuredTotalWidth alloc names rowIdColumns rows),
          headerWidth :=
            last.width + (termCols - measuredTotalWidth alloc names rowIdColumns rows),
          width := last.width + (termCols - measuredTotalWidth alloc names rowIdColumns rows) } ∧
      columnsFinalWidths less (measuredColumnWidths alloc names rowIdColumns rows) termCols
          names.length =
        .ok (front.map SortedColumnWidth.getWidth ++
          [last.width + (termCols - measuredTotalWidth alloc names rowIdColumns rows)]) :=
  grow_last_spec less alloc termCols names rowIdColumns rows hne hfit

/-- Scenario A of the spec (total 15, `termCols` 20): the last column grows by 5. -/
theorem printResultsColumns_growth_only_witness :
    scenarioANames ≠ [] ∧ measuredTotalWidth risingAlloc scenarioANames 0 scenarioARows ≤ 20 ∧
    ∃ front last,
      measuredColumnWidths risingAlloc scenarioANames 0 scenarioARows = front ++ [last] ∧
      columnsFinalWidths ptrLess (measuredColumnWidths risingAlloc scenarioANames 0 scenarioARows)
        20 scenarioANames.length =
        .ok (front.map SortedColumnWidth.getWidth ++
          [last.width + (20 - measuredTotalWidth risingAlloc scenarioANames 0 scenarioARows)]) := by
  refine ⟨by decide, by decide, ?_⟩
  obtain ⟨front, last, h1, -, -, -, h5⟩ :=
    printResultsColumns_growth_only ptrLess risingAlloc 20 scenarioANames 0 scenarioARows
      (by decide) (by decide)
  exact ⟨front, last, h1, h5⟩

/-- A loop whose condition is false returns its state, whatever the fuel. -/
theorem shrinkLoop_done (less : SortedColumnWidth → SortedColumnWidth → Bool)
    (termCols resultColumnsCount : Int) (fuel : Nat) (s : ShrinkState)
    (h : shrinkLoopCond termCols s = false) :
    shrinkLoop less termCols resultColumnsCount fuel s = .ok s := by
  cases fuel with
  | zero => rfl
  | succ m => simp only [shrinkLoop, h, Bool.false_eq_true, if_false]

/-- One column wider than the terminal. For every comparison of `qSort`, every
`termCols ≥ 1` and every column that satisfies the invariant of the class and
is wider than `termCols`, the loop of `shrinkColumns` makes one pass, the cut
to `maxSingleColumnWidth = termCols - 1`, and COLUMNS mode ends with the width
`termCols - 1`; when the header is longer than the data the width is the
greater of `termCols - 1` and the data width, which the header pass leaves as
it is. -/
theorem one_column_cut (less : SortedColumnWidth → SortedColumnWidth → Bool)
    (c : SortedColumnWidth) (termCols : Int) (hok : WidthOk c) (ht : 1 ≤ termCols)
    (hw : termCols < c.width) :
    columnsFinalWidths less [c] termCols 1 =
      .ok [if c.headerWidth > c.dataWidth then max (termCols - 1) c.dataWidth
           else termCols - 1] := by
  obtain ⟨addr, dw, hdr, w⟩ := c
  simp only [WidthOk] at hok
  simp only at hw
  subst hok
  have hfuel : ∃ m, shrinkFuel termCols (max hdr dw) = m + 1 := by
    refine ⟨(max hdr dw - termCols).toNat - 1, ?_⟩
    unfold shrinkFuel
    omega
  obtain ⟨m, hm⟩ := hfuel
  have htot : totalWidthOf [⟨addr, dw, hdr, max hdr dw⟩] 1 = max hdr dw := by
    simp [totalWidthOf, sumWidths, SortedColumnWidth.getWidth]
  have hnlt : ¬ max hdr dw < termCols := by omega
  have hcond : shrinkLoopCond termCols (shrinkInit [⟨addr, dw, hdr, max hdr dw⟩] (max hdr dw))
      = true := by
    simp only [shrinkLoopCond, shrinkInit, Bool.and_eq_true, decide_eq_true_eq]
    omega
  unfold columnsFinalWidths adjustColumnWidths
  rw [htot, if_neg hnlt, if_pos hw]
  unfold shrinkColumns
  rw [hm]
  simp only [shrinkLoop, hcond, if_true]
  by_cases hl : hdr > dw
  · have hmax : max hdr dw = hdr := by omega
    have hgt : hdr > maxSingleColumnWidth termCols 1 := by
      unfold maxSingleColumnWidth; omega
    simp only [shrinkPass, shrinkInit, qSort, orderedInsert, List.any_cons, List.any_nil,
      Bool.or_false, SortedColumnWidth.isHeaderLonger, hl, decide_True, Bool.not_true,
      Bool.false_eq_true, if_false, Int.toNat_one, shrinkHeaderScan, List.getElem?_cons_zero,
      SortedColumnWidth.getHeaderWidth, hgt, if_true, List.set_cons_zero]
    rw [shrinkLoop_done]
    · simp only [Except.map, List.map, SortedColumnWidth.getWidth,
        SortedColumnWidth.setHeaderWidth, SortedColumnWidth.updateWidth, if_pos hl,
        maxSingleColumnWidth]
      simp
    · simp only [shrinkLoopCond, Bool.and_eq_false_iff, decide_eq_false_iff_not,
        maxSingleColumnWidth]
      left
      omega
  · have hmax : max hdr dw = dw := by omega
    have hgt : dw > maxSingleColumnWidth termCols 1 := by
      unfold maxSingleColumnWidth; omega
    simp only [shrinkPass, shrinkInit, qSort, orderedInsert, List.any_cons, List.any_nil,
      Bool.or_false, SortedColumnWidth.isHeaderLonger, hl, decide_False, Bool.not_false,
      if_true, Int.toNat_one, shrinkDataScan, List.getElem?_cons_zero,
      SortedColumnWidth.getDataWidth, hgt, List.set_cons_zero]
    rw [shrinkLoop_done]
    · simp only [Except.map, List.map, SortedColumnWidth.getWidth,
        SortedColumnWidth.setDataWidth, SortedColumnWidth.setMaxHeaderWidth,
        SortedColumnWidth.updateWidth, if_neg hl, maxSingleColumnWidth]
      split <;> simp
      omega
    · simp only [shrinkLoopCond, Bool.and_eq_false_iff, decide_eq_false_iff_not,
        maxSingleColumnWidth]
      left
      omega

/-- A column of header width 1 and data width 50 in a terminal of 10 columns ends
at the width 9. -/
theorem one_column_cut_witness :
    WidthOk ⟨4096, 50, 1, 50⟩ ∧ (1 : Int) ≤ 10 ∧
    (10 : Int) < (⟨4096, 50, 1, 50⟩ : SortedColumnWidth).width ∧
    columnsFinalWidths ptrLess [⟨4096, 50, 1, 50⟩] 10 1 = .ok [9] :=
  ⟨by unfold WidthOk; decide, by decide, by decide,
   one_column_cut ptrLess ⟨4096, 50, 1, 50⟩ 10 (by unfold WidthOk; decide) (by decide)
     (by decide)⟩

/-- C1, the code at the failing input. One column in 10 terminal columns
(`2n - 1 = 1 ≤ termCols`, `maxSingleColumnWidth = 9`). With header `x` and data
of 50 characters the only pass cuts the data to 9 in one step; the loop ends
with `totalWidth = 9`, not at its fixed point and without the warning, and the
only width is 9, so widths and separators sum to 9, not to `termCols`. Data of
11 characters, one over the terminal, and a header of 11 characters over data
of 1 end at 9 as well. With a header of 12 and data of 50 characters the text
sent out is 9 `h`, 9 `-` and 9 `d`: three lines of 9 characters, run together
(no line feed is written), in a terminal of 10 columns. -/
theorem printResultsColumns_total_under :
    (1 : Int) * 2 - 1 ≤ 10 ∧
    measuredColumnWidths risingAlloc [['x']] 0 [[.value (List.replicate 50 'd')]] =
      [⟨4096, 50, 1, 50⟩] ∧
    shrinkColumns ptrLess [⟨4096, 50, 1, 50⟩] 10 1 50 = .ok ⟨[⟨4096, 9, 1, 9⟩], 9, 50⟩ ∧
    shrinkWarning 10 ⟨[⟨4096, 9, 1, 9⟩], 9, 50⟩ = false ∧
    columnsFinalWidths ptrLess
      (measuredColumnWidths risingAlloc [['x']] 0 [[.value (List.replicate 50 'd')]]) 10 1 =
      .ok [9] ∧
    ([9] : List Int).sum + (1 - 1) ≠ 10 ∧
    shrinkSingleSteps ptrLess 10 1 (shrinkFuel 10 50) (shrinkInit [⟨4096, 50, 1, 50⟩] 50)
      = false ∧
    columnsFinalWidths SortedColumnWidth.lt
      (measuredColumnWidths risingAlloc [['x']] 0 [[.value (List.replicate 50 'd')]]) 10 1 =
      .ok [9] ∧
    columnsFinalWidths ptrLess
      (measuredColumnWidths risingAlloc [['x']] 0 [[.value (List.replicate 11 'd')]]) 10 1 =
      .ok [9] ∧
    columnsFinalWidths ptrLess
      (measuredColumnWidths risingAlloc [List.replicate 11 'h'] 0 [[.value ['d']]]) 10 1 =
      .ok [9] ∧
    columnsFinalWidths ptrLess (measuredColumnWidths risingAlloc wideNames 0 wideRows) 10 1 =
      .ok [9] ∧
    printResultsColumns ptrLess risingAlloc "NULL".toList 10 wideNames 0 wideRows =
      ⟨[], List.replicate 9 'h' ++ List.replicate 9 '-' ++ List.replicate 9 'd', none⟩ ∧
    (List.replicate 9 'h' ++ List.replicate 9 '-' ++ List.replicate 9 'd').length = 27 := by
  refine ⟨by decide, rfl, rfl, rfl, rfl, by decide, rfl, rfl, rfl, rfl, rfl, rfl, rfl⟩

/-- Where COLUMNS mode lands on `termCols`. For a result with at least one
column: when the measured total is at most `termCols` the final widths sum,
with the `n - 1` separators, to `termCols` exactly; when it is greater and
every pass of `shrinkColumns` lowers `totalWidth` by at most 1 (no pass
shortens a column by more than one character in one step), `shrinkColumns`
returns and the final widths sum with the separators to `termCols` exactly
unless the loop stopped at its fixed point, the condition of the warning.
Every pass is such a pass when no header or data width exceeds
`maxSingleColumnWidth`. -/
theorem printResultsColumns_total (less : SortedColumnWidth → SortedColumnWidth → Bool)
    (alloc : Nat → Nat) (termCols : Int) (names : List QString) (rowIdColumns : Nat)
    (rows : List (List QVariant)) (hne : names ≠ []) :
    (measuredTotalWidth alloc names rowIdColumns rows ≤ termCols →
      ∃ widths,
        columnsFinalWidths less (measuredColumnWidths alloc names rowIdColumns rows) termCols
          names.length = .ok widths ∧
        widths.length = names.length ∧
        widths.sum + ((names.length : Int) - 1) = termCols) ∧
    (termCols < measuredTotalWidth alloc names rowIdColumns rows →
      shrinkSingleSteps less termCols names.length
        (shrinkFuel termCols (measuredTotalWidth alloc names rowIdColumns rows))
        (shrinkInit (measuredColumnWidths alloc names rowIdColumns rows)
          (measuredTotalWidth alloc names rowIdColumns rows)) = true →
      ∃ s,
        shrinkColumns less (measuredColumnWidths alloc names rowIdColumns rows) termCols
          names.length (measuredTotalWidth alloc names rowIdColumns rows) = .ok s ∧
        columnsFinalWidths less (measuredColumnWidths alloc names rowIdColumns rows) termCols
          names.length = .ok (s.columnWidths.map SortedColumnWidth.getWidth) ∧
        (s.columnWidths.map SortedColumnWidth.getWidth).length = names.length ∧
        ((s.columnWidths.map SortedColumnWidth.getWidth).sum + ((names.length : Int) - 1)
            = termCols ∨
          shrinkWarning termCols s = true)) ∧
    ((∀ c ∈ measuredColumnWidths alloc names rowIdColumns rows,
        c.headerWidth ≤ maxSingleColumnWidth termCols names.length ∧
        c.dataWidth ≤ maxSingleColumnWidth termCols names.length) →
      shrinkSingleSteps less termCols names.length
        (shrinkFuel termCols (measuredTotalWidth alloc names rowIdColumns rows))
        (shrinkInit (measuredColumnWidths alloc names rowIdColumns rows)
          (measuredTotalWidth alloc names rowIdColumns rows)) = true) := by
  obtain ⟨hlen, hwok⟩ := measuredColumnWidths_spec alloc names rowIdColumns rows
  refine ⟨?_, ?_, ?_⟩
  · intro hfit
    obtain ⟨front, last, hfl, -, -, -, hfinal⟩ :=
      grow_last_spec less alloc termCols names rowIdColumns rows hne hfit
    refine ⟨_, hfinal, ?_, ?_⟩
    · rw [← hlen, hfl]; simp
    · have ht : measuredTotalWidth alloc names rowIdColumns rows =
          sumWidths (front ++ [last]) + ((names.length : Int) - 1) := by
        unfold measuredTotalWidth totalWidthOf
        rw [hfl]
      rw [sumWidths_append_single] at ht
      simp only [List.sum_append, List.sum_cons, List.sum_nil]
      unfold sumWidths at ht
      omega
  · intro hover hsingle
    have hn : (names.length : Int) =
        ((shrinkInit (measuredColumnWidths alloc names rowIdColumns rows)
          (measuredTotalWidth alloc names rowIdColumns rows)).columnWidths.length : Int) := by
      simp [shrinkInit, hlen]
    obtain ⟨s, hs, hsl⟩ := shrinkLoop_ok less termCols names.length
      (shrinkFuel termCols (measuredTotalWidth alloc names rowIdColumns rows)) _ hn
    have hexit := shrinkLoop_exit less termCols names.length _ _ s
      (shrinkInit_fuel termCols _ _) hs
    obtain ⟨htrack, hge⟩ := shrinkLoop_single less termCols names.length _ _ s
      hwok rfl (le_of_lt hover) hsingle hs
    refine ⟨s, hs, ?_, ?_, ?_⟩
    · unfold columnsFinalWidths
      rw [show totalWidthOf (measuredColumnWidths alloc names rowIdColumns rows) names.length =
        measuredTotalWidth alloc names rowIdColumns rows from rfl, adjust_shrink _ _ _ _ _ hover]
      unfold shrinkColumns
      rw [hs]
      rfl
    · rw [List.length_map, hsl]
      exact hlen
    · simp only [shrinkLoopCond, Bool.and_eq_false_iff, decide_eq_false_iff_not, not_not,
        not_lt] at hexit
      unfold totalWidthOf sumWidths at htrack
      by_cases hw : shrinkWarning termCols s = true
      · exact Or.inr hw
      · left
        simp only [shrinkWarning, Bool.and_eq_true, decide_eq_true_eq, not_and, not_lt] at hw
        rcases hexit with h | h
        · omega
        · have := hw h
          omega
  · intro hsingle
    exact shrinkSingleSteps_of_within less termCols names.length _ _
      (fun c hc => ⟨hwok c hc, hsingle c hc⟩)

/-- Scenario A (total 15 in 20 columns) for the first part; headers of eight and
of three characters in 10 columns (total 12, `maxSingleColumnWidth` 7, the
second header shortened twice by one character) for the second; two headers of
six characters in 10 columns for the third. -/
theorem printResultsColumns_total_witness :
    (scenarioANames ≠ [] ∧ measuredTotalWidth risingAlloc scenarioANames 0 scenarioARows ≤ 20 ∧
      ∃ widths,
        columnsFinalWidths ptrLess (measuredColumnWidths risingAlloc scenarioANames 0 scenarioARows)
          20 scenarioANames.length = .ok widths ∧
        widths.length = scenarioANames.length ∧
        widths.sum + ((scenarioANames.length : Int) - 1) = 20) ∧
    (eightThreeNames ≠ [] ∧ 10 < measuredTotalWidth risingAlloc eightThreeNames 0 [] ∧
      shrinkSingleSteps ptrLess 10 eightThreeNames.length
        (shrinkFuel 10 (measuredTotalWidth risingAlloc eightThreeNames 0 []))
        (shrinkInit (measuredColumnWidths risingAlloc eightThreeNames 0 [])
          (measuredTotalWidth risingAlloc eightThreeNames 0 [])) = true ∧
      ∃ s,
        shrinkColumns ptrLess (measuredColumnWidths risingAlloc eightThreeNames 0 []) 10
          eightThreeNames.length (measuredTotalWidth risingAlloc eightThreeNames 0 []) = .ok s ∧
        ((s.columnWidths.map SortedColumnWidth.getWidth).sum +
            ((eightThreeNames.length : Int) - 1) = 10 ∨
          shrinkWarning 10 s = true)) ∧
    (sixSixNames ≠ [] ∧
      (∀ c ∈ measuredColumnWidths risingAlloc sixSixNames 0 [],
        c.headerWidth ≤ maxSingleColumnWidth 10 sixSixNames.length ∧
        c.dataWidth ≤ maxSingleColumnWidth 10 sixSixNames.length) ∧
      shrinkSingleSteps SortedColumnWidth.lt 10 sixSixNames.length
        (shrinkFuel 10 (measuredTotalWidth risingAlloc sixSixNames 0 []))
        (shrinkInit (measuredColumnWidths risingAlloc sixSixNames 0 [])
          (measuredTotalWidth risingAlloc sixSixNames 0 [])) = true) := by
  refine ⟨⟨by decide, by decide, ?_⟩, ⟨by decide, by decide, by decide, ?_⟩,
    ⟨by decide, by decide, ?_⟩⟩
  · exact (printResultsColumns_total ptrLess risingAlloc 20 scenarioANames 0 scenarioARows
      (by decide)).1 (by decide)
  · obtain ⟨s, h1, -, -, h4⟩ :=
      (printResultsColumns_total ptrLess risingAlloc 10 eightThreeNames 0 []
        (by decide)).2.1 (by decide) (by decide)
    exact ⟨s, h1, h4⟩
  · exact (printResultsColumns_total SortedColumnWidth.lt risingAlloc 10 sixSixNames 0 []
      (by decide)).2.2 (by decide)


/-! ## Cells and lines -/

/-- A header or data cell: the text cut to the width, then padded. -/
theorem left_length (s : QString) (w : Int) (hw : 0 ≤ w) :
    (left s w).length = min s.length w.toNat := by
  unfold left
  split
  · rename_i h
    rcases h with h | h
    · omega
    · omega
  · rename_i h
    rw [List.length_take]
    omega

theorem pad_length (s : QString) (w : Int) (c : Char) (hw : 0 ≤ w)
    (hs : s.length ≤ w.toNat) : (pad s w c).length = w.toNat := by
  unfold pad
  have habs : |w| = w := abs_of_nonneg hw
  rw [habs]
  split
  · omega
  · simp only [List.length_append, List.length_replicate]
    omega

theorem cell_length (s : QString) (w : Int) (c : Char) (hw : 0 ≤ w) :
    ((pad (left s w) w c).length : Int) = w := by
  rw [pad_length _ w c hw (by rw [left_length s w hw]; exact Nat.min_le_right _ _)]
  exact Int.toNat_of_nonneg hw

theorem repeated_length (w : Int) (hw : 0 ≤ w) :
    ((repeated ['-'] w).length : Int) = w := by
  unfold repeated
  have : ∀ k : Nat, (List.replicate k ['-']).flatten.length = k := by
    intro k
    induction k with
    | zero => rfl
    | succ k ih =>
      rw [List.replicate_succ, List.flatten_cons, List.length_append, ih]
      simp only [List.length_singleton]
      omega
  rw [this]
  exact Int.toNat_of_nonneg hw

theorem join_length (sep : QString) (cells : List QString) :
    (join sep cells).length =
      (cells.map List.length).sum + (cells.length - 1) * sep.length := by
  induction cells with
  | nil => simp [join]
  | cons x xs ih =>
    cases xs with
    | nil => simp [join]
    | cons y ys =>
      rw [join, List.length_append, List.length_append, ih]
      simp only [List.map_cons, List.sum_cons, List.length_cons, Nat.add_sub_cancel]
      ring

theorem headerCells_eq (widths : List Int) (columns : List QString) (i : Nat)
    (h : i + columns.length ≤ widths.length) :
    headerCells widths columns i =
      .ok (List.zipWith (fun col w => pad (left col w) w ' ') columns (widths.drop i)) := by
  induction columns generalizing i with
  | nil => simp [headerCells]
  | cons col rest ih =>
    simp only [List.length_cons] at h
    have hi : i < widths.length := by omega
    simp only [headerCells, List.getElem?_eq_getElem hi]
    rw [ih (i + 1) (by omega), List.drop_eq_getElem_cons hi]
    rfl

theorem dataCells_eq (nullValue : QString) (widths : List Int) (values : List QVariant)
    (i : Nat) (h : i + values.length ≤ widths.length) :
    dataCells nullValue widths values i =
      .ok (List.zipWith (fun value w => pad (left (getValueString nullValue value) w) w ' ')
        values (widths.drop i)) := by
  induction values generalizing i with
  | nil => simp [dataCells]
  | cons value rest ih =>
    simp only [List.length_cons] at h
    have hi : i < widths.length := by omega
    simp only [dataCells, List.getElem?_eq_getElem hi]
    rw [ih (i + 1) (by omega), List.drop_eq_getElem_cons hi]
    rfl

theorem ruleCells_eq (widths : List Int) (count i : Nat) (h : i + count ≤ widths.length) :
    ruleCells widths count i =
      .ok (((widths.drop i).take count).map (repeated ['-'])) := by
  induction count generalizing i with
  | zero => simp [ruleCells]
  | succ count ih =>
    have hi : i < widths.length := by omega
    simp only [ruleCells, List.getElem?_eq_getElem hi]
    rw [ih (i + 1) (by omega), List.drop_eq_getElem_cons hi]
    rfl

theorem printColumnHeader_eq (widths : List Int) (columns : List QString)
    (h : columns.length = widths.length) :
    columnHeaderLine widths columns = .ok (join ['|'] (headerCellsOf widths columns)) ∧
    columnRuleLine widths columns = .ok (join ['+'] (ruleCellsOf widths)) ∧
    printColumnHeader widths columns =
      .ok (join ['|'] (headerCellsOf widths columns) ++ join ['+'] (ruleCellsOf widths)) := by
  have h1 : columnHeaderLine widths columns = .ok (join ['|'] (headerCellsOf widths columns)) := by
    unfold columnHeaderLine
    rw [headerCells_eq widths columns 0 (by omega)]
    rfl
  have h2 : columnRuleLine widths columns = .ok (join ['+'] (ruleCellsOf widths)) := by
    unfold columnRuleLine
    rw [ruleCells_eq widths columns.length 0 (by omega), h]
    simp [Except.map, ruleCellsOf]
  refine ⟨h1, h2, ?_⟩
  unfold printColumnHeader
  rw [h1, h2]

theorem printColumnDataRow_eq (nullValue : QString) (widths : List Int) (row : List QVariant)
    (rowIdOffset : Nat) (h : (row.drop rowIdOffset).length = widths.length) :
    printColumnDataRow nullValue widths row rowIdOffset =
      .ok (join ['|'] (dataCellsOf nullValue widths (row.drop rowIdOffset))) := by
  unfold printColumnDataRow
  rw [dataCells_eq nullValue widths _ 0 (by omega)]
  rfl

theorem zipWith_cell_lengths {α : Type} (f : α → Int → QString) (xs : List α)
    (widths : List Int) (hlen : xs.length = widths.length)
    (hf : ∀ x w, 0 ≤ w → ((f x w).length : Int) = w) (hw : ∀ w ∈ widths, 0 ≤ w) :
    (List.zipWith f xs widths).map (fun cell => (cell.length : Int)) = widths := by
  induction xs generalizing widths with
  | nil =>
    cases widths with
    | nil => rfl
    | cons w ws => simp at hlen
  | cons x xs ih =>
    cases widths with
    | nil => simp at hlen
    | cons w ws =>
      simp only [List.length_cons, Nat.add_right_cancel_iff] at hlen
      simp only [List.zipWith_cons_cons, List.map_cons]
      rw [ih ws hlen (fun v hv => hw v (List.mem_cons_of_mem _ hv)),
        hf x w (hw w (List.mem_cons_self _ _))]

theorem line_length (sep : Char) (cells : List QString) (widths : List Int)
    (h : cells.map (fun cell => (cell.length : Int)) = widths) :
    ((join [sep] cells).length : Int) = widths.sum + ((widths.length - 1 : Nat) : Int) := by
  rw [join_length]
  subst h
  simp only [List.length_singleton, Nat.mul_one, List.length_map]
  push_cast
  congr 1
  induction cells with
  | nil => rfl
  | cons x xs ih =>
    simp only [List.map_cons, List.sum_cons, Nat.cast_add] at ih ⊢
    rw [ih]


/-- C8. Truncation law. For widths `w_i ≥ 0` and as many header names (or visible
values of a row) as widths, every header cell, rule cell and data cell has
length exactly `w_i`, and the header line, the rule line and the data row line
each have length `sum(w) + (n - 1)`, one separator between two cells. -/
theorem truncation_law (nullValue : QString) (widths : List Int)
    (hw : ∀ w ∈ widths, 0 ≤ w) :
    (∀ columns : List QString, columns.length = widths.length →
      ∃ cells rule,
        headerCells widths columns 0 = .ok cells ∧
        ruleCells widths columns.length 0 = .ok rule ∧
        cells.map (fun cell => (cell.length : Int)) = widths ∧
        rule.map (fun cell => (cell.length : Int)) = widths ∧
        columnHeaderLine widths columns = .ok (join ['|'] cells) ∧
        columnRuleLine widths columns = .ok (join ['+'] rule) ∧
        printColumnHeader widths columns = .ok (join ['|'] cells ++ join ['+'] rule) ∧
        ((join ['|'] cells).length : Int) = widths.sum + ((widths.length - 1 : Nat) : Int) ∧
        ((join ['+'] rule).length : Int) = widths.sum + ((widths.length - 1 : Nat) : Int)) ∧
    (∀ (row : List QVariant) (rowIdOffset : Nat),
      (row.drop rowIdOffset).length = widths.length →
      ∃ cells,
        dataCells nullValue widths (row.drop rowIdOffset) 0 = .ok cells ∧
        cells.map (fun cell => (cell.length : Int)) = widths ∧
        printColumnDataRow nullValue widths row rowIdOffset = .ok (join ['|'] cells) ∧
        ((join ['|'] cells).length : Int) = widths.sum + ((widths.length - 1 : Nat) : Int)) := by
  constructor
  · intro columns hlen
    obtain ⟨h1, h2, h3⟩ := printColumnHeader_eq widths columns hlen
    have hc : (headerCellsOf widths columns).map (fun cell => (cell.length : Int)) = widths :=
      zipWith_cell_lengths _ columns widths hlen (fun x w h => cell_length x w ' ' h) hw
    have hr : (ruleCellsOf widths).map (fun cell => (cell.length : Int)) = widths := by
      unfold ruleCellsOf
      rw [List.map_map]
      conv_rhs => rw [← List.map_id widths]
      apply List.map_congr_left
      intro w hmem
      exact repeated_length w (hw w hmem)
    refine ⟨headerCellsOf widths columns, ruleCellsOf widths, ?_, ?_, hc, hr, h1, h2, h3,
      line_length '|' _ widths hc, line_length '+' _ widths hr⟩
    · exact headerCells_eq widths columns 0 (by omega)
    · rw [ruleCells_eq widths columns.length 0 (by omega), hlen]
      simp [ruleCellsOf]
  · intro row rowIdOffset hlen
    have hc : (dataCellsOf nullValue widths (row.drop rowIdOffset)).map
        (fun cell => (cell.length : Int)) = widths :=
      zipWith_cell_lengths _ _ widths hlen
        (fun x w h => cell_length (getValueString nullValue x) w ' ' h) hw
    exact ⟨_, dataCells_eq nullValue widths _ 0 (by omega), hc,
      printColumnDataRow_eq nullValue widths row rowIdOffset hlen, line_length '|' _ widths hc⟩

/-- The widths 2, 4 and 12 with the names and the row of scenario A: each line has
length 2 + 4 + 12 + 2 = 20. -/
theorem truncation_law_witness :
    (∀ w ∈ ([2, 4, 12] : List Int), 0 ≤ w) ∧
    scenarioANames.length = ([2, 4, 12] : List Int).length ∧
    ∃ cells rule,
      headerCells [2, 4, 12] scenarioANames 0 = .ok cells ∧
      ruleCells [2, 4, 12] scenarioANames.length 0 = .ok rule ∧
      cells.map (fun cell => (cell.length : Int)) = [2, 4, 12] ∧
      rule.map (fun cell => (cell.length : Int)) = [2, 4, 12] ∧
      ((join ['|'] cells).length : Int) = 20 ∧
      ((join ['+'] rule).length : Int) = 20 := by
  refine ⟨by decide, by decide, ?_⟩
  obtain ⟨cells, rule, h1, h2, h3, h4, -, -, -, h8, h9⟩ :=
    (truncation_law "NULL".toList [2, 4, 12] (by decide)).1 scenarioANames (by decide)
  exact ⟨cells, rule, h1, h2, h3, h4, h8, h9⟩


/-! ## The display modes -/

theorem printDataRows_out (nullValue : QString) (widths : List Int) (rowIdColumns : Nat)
    (rows : List (List QVariant)) (out : QString) :
    (printDataRows nullValue widths rowIdColumns rows out).printed = [] ∧
    ∃ rest, (printDataRows nullValue widths rowIdColumns rows out).out = out ++ rest := by
  induction rows generalizing out with
  | nil => exact ⟨rfl, [], by simp [printDataRows]⟩
  | cons row rest ih =>
    simp only [printDataRows]
    split
    · exact ⟨rfl, [], by simp⟩
    · rename_i line _
      obtain ⟨hp, tail, ht⟩ := ih (out ++ line)
      exact ⟨hp, line ++ tail, by rw [ht, List.append_assoc]⟩

theorem printDataRows_eq (nullValue : QString) (widths : List Int) (rowIdColumns : Nat)
    (rows : List (List QVariant)) (out : QString)
    (hrows : ∀ row ∈ rows, (row.drop rowIdColumns).length = widths.length) :
    printDataRows nullValue widths rowIdColumns rows out =
      { printed := [],
        out := out ++ (rows.map fun row =>
          join ['|'] (dataCellsOf nullValue widths (row.drop rowIdColumns))).flatten,
        fault := none } := by
  induction rows generalizing out with
  | nil => simp [printDataRows]
  | cons row rest ih =>
    simp only [printDataRows]
    rw [printColumnDataRow_eq nullValue widths row rowIdColumns
      (hrows row (List.mem_cons_self _ _))]
    simp only
    rw [ih _ (fun r hr => hrows r (List.mem_cons_of_mem _ hr))]
    simp [List.append_assoc]

theorem columnsFinalWidths_ok (less : SortedColumnWidth → SortedColumnWidth → Bool)
    (cols : List SortedColumnWidth) (termCols : Int) (hne : cols ≠ []) :
    ∃ widths, columnsFinalWidths less cols termCols cols.length = .ok widths ∧
      widths.length = cols.length := by
  unfold columnsFinalWidths
  rcases lt_trichotomy (totalWidthOf cols cols.length) termCols with hlt | heq | hgt
  · obtain ⟨front, last, hfl⟩ := exists_front_last cols hne
    have := adjust_grow less front last termCols cols.length (totalWidthOf cols cols.length) hlt
    rw [← hfl] at this
    rw [this]
    exact ⟨_, rfl, by rw [List.length_map, hfl]; simp⟩
  · have := adjust_equal less cols termCols cols.length
    rw [← heq] at this
    rw [heq] at this ⊢
    rw [this]
    exact ⟨_, rfl, by simp⟩
  · rw [adjust_shrink less cols termCols _ _ hgt]
    obtain ⟨s, hs, hsl⟩ := shrinkLoop_ok less termCols cols.length
      (shrinkFuel termCols (totalWidthOf cols cols.length))
      (shrinkInit cols (totalWidthOf cols cols.length)) rfl
    unfold shrinkColumns
    rw [hs]
    exact ⟨_, rfl, by rw [List.length_map, hsl]; rfl⟩

theorem fixedWidths_length (termCols base : Int) (n : Nat) :
    (fixedWidths termCols n base).length = n := by
  simp [fixedWidths]

theorem printResultsFixed_fits (nullValue : QString) (termCols : Int) (names : List QString)
    (rowIdColumns : Nat) (rows : List (List QVariant)) (hne : names ≠ [])
    (hfit : (names.length : Int) * 2 - 1 ≤ termCols) :
    ∃ header,
      printColumnHeader (fixedWidths termCols names.length (termCols / names.length - 1)) names
        = .ok header ∧
      printResultsFixed nullValue termCols names rowIdColumns rows =
        printDataRows nullValue (fixedWidths termCols names.length (termCols / names.length - 1))
          rowIdColumns rows header := by
  have hpos : 1 ≤ names.length := Nat.pos_of_ne_zero (fun h => hne (List.length_eq_zero.1 h))
  have hdiv := intDiv_pos termCols names.length hpos (by omega)
  obtain ⟨-, -, hh⟩ := printColumnHeader_eq
    (fixedWidths termCols names.length (termCols / names.length - 1)) names
    (fixedWidths_length _ _ _).symm
  refine ⟨_, hh, ?_⟩
  unfold printResultsFixed
  simp only [hdiv]
  rw [if_neg (by omega), if_neg (by omega), hh]

theorem printResultsColumns_fits (less : SortedColumnWidth → SortedColumnWidth → Bool)
    (alloc : Nat → Nat) (nullValue : QString) (termCols : Int) (names : List QString)
    (rowIdColumns : Nat) (rows : List (List QVariant)) (hne : names ≠ [])
    (hfit : (names.length : Int) * 2 - 1 ≤ termCols) :
    ∃ widths header,
      columnsFinalWidths less (measuredColumnWidths alloc names rowIdColumns rows) termCols
        names.length = .ok widths ∧
      widths.length = names.length ∧
      printColumnHeader widths names = .ok header ∧
      printResultsColumns less alloc nullValue termCols names rowIdColumns rows =
        printDataRows nullValue widths rowIdColumns rows header := by
  have hpos : 1 ≤ names.length := Nat.pos_of_ne_zero (fun h => hne (List.length_eq_zero.1 h))
  have hlen := (measuredColumnWidths_spec alloc names rowIdColumns rows).1
  obtain ⟨widths, hws, hwl⟩ := columnsFinalWidths_ok less
    (measuredColumnWidths alloc names rowIdColumns rows) termCols
    (measured_ne_nil alloc names rowIdColumns rows hne)
  rw [hlen] at hws hwl
  obtain ⟨-, -, hh⟩ := printColumnHeader_eq widths names hwl.symm
  refine ⟨widths, _, hws, hwl, hh, ?_⟩
  unfold printResultsColumns
  simp only
  rw [if_neg (by omega), if_neg (by omega), hws]
  simp only
  rw [hh]

/-- C5. For a result with at least one column, `printResultsFixed` and
`printResultsColumns` give the message `Too many columns to display` to
`println` and send nothing to `qOut` when `2n - 1 > termCols`; when
`2n - 1 ≤ termCols` they give no message and what they send to `qOut` starts
with the text of `printColumnHeader`. -/
theorem tooManyColumns_iff (less : SortedColumnWidth → SortedColumnWidth → Bool)
    (alloc : Nat → Nat) (nullValue : QString) (termCols : Int) (names : List QString)
    (rowIdColumns : Nat) (rows : List (List QVariant)) (hne : names ≠ []) :
    ((names.length : Int) * 2 - 1 > termCols →
      printResultsFixed nullValue termCols names rowIdColumns rows =
        { printed := [tooManyColumns "FIXED"], out := [], fault := none } ∧
      printResultsColumns less alloc nullValue termCols names rowIdColumns rows =
        { printed := [tooManyColumns "COLUMNS"], out := [], fault := none }) ∧
    ((names.length : Int) * 2 - 1 ≤ termCols →
      (∃ header rest,
        printColumnHeader (fixedWidths termCols names.length (termCols / names.length - 1))
          names = .ok header ∧
        (printResultsFixed nullValue termCols names rowIdColumns rows).printed = [] ∧
        (printResultsFixed nullValue termCols names rowIdColumns rows).out = header ++ rest) ∧
      (∃ widths header rest,
        columnsFinalWidths less (measuredColumnWidths alloc names rowIdColumns rows) termCols
          names.length = .ok widths ∧
        printColumnHeader widths names = .ok header ∧
        (printResultsColumns less alloc nullValue termCols names rowIdColumns rows).printed
          = [] ∧
        (printResultsColumns less alloc nullValue termCols names rowIdColumns rows).out
          = header ++ rest)) := by
  have hpos : 1 ≤ names.length := Nat.pos_of_ne_zero (fun h => hne (List.length_eq_zero.1 h))
  constructor
  · intro hmany
    constructor
    · unfold printResultsFixed intDiv
      simp only
      rw [if_neg (by omega)]
      simp only
      rw [if_neg (by omega), if_pos hmany]
    · unfold printResultsColumns
      simp only
      rw [if_neg (by omega), if_pos hmany]
  · intro hfit
    constructor
    · obtain ⟨header, hh, heq⟩ :=
        printResultsFixed_fits nullValue termCols names rowIdColumns rows hne hfit
      obtain ⟨hp, rest, hr⟩ := printDataRows_out nullValue
        (fixedWidths termCols names.length (termCols / names.length - 1)) rowIdColumns rows header
      exact ⟨header, rest, hh, by rw [heq]; exact hp, by rw [heq]; exact hr⟩
    · obtain ⟨widths, header, hws, -, hh, heq⟩ :=
        printResultsColumns_fits less alloc nullValue termCols names rowIdColumns rows hne hfit
      obtain ⟨hp, rest, hr⟩ := printDataRows_out nullValue widths rowIdColumns rows header
      exact ⟨widths, header, rest, hws, hh, by rw [heq]; exact hp, by rw [heq]; exact hr⟩

/-- Scenario C of the spec (three columns, `termCols` 3) and scenario A (`termCols` 20). -/
theorem tooManyColumns_iff_witness :
    (scenarioANames ≠ [] ∧ (scenarioANames.length : Int) * 2 - 1 > 3 ∧
      printResultsFixed "NULL".toList 3 scenarioANames 0 scenarioARows =
        { printed := [tooManyColumns "FIXED"], out := [], fault := none } ∧
      printResultsColumns ptrLess risingAlloc "NULL".toList 3 scenarioANames 0 scenarioARows =
        { printed := [tooManyColumns "COLUMNS"], out := [], fault := none }) ∧
    ((scenarioANames.length : Int) * 2 - 1 ≤ 20 ∧
      (printResultsFixed "NULL".toList 20 scenarioANames 0 scenarioARows).printed = [] ∧
      (printResultsColumns ptrLess risingAlloc "NULL".toList 20 scenarioANames 0
        scenarioARows).printed = []) := by
  refine ⟨⟨by decide, by decide, ?_⟩, by decide, ?_⟩
  · exact (tooManyColumns_iff ptrLess risingAlloc "NULL".toList 3 scenarioANames 0 scenarioARows
      (by decide)).1 (by decide)
  · obtain ⟨⟨_, _, -, h1, -⟩, ⟨_, _, _, -, -, h2, -⟩⟩ :=
      (tooManyColumns_iff ptrLess risingAlloc "NULL".toList 20 scenarioANames 0 scenarioARows
        (by decide)).2 (by decide)
    exact ⟨h1, h2⟩

/-- C6, the code at zero columns. `printResultsFixed` divides `termCols` by the
number of columns (line 129) before it tests that number (line 131), so with no
column it stops at a division by zero; `printResultsColumns` tests first and
returns with nothing printed. -/
theorem printResultsFixed_zero_columns (nullValue : QString) (termCols : Int)
    (rowIdColumns : Nat) (rows : List (List QVariant)) :
    printResultsFixed nullValue termCols [] rowIdColumns rows =
      { printed := [], out := [], fault := some Fault.divisionByZero } ∧
    ∀ (less : SortedColumnWidth → SortedColumnWidth → Bool) (alloc : Nat → Nat),
      printResultsColumns less alloc nullValue termCols [] rowIdColumns rows =
        { printed := [], out := [], fault := none } :=
  ⟨rfl, fun _ _ => rfl⟩


/-! ## Line ends -/

theorem terminated_cons (line : QString) (lines : List QString) :
    terminated (line :: lines) = line ++ ['\n'] ++ terminated lines := by
  simp [terminated]

theorem terminated_append (xs ys : List QString) :
    terminated (xs ++ ys) = terminated xs ++ terminated ys := by
  simp [terminated]

theorem classicRows_eq (nullValue : QString) (n : Int) (rowIdColumns : Nat)
    (rows : List (List QVariant)) :
    classicRows nullValue n rowIdColumns rows =
      terminated (rows.map fun row => classicCells nullValue n (row.drop rowIdColumns) 0) := by
  induction rows with
  | nil => rfl
  | cons row rest ih =>
    rw [classicRows, ih, List.map_cons, terminated_cons]

theorem rowFields_eq (nullValue : QString) (columns : List QString) (values : List QVariant)
    (i : Nat) (out : QString) (h : i + values.length ≤ columns.length) :
    rowFields nullValue columns values i out =
      { printed := [],
        out := out ++ terminated (List.zipWith (rowFieldLine nullValue) (columns.drop i) values),
        fault := none } := by
  induction values generalizing i out with
  | nil => simp [rowFields, terminated]
  | cons value rest ih =>
    simp only [List.length_cons] at h
    have hi : i < columns.length := by omega
    simp only [rowFields, List.getElem?_eq_getElem hi]
    rw [ih (i + 1) _ (by omega), List.drop_eq_getElem_cons hi, List.zipWith_cons_cons,
      terminated_cons]
    simp [rowFieldLine, List.append_assoc]

theorem rowByRowLoop_eq (nullValue : QString) (termWidth : Int) (columns : List QString)
    (rowIdColumns : Nat) (rows : List (List QVariant)) (rowCnt : Nat) (out : QString)
    (hrows : ∀ row ∈ rows, (row.drop rowIdColumns).length = columns.length) :
    rowByRowLoop nullValue termWidth columns rowIdColumns rows rowCnt out =
      { printed := [],
        out := out ++ terminated (rowModeLines nullValue termWidth columns rowIdColumns rows rowCnt),
        fault := none } := by
  induction rows generalizing rowCnt out with
  | nil => simp [rowByRowLoop, rowModeLines, terminated]
  | cons row rest ih =>
    have hrow := hrows row (List.mem_cons_self _ _)
    simp only [rowByRowLoop]
    rw [rowFields_eq nullValue columns (row.drop rowIdColumns) 0 _ (by omega)]
    simp only
    rw [ih _ _ (fun r hr => hrows r (List.mem_cons_of_mem _ hr))]
    simp only [rowModeLines, List.drop_zero, terminated_append, terminated_cons,
      List.cons_append, List.append_assoc]

/-- C9, FIXED mode. One column `abc` in three terminal columns and one row `xyz`:
the header line `abc`, the rule line `---` and the data row line `xyz` are sent
out one after the other with no line feed, so the text is not a sequence of
lines each followed by a line feed. -/
theorem printResultsFixed_no_line_end :
    printResultsFixed "NULL".toList 3 ["abc".toList] 0 [[.value "xyz".toList]] =
      { printed := [], out := "abc---xyz".toList, fault := none } ∧
    '\n' ∉ "abc---xyz".toList ∧
    ¬ ∃ lines : List QString, "abc---xyz".toList = terminated lines := by
  have hno : '\n' ∉ "abc---xyz".toList := by decide
  refine ⟨rfl, hno, ?_⟩
  rintro ⟨lines, h⟩
  cases lines with
  | nil => exact absurd h (by decide)
  | cons line rest =>
    apply hno
    rw [h, terminated_cons]
    simp

/-- C9 as amended. In CLASSIC mode and in ROW mode the text sent out is a sequence
of lines (header line and data lines; banner lines and field lines), each
followed by exactly one line feed. In FIXED and COLUMNS mode, for a result that
fits (`2n - 1 ≤ termCols`), the header line, the rule line and the data row
lines are sent out one directly after the other, with no line feed after any
of them. Rows are taken to have one visible value per column. -/
theorem line_ends (nullValue : QString) (names : List QString) (rowIdColumns : Nat)
    (rows : List (List QVariant)) :
    printResultsClassic nullValue names rowIdColumns rows =
      { printed := [], out := terminated (classicLines nullValue names rowIdColumns rows),
        fault := none } ∧
    ((∀ row ∈ rows, (row.drop rowIdColumns).length = names.length) →
      (∀ termWidth : Int,
        printResultsRowByRow nullValue termWidth names rowIdColumns rows =
          { printed := [],
            out := terminated (rowModeLines nullValue termWidth
              (names.map fun name => pad name (-labelWidth names) ' ') rowIdColumns rows 1),
            fault := none }) ∧
      (∀ termCols : Int, names ≠ [] → (names.length : Int) * 2 - 1 ≤ termCols →
        printResultsFixed nullValue termCols names rowIdColumns rows =
          { printed := [],
            out := columnModeText nullValue
              (fixedWidths termCols names.length (termCols / names.length - 1))
              names rowIdColumns rows,
            fault := none } ∧
        ∀ (less : SortedColumnWidth → SortedColumnWidth → Bool) (alloc : Nat → Nat),
          ∃ widths,
            columnsFinalWidths less (measuredColumnWidths alloc names rowIdColumns rows) termCols
              names.length = .ok widths ∧
            printResultsColumns less alloc nullValue termCols names rowIdColumns rows =
              { printed := [],
                out := columnModeText nullValue widths names rowIdColumns rows,
                fault := none })) := by
  constructor
  · unfold printResultsClassic classicLines
    rw [classicRows_eq, terminated_cons]
  · intro hrows
    constructor
    · intro termWidth
      unfold printResultsRowByRow
      simp only
      rw [rowByRowLoop_eq nullValue termWidth _ rowIdColumns rows 1 []
        (by simpa using hrows)]
      simp
    · intro termCols hne hfit
      constructor
      · obtain ⟨header, hh, heq⟩ :=
          printResultsFixed_fits nullValue termCols names rowIdColumns rows hne hfit
        have hl := fixedWidths_length termCols (termCols / names.length - 1) names.length
        obtain ⟨-, -, h3⟩ := printColumnHeader_eq
          (fixedWidths termCols names.length (termCols / names.length - 1)) names hl.symm
        rw [h3] at hh
        simp only [Except.ok.injEq] at hh
        rw [heq, printDataRows_eq _ _ _ _ _ (fun row hr => (hrows row hr).trans hl.symm), ← hh]
        rfl
      · intro less alloc
        obtain ⟨widths, header, hws, hwl, hh, heq⟩ :=
          printResultsColumns_fits less alloc nullValue termCols names rowIdColumns rows hne hfit
        obtain ⟨-, -, h3⟩ := printColumnHeader_eq widths names hwl.symm
        rw [h3] at hh
        simp only [Except.ok.injEq] at hh
        refine ⟨widths, hws, ?_⟩
        rw [heq, printDataRows_eq _ _ _ _ _ (fun row hr => (hrows row hr).trans hwl.symm), ← hh]
        rfl

/-- Scenario D of the spec in ROW mode, and scenario A in FIXED mode. -/
theorem line_ends_witness :
    (∀ row ∈ ([[.value "1".toList, .value "Alice".toList]] : List (List QVariant)),
      (row.drop 0).length = ["id".toList, "name".toList].length) ∧
    printResultsRowByRow "NULL".toList 20 ["id".toList, "name".toList] 0
        [[.value "1".toList, .value "Alice".toList]] =
      { printed := [],
        out := terminated
          ["------ Row 1 ------".toList, "id  : 1".toList, "name: Alice".toList],
        fault := none } ∧
    (∀ row ∈ scenarioARows, (row.drop 0).length = scenarioANames.length) ∧
    scenarioANames ≠ [] ∧ (scenarioANames.length : Int) * 2 - 1 ≤ 20 ∧
    printResultsFixed "NULL".toList 20 scenarioANames 0 scenarioARows =
      { printed := [],
        out := "   id| name|   email-----+-----+--------    1|   Al| a@x.com".toList,
        fault := none } ∧
    ∃ widths,
      columnsFinalWidths ptrLess (measuredColumnWidths risingAlloc scenarioANames 0 scenarioARows)
        20 scenarioANames.length = .ok widths ∧
      printResultsColumns ptrLess risingAlloc "NULL".toList 20 scenarioANames 0 scenarioARows =
        { printed := [],
          out := columnModeText "NULL".toList widths scenarioANames 0 scenarioARows,
          fault := none } := by
  refine ⟨by decide, ?_, by decide, by decide, by decide, ?_, ?_⟩
  · exact ((line_ends "NULL".toList ["id".toList, "name".toList] 0
      [[.value "1".toList, .value "Alice".toList]]).2 (by decide)).1 20
  · exact (((line_ends "NULL".toList scenarioANames 0 scenarioARows).2 (by decide)).2 20
      (by decide) (by decide)).1
  · exact (((line_ends "NULL".toList scenarioANames 0 scenarioARows).2 (by decide)).2 20
      (by decide) (by decide)).2 ptrLess risingAlloc


/-! ## shrinkColumns: reordering, budget and termination -/

/-- C2, the code at the failing input. One column with a header of 30 and data of
20 characters, `termCols` 10. The only pass sets the header width to
`maxSingleColumnWidth = 9` and takes 21 off `totalWidth` (30 to 9), while the
width of the column only falls to its data width 20. The loop ends with
`totalWidth = 9`, the condition of the warning is false, and the width
returned is 20, over the 10 columns of the terminal. -/
theorem shrinkColumns_over_budget_unreported
    (less : SortedColumnWidth → SortedColumnWidth → Bool) :
    measuredColumnWidths risingAlloc longHeaderNames 0 longHeaderRows = [⟨4096, 20, 30, 30⟩] ∧
    measuredTotalWidth risingAlloc longHeaderNames 0 longHeaderRows = 30 ∧
    shrinkColumns less [⟨4096, 20, 30, 30⟩] 10 1 30 = .ok ⟨[⟨4096, 20, 9, 20⟩], 9, 30⟩ ∧
    shrinkWarning 10 ⟨[⟨4096, 20, 9, 20⟩], 9, 30⟩ = false ∧
    totalWidthOf [⟨4096, 20, 9, 20⟩] 1 = 20 ∧
    columnsFinalWidths less (measuredColumnWidths risingAlloc longHeaderNames 0 longHeaderRows)
      10 1 = .ok [20] :=
  ⟨rfl, rfl, rfl, rfl, rfl, rfl⟩

/-- C7, the code at the failing input. Columns `name` (data `Alice`) and `id`
(data `1`), `termCols` 7. `qSort` puts the object of `id` first, with
`operator<` on widths wherever the objects lie, and with the comparison of
pointers when the object of `id` lies at the lower address. `shrinkColumns`
leaves the list in that order, so `finalWidths` is `[1, 5]` for the names
`[name, id]`: the width 1 computed for `id` is applied to `name` and to `Alice`,
which are cut to `n` and `A`. -/
theorem shrinkColumns_reorders :
    (measuredColumnWidths risingAlloc nameIdNames 0 nameIdRows =
        [⟨4096, 5, 4, 5⟩, ⟨4112, 1, 2, 2⟩] ∧
      shrinkColumns SortedColumnWidth.lt [⟨4096, 5, 4, 5⟩, ⟨4112, 1, 2, 2⟩] 7 2 8 =
        .ok ⟨[⟨4112, 1, 1, 1⟩, ⟨4096, 5, 4, 5⟩], 7, 8⟩ ∧
      columnsFinalWidths SortedColumnWidth.lt
        (measuredColumnWidths risingAlloc nameIdNames 0 nameIdRows) 7 2 = .ok [1, 5]) ∧
    (measuredColumnWidths fallingAlloc nameIdNames 0 nameIdRows =
        [⟨4096, 5, 4, 5⟩, ⟨4080, 1, 2, 2⟩] ∧
      shrinkColumns ptrLess [⟨4096, 5, 4, 5⟩, ⟨4080, 1, 2, 2⟩] 7 2 8 =
        .ok ⟨[⟨4080, 1, 1, 1⟩, ⟨4096, 5, 4, 5⟩], 7, 8⟩ ∧
      columnsFinalWidths ptrLess
        (measuredColumnWidths fallingAlloc nameIdNames 0 nameIdRows) 7 2 = .ok [1, 5]) ∧
    left "name".toList 1 = "n".toList ∧ left "Alice".toList 1 = "A".toList :=
  ⟨⟨rfl, rfl, rfl⟩, ⟨rfl, rfl, rfl⟩, rfl, rfl⟩

/-- C10. The loop of `shrinkColumns` ends. A pass that returns either lowers
`totalWidth` by at least 1, or leaves `totalWidth` and every column as they
were (the list is only sorted) and the loop condition is then false. So,
however long the loop is allowed to run, it makes at most
`totalWidth - termCols` passes; `shrinkColumns`, which allows that many,
gives the same result with any greater allowance, ends with the loop
condition false, and returns when `resultColumnsCount` is the length of the
list. -/
theorem shrinkColumns_terminates (less : SortedColumnWidth → SortedColumnWidth → Bool)
    (termCols resultColumnsCount : Int) :
    (∀ s s1 : ShrinkState, shrinkPass less termCols resultColumnsCount s = .ok s1 →
      s1.totalWidth + 1 ≤ s.totalWidth ∨
      (s1.totalWidth = s.totalWidth ∧ s1.columnWidths = qSort less s.columnWidths ∧
        shrinkLoopCond termCols s1 = false)) ∧
    (∀ (columnWidths : List SortedColumnWidth) (totalWidth : Int),
      (∀ fuel : Nat,
        shrinkPasses less termCols resultColumnsCount fuel (shrinkInit columnWidths totalWidth)
          ≤ (totalWidth - termCols).toNat) ∧
      (∀ extra : Nat,
        shrinkLoop less termCols resultColumnsCount (shrinkFuel termCols totalWidth + extra)
            (shrinkInit columnWidths totalWidth) =
          shrinkColumns less columnWidths termCols resultColumnsCount totalWidth) ∧
      (∀ s : ShrinkState,
        shrinkColumns less columnWidths termCols resultColumnsCount totalWidth = .ok s →
        shrinkLoopCond termCols s = false) ∧
      (resultColumnsCount = columnWidths.length →
        ∃ s, shrinkColumns less columnWidths termCols resultColumnsCount totalWidth = .ok s)) := by
  constructor
  · intro s s1 h
    obtain ⟨hprev, -, hprog⟩ := shrinkPass_progress less termCols resultColumnsCount s s1 h
    rcases hprog with hp | ⟨hp, hq⟩
    · exact Or.inl hp
    · refine Or.inr ⟨hp, hq, ?_⟩
      simp only [shrinkLoopCond, Bool.and_eq_false_iff, decide_eq_false_iff_not, not_not]
      exact Or.inr (hp.trans hprev.symm)
  · intro columnWidths totalWidth
    refine ⟨fun fuel => shrinkPasses_bound less termCols resultColumnsCount totalWidth
        columnWidths fuel, fun extra => ?_, fun s hs => ?_, fun hn => ?_⟩
    · exact (shrinkLoop_fuel less termCols resultColumnsCount _ extra _
        (shrinkInit_fuel termCols totalWidth columnWidths)).1
    · exact shrinkLoop_exit less termCols resultColumnsCount _ _ s
        (shrinkInit_fuel termCols totalWidth columnWidths) hs
    · obtain ⟨s, hs, -⟩ := shrinkLoop_ok less termCols resultColumnsCount
        (shrinkFuel termCols totalWidth) (shrinkInit columnWidths totalWidth) hn
      exact ⟨s, hs⟩

/-- Two headers of six characters in 10 columns: the first pass lowers `totalWidth`
from 13 to 12, the loop ends with the condition false, and `shrinkColumns`
returns. -/
theorem shrinkColumns_terminates_witness :
    shrinkPass ptrLess 10 2 (shrinkInit (measuredColumnWidths risingAlloc sixSixNames 0 []) 13) =
      .ok ⟨[⟨4096, 0, 6, 6⟩, ⟨4112, 0, 5, 5⟩], 12, 13⟩ ∧
    ((12 : Int) + 1 ≤ 13 ∨
      ((12 : Int) = 13 ∧
        [⟨4096, 0, 6, 6⟩, ⟨4112, 0, 5, 5⟩] =
          qSort ptrLess (measuredColumnWidths risingAlloc sixSixNames 0 []) ∧
        shrinkLoopCond 10 ⟨[⟨4096, 0, 6, 6⟩, ⟨4112, 0, 5, 5⟩], 12, 13⟩ = false)) ∧
    shrinkColumns ptrLess (measuredColumnWidths risingAlloc sixSixNames 0 []) 10 2 13 =
      .ok ⟨[⟨4096, 0, 6, 6⟩, ⟨4112, 0, 3, 3⟩], 10, 11⟩ ∧
    shrinkLoopCond 10 ⟨[⟨4096, 0, 6, 6⟩, ⟨4112, 0, 3, 3⟩], 10, 11⟩ = false ∧
    ((2 : Int) = (measuredColumnWidths risingAlloc sixSixNames 0 []).length ∧
      ∃ s, shrinkColumns ptrLess (measuredColumnWidths risingAlloc sixSixNames 0 []) 10 2 13
        = .ok s) :=
  ⟨rfl,
   (shrinkColumns_terminates ptrLess 10 2).1
     (shrinkInit (measuredColumnWidths risingAlloc sixSixNames 0 []) 13)
     ⟨[⟨4096, 0, 6, 6⟩, ⟨4112, 0, 5, 5⟩], 12, 13⟩ rfl,
   rfl,
   ((shrinkColumns_terminates ptrLess 10 2).2
     (measuredColumnWidths risingAlloc sixSixNames 0 []) 13).2.2.1 _ rfl,
   rfl,
   ((shrinkColumns_terminates ptrLess 10 2).2
     (measuredColumnWidths risingAlloc sixSixNames 0 []) 13).2.2.2 rfl⟩


/-! ## The invariant of SortedColumnWidth -/

/-- C11. The invariant `width = max(headerWidth, dataWidth)` holds for a freshly
constructed `SortedColumnWidth` and, when it holds for an object, it holds
after each of the nine mutators, for every integer argument. (All but
`setMaxHeaderWidth` and `setMinDataWidth`, which may leave the object as it
is, establish it whatever the object was before.) -/
theorem widthInvariant (addr : Nat) (c : SortedColumnWidth) (value : Int) (h : WidthOk c) :
    WidthOk (SortedColumnWidth.create addr) ∧
    WidthOk (c.setHeaderWidth value) ∧
    WidthOk (c.setMaxHeaderWidth value) ∧
    WidthOk (c.incrHeaderWidth value) ∧
    WidthOk (c.decrHeaderWidth value) ∧
    WidthOk (c.setDataWidth value) ∧
    WidthOk (c.setMinDataWidth value) ∧
    WidthOk (c.incrDataWidth value) ∧
    WidthOk (c.decrDataWidth value) ∧
    WidthOk (c.incrWidth value) := by
  refine ⟨rfl, rfl, widthOk_setMaxHeaderWidth c value h, rfl, rfl, rfl,
    widthOk_setMinDataWidth c value h, rfl, rfl, ?_⟩
  unfold WidthOk SortedColumnWidth.incrWidth
  simp

/-- A column with header 4 and data 5, and the argument 3. -/
theorem widthInvariant_witness :
    WidthOk ⟨4096, 5, 4, 5⟩ ∧
    WidthOk (SortedColumnWidth.setMaxHeaderWidth ⟨4096, 5, 4, 5⟩ 3) ∧
    WidthOk (SortedColumnWidth.setMinDataWidth ⟨4096, 5, 4, 5⟩ 3) ∧
    WidthOk (SortedColumnWidth.incrWidth ⟨4096, 5, 4, 5⟩ 3) :=
  have h : WidthOk ⟨4096, 5, 4, 5⟩ := by unfold WidthOk; decide
  ⟨h, (widthInvariant 0 ⟨4096, 5, 4, 5⟩ 3 h).2.2.1,
    (widthInvariant 0 ⟨4096, 5, 4, 5⟩ 3 h).2.2.2.2.2.2.1,
    (widthInvariant 0 ⟨4096, 5, 4, 5⟩ 3 h).2.2.2.2.2.2.2.2.2⟩

/-! ## Shrinking a list that is within budget -/

/-- C12. Idempotence of shrinking. Called with a `totalWidth` that is at most
`termCols`, in particular with the total of a list that is within budget,
`shrinkColumns` makes no pass, whatever number of passes it is allowed, and
returns the list as it is: same order, same objects, same header and data
widths. So a second call on the list a first call returned, when that list is
within budget, returns the same list again. -/
theorem shrinkColumns_idempotent (less : SortedColumnWidth → SortedColumnWidth → Bool)
    (termCols resultColumnsCount : Int) :
    (∀ (columnWidths : List SortedColumnWidth) (totalWidth : Int), totalWidth ≤ termCols →
      shrinkColumns less columnWidths termCols resultColumnsCount totalWidth =
        .ok ⟨columnWidths, totalWidth, -1⟩ ∧
      ∀ fuel : Nat,
        shrinkPasses less termCols resultColumnsCount fuel (shrinkInit columnWidths totalWidth)
          = 0) ∧
    (∀ (columnWidths : List SortedColumnWidth),
      totalWidthOf columnWidths resultColumnsCount ≤ termCols →
      (shrinkColumns less columnWidths termCols resultColumnsCount
        (totalWidthOf columnWidths resultColumnsCount)).map ShrinkState.columnWidths =
        .ok columnWidths) ∧
    (∀ (columnWidths : List SortedColumnWidth) (totalWidth : Int) (s : ShrinkState),
      shrinkColumns less columnWidths termCols resultColumnsCount totalWidth = .ok s →
      totalWidthOf s.columnWidths resultColumnsCount ≤ termCols →
      (shrinkColumns less s.columnWidths termCols resultColumnsCount
        (totalWidthOf s.columnWidths resultColumnsCount)).map ShrinkState.columnWidths =
        .ok s.columnWidths) := by
  have key : ∀ (columnWidths : List SortedColumnWidth) (totalWidth : Int),
      totalWidth ≤ termCols →
      shrinkLoopCond termCols (shrinkInit columnWidths totalWidth) = false := by
    intro columnWidths totalWidth hle
    simp only [shrinkLoopCond, shrinkInit, Bool.and_eq_false_iff, decide_eq_false_iff_not,
      not_lt]
    exact Or.inl hle
  have run : ∀ (columnWidths : List SortedColumnWidth) (totalWidth : Int),
      totalWidth ≤ termCols →
      shrinkColumns less columnWidths termCols resultColumnsCount totalWidth =
        .ok ⟨columnWidths, totalWidth, -1⟩ := by
    intro columnWidths totalWidth hle
    unfold shrinkColumns
    cases hf : shrinkFuel termCols totalWidth with
    | zero => rfl
    | succ fuel =>
      simp only [shrinkLoop, key columnWidths totalWidth hle]
      rfl
  refine ⟨fun columnWidths totalWidth hle => ⟨run columnWidths totalWidth hle, ?_⟩,
    fun columnWidths hle => ?_, fun columnWidths totalWidth s _ hle => ?_⟩
  · intro fuel
    cases fuel with
    | zero => rfl
    | succ fuel =>
      simp only [shrinkPasses, key columnWidths totalWidth hle]
      rfl
  · rw [run columnWidths _ hle]
    rfl
  · rw [run s.columnWidths _ hle]
    rfl

/-- The columns of scenario A, total 15, in 20 terminal columns; and the list
returned for two headers of six characters in 10 columns, run again. -/
theorem shrinkColumns_idempotent_witness :
    measuredTotalWidth risingAlloc scenarioANames 0 scenarioARows ≤ 20 ∧
    shrinkColumns ptrLess (measuredColumnWidths risingAlloc scenarioANames 0 scenarioARows) 20 3
        (measuredTotalWidth risingAlloc scenarioANames 0 scenarioARows) =
      .ok ⟨measuredColumnWidths risingAlloc scenarioANames 0 scenarioARows,
        measuredTotalWidth risingAlloc scenarioANames 0 scenarioARows, -1⟩ ∧
    shrinkColumns ptrLess (measuredColumnWidths risingAlloc sixSixNames 0 []) 10 2 13 =
      .ok ⟨[⟨4096, 0, 6, 6⟩, ⟨4112, 0, 3, 3⟩], 10, 11⟩ ∧
    totalWidthOf [⟨4096, 0, 6, 6⟩, ⟨4112, 0, 3, 3⟩] 2 ≤ 10 ∧
    (shrinkColumns ptrLess [⟨4096, 0, 6, 6⟩, ⟨4112, 0, 3, 3⟩] 10 2
        (totalWidthOf [⟨4096, 0, 6, 6⟩, ⟨4112, 0, 3, 3⟩] 2)).map ShrinkState.columnWidths =
      .ok [⟨4096, 0, 6, 6⟩, ⟨4112, 0, 3, 3⟩] :=
  ⟨by decide,
   ((shrinkColumns_idempotent ptrLess 20 3).1 _ _ (by decide)).1,
   rfl, by decide,
   (shrinkColumns_idempotent ptrLess 10 2).2.2
     (measuredColumnWidths risingAlloc sixSixNames 0 []) 13
     ⟨[⟨4096, 0, 6, 6⟩, ⟨4112, 0, 3, 3⟩], 10, 11⟩ rfl (by decide)⟩

/-! ## Null substitution -/

/-- C13. Null substitution. `getValueString` returns the configured `NullValue`
when the value is invalid or null, and the text of `toString()` when it is
valid and not null; the declared type of the value plays no part. On the cell
values of the model this is `getValueString`. -/
theorem getValueString_null_substitution (nullValue : QString) (v : QVariantData) :
    ((v.isValid = false ∨ v.isNull = true) → v.getValueString nullValue = nullValue) ∧
    ((v.isValid = true ∧ v.isNull = false) → v.getValueString nullValue = v.text) ∧
    (∀ t : Nat,
      QVariantData.getValueString nullValue ⟨t, v.isValid, v.isNull, v.text⟩ =
        v.getValueString nullValue) ∧
    v.getValueString nullValue = getValueString nullValue v.toVariant ∧
    getValueString nullValue QVariant.null = nullValue ∧
    (∀ s : QString, getValueString nullValue (QVariant.value s) = s ∧
      (QVariant.value s).toString = s) := by
  refine ⟨?_, ?_, fun _ => rfl, ?_, rfl, fun _ => ⟨rfl, rfl⟩⟩
  · rintro (h | h) <;> simp [QVariantData.getValueString, h]
  · rintro ⟨h1, h2⟩
    simp [QVariantData.getValueString, h1, h2]
  · unfold QVariantData.getValueString QVariantData.toVariant
    split <;> rfl

/-- A null value of a declared type, an invalid value and a text value, with the
placeholder `NULL`. -/
theorem getValueString_null_substitution_witness :
    QVariantData.getValueString "NULL".toList ⟨10, true, true, []⟩ = "NULL".toList ∧
    QVariantData.getValueString "NULL".toList ⟨0, false, true, []⟩ = "NULL".toList ∧
    QVariantData.getValueString "NULL".toList ⟨10, true, false, "Alice".toList⟩
      = "Alice".toList :=
  ⟨(getValueString_null_substitution "NULL".toList ⟨10, true, true, []⟩).1 (Or.inr rfl),
   (getValueString_null_substitution "NULL".toList ⟨0, false, true, []⟩).1 (Or.inl rfl),
   (getValueString_null_substitution "NULL".toList ⟨10, true, false, "Alice".toList⟩).2.1
     ⟨rfl, rfl⟩⟩


/-! ## ROW mode -/

theorem labelWidth_eq (names : List QString) :
    labelWidth names = (maxLabelLength names : Int) := by
  induction names with
  | nil => rfl
  | cons name rest ih =>
    simp only [labelWidth, maxLabelLength, ih]
    push_cast
    rfl

theorem length_le_maxLabelLength (names : List QString) (name : QString) (h : name ∈ names) :
    name.length ≤ maxLabelLength names := by
  induction names with
  | nil => simp at h
  | cons x rest ih =>
    simp only [maxLabelLength]
    rcases List.mem_cons.1 h with rfl | h
    · exact Nat.le_max_left _ _
    · exact (ih h).trans (Nat.le_max_right _ _)

theorem pad_label (name : QString) (m : Nat) (h : name.length ≤ m) :
    pad name (-(m : Int)) ' ' = name ++ List.replicate (m - name.length) ' ' := by
  unfold pad
  have habs : |(-(m : Int))| = (m : Int) := by simp
  rw [habs]
  split
  · rename_i hge
    have : m - name.length = 0 := by omega
    simp [this]
  · rename_i hlt
    rw [if_neg (by omega)]
    simp

theorem zipWith_congr_mem {α β γ : Type} (f g : α → β → γ) (xs : List α) (ys : List β)
    (h : ∀ x ∈ xs, ∀ y, f x y = g x y) : List.zipWith f xs ys = List.zipWith g xs ys := by
  induction xs generalizing ys with
  | nil => simp
  | cons x xs ih =>
    cases ys with
    | nil => simp
    | cons y ys =>
      simp only [List.zipWith_cons_cons]
      rw [h x (List.mem_cons_self _ _) y,
        ih ys (fun a ha b => h a (List.mem_cons_of_mem _ ha) b)]

theorem center_shape (str : QString) (length : Int) (fillChar : Char) :
    ∃ a b : Nat,
      center str length fillChar =
        List.replicate a fillChar ++ str ++ List.replicate b fillChar ∧
      (a = b ∨ a = b + 1) ∧
      ((a + str.length + b : Nat) : Int) = max (str.length : Int) length := by
  unfold center
  split
  · rename_i h
    exact ⟨0, 0, by simp, Or.inl rfl, by simp; omega⟩
  · rename_i h
    refine ⟨(length - str.length).toNat - (length - str.length).toNat / 2,
      (length - str.length).toNat / 2, rfl, by omega, ?_⟩
    rw [max_eq_right (by omega)]
    omega

theorem rowByRowLoop_within (nullValue : QString) (termWidth : Int) (columns : List QString)
    (rowIdColumns : Nat) (rows : List (List QVariant)) (rowCnt : Nat) (out : QString)
    (hrows : ∀ row ∈ rows, (row.drop rowIdColumns).length ≤ columns.length) :
    rowByRowLoop nullValue termWidth columns rowIdColumns rows rowCnt out =
      { printed := [],
        out := out ++ terminated (rowModeLines nullValue termWidth columns rowIdColumns rows rowCnt),
        fault := none } := by
  induction rows generalizing rowCnt out with
  | nil => simp [rowByRowLoop, rowModeLines, terminated]
  | cons row rest ih =>
    have hrow := hrows row (List.mem_cons_self _ _)
    simp only [rowByRowLoop]
    rw [rowFields_eq nullValue columns (row.drop rowIdColumns) 0 _ (by omega)]
    simp only
    rw [ih _ _ (fun r hr => hrows r (List.mem_cons_of_mem _ hr))]
    simp only [rowModeLines, List.drop_zero, terminated_append, terminated_cons,
      List.cons_append, List.append_assoc]

theorem rowModeLines_eq_rowLayout (nullValue : QString) (termWidth : Int)
    (names : List QString) (rowIdColumns : Nat) (rows : List (List QVariant)) (k : Nat) :
    rowModeLines nullValue termWidth
        (names.map fun name => pad name (-labelWidth names) ' ') rowIdColumns rows k =
      rowLayout nullValue termWidth names rowIdColumns rows k := by
  induction rows generalizing k with
  | nil => rfl
  | cons row rest ih =>
    simp only [rowModeLines, rowLayout, ih]
    congr 2
    rw [List.zipWith_map_left]
    apply zipWith_congr_mem
    intro name hname value
    simp only [rowFieldLine, rowLayoutField]
    rw [labelWidth_eq, pad_label name _ (length_le_maxLabelLength names name hname)]

/-- C14. ROW mode layout. For a result whose rows have at most one visible value
per column, `printResultsRowByRow` sends out, each followed by a line feed,
for the k-th row (k from 1) a banner and then one line per visible value. The
banner is the text ` Row k ` with `-` on both sides, as many on the left as on
the right or one more, `termWidth - 1` characters in all unless the text is
longer. A field line is the label, spaces up to the greatest label length,
`: `, and the display string of `getValueString` in full. For scenario D and
20 terminal columns the lines are the banner, `id  : 1` and `name: Alice`. -/
theorem rowByRow_layout (nullValue : QString) (termWidth : Int) (names : List QString)
    (rowIdColumns : Nat) (rows : List (List QVariant))
    (hrows : ∀ row ∈ rows, (row.drop rowIdColumns).length ≤ names.length) :
    printResultsRowByRow nullValue termWidth names rowIdColumns rows =
      { printed := [],
        out := terminated (rowLayout nullValue termWidth names rowIdColumns rows 1),
        fault := none } ∧
    (∀ k : Nat, ∃ a b : Nat,
      rowBanner termWidth k =
        List.replicate a '-' ++ ([' '] ++ "Row ".toList ++ Nat.toDigits 10 k ++ [' ']) ++
          List.replicate b '-' ∧
      (a = b ∨ a = b + 1) ∧
      ((rowBanner termWidth k).length : Int) =
        max ((([' '] ++ "Row ".toList ++ Nat.toDigits 10 k ++ [' ']).length : Nat) : Int)
          (termWidth - 1)) ∧
    (∀ (name : QString) (value : QVariant), name ∈ names →
      rowLayoutField nullValue names name value =
        name ++ List.replicate (maxLabelLength names - name.length) ' ' ++ ": ".toList ++
          getValueString nullValue value ∧
      (name ++ List.replicate (maxLabelLength names - name.length) ' ').length =
        maxLabelLength names) ∧
    rowLayout "NULL".toList 20 scenarioDNames 0 scenarioDRows 1 =
      ["------ Row 1 ------".toList, "id  : 1".toList, "name: Alice".toList] := by
  refine ⟨?_, ?_, ?_, by decide⟩
  · unfold printResultsRowByRow
    simp only
    rw [rowByRowLoop_within nullValue termWidth _ rowIdColumns rows 1 []
      (by simpa using hrows), rowModeLines_eq_rowLayout]
    simp
  · intro k
    obtain ⟨a, b, h1, h2, h3⟩ :=
      center_shape ([' '] ++ "Row ".toList ++ Nat.toDigits 10 k ++ [' ']) (termWidth - 1) '-'
    refine ⟨a, b, h1, h2, ?_⟩
    unfold rowBanner
    rw [h1, ← h3]
    simp only [List.length_append, List.length_replicate]
  · intro name value hname
    refine ⟨rfl, ?_⟩
    have := length_le_maxLabelLength names name hname
    simp only [List.length_append, List.length_replicate]
    omega

/-- Scenario D of the spec in 20 terminal columns. -/
theorem rowByRow_layout_witness :
    (∀ row ∈ scenarioDRows, (row.drop 0).length ≤ scenarioDNames.length) ∧
    printResultsRowByRow "NULL".toList 20 scenarioDNames 0 scenarioDRows =
      { printed := [],
        out := terminated (rowLayout "NULL".toList 20 scenarioDNames 0 scenarioDRows 1),
        fault := none } ∧
    terminated (rowLayout "NULL".toList 20 scenarioDNames 0 scenarioDRows 1) =
      "------ Row 1 ------\nid  : 1\nname: Alice\n".toList :=
  ⟨by decide,
   (rowByRow_layout "NULL".toList 20 scenarioDNames 0 scenarioDRows (by decide)).1,
   by decide⟩


/-! ## Header passes and data passes -/

theorem map_set_same {β : Type} (f : SortedColumnWidth → β) (cols : List SortedColumnWidth)
    (j : Nat) (c d : SortedColumnWidth) (hc : cols[j]? = some c) (hf : f d = f c) :
    (cols.set j d).map f = cols.map f := by
  induction cols generalizing j with
  | nil => rfl
  | cons x xs ih =>
    cases j with
    | zero =>
      simp only [List.getElem?_cons_zero, Option.some.injEq] at hc
      subst hc
      simp [hf]
    | succ j =>
      simp only [List.getElem?_cons_succ] at hc
      simp only [List.set_cons_succ, List.map_cons, ih j hc]

theorem shrinkHeaderScan_frame (maxSingle : Int) (cols : List SortedColumnWidth) (tw : Int)
    (k : Nat) (r : List SortedColumnWidth × Int)
    (h : shrinkHeaderScan maxSingle k cols tw = .ok r) :
    r.1 = cols ∨
    ∃ (j : Nat) (c d : SortedColumnWidth),
      cols[j]? = some c ∧ c.dataWidth < c.headerWidth ∧ r.1 = cols.set j d ∧
      d.headerWidth < c.headerWidth ∧ d.dataWidth = c.dataWidth ∧ d.addr = c.addr := by
  induction k with
  | zero =>
    simp only [shrinkHeaderScan, Except.ok.injEq] at h
    subst h
    exact Or.inl rfl
  | succ k ih =>
    simp only [shrinkHeaderScan] at h
    split at h
    · cases h
    · rename_i c hc
      simp only [SortedColumnWidth.getHeaderWidth] at h
      split at h
      · exact ih h
      · rename_i hlonger
        simp only [SortedColumnWidth.isHeaderLonger, Bool.not_eq_true', decide_eq_false_iff_not,
          not_not] at hlonger
        split at h
        · rename_i hbig
          simp only [Except.ok.injEq] at h
          subst h
          exact Or.inr ⟨k, c, c.setHeaderWidth maxSingle, hc, hlonger, rfl, hbig, rfl, rfl⟩
        · split at h
          · simp only [Except.ok.injEq] at h
            subst h
            refine Or.inr ⟨k, c, c.decrHeaderWidth defaultStep, hc, hlonger, rfl, ?_, rfl, rfl⟩
            simp only [SortedColumnWidth.decrHeaderWidth, SortedColumnWidth.updateWidth,
              defaultStep]
            omega
          · exact ih h

theorem any_isHeaderLonger_qSort (less : SortedColumnWidth → SortedColumnWidth → Bool)
    (cols : List SortedColumnWidth) :
    (qSort less cols).any SortedColumnWidth.isHeaderLonger = true ↔
      ∃ c ∈ cols, c.dataWidth < c.headerWidth := by
  simp only [List.any_eq_true, SortedColumnWidth.isHeaderLonger, decide_eq_true_eq, gt_iff_lt]
  constructor
  · rintro ⟨c, hc, h⟩
    exact ⟨c, (mem_qSort less cols c).1 hc, h⟩
  · rintro ⟨c, hc, h⟩
    exact ⟨c, (mem_qSort less cols c).2 hc, h⟩

/-- C15. Headers are shrunk before data. In a pass of `shrinkColumns` that
starts with at least one column whose `headerWidth` exceeds its `dataWidth`,
the list is sorted and then either left as it is, or exactly one entry is
replaced: that column had `headerWidth > dataWidth`, its `headerWidth` becomes
smaller, and it keeps its `dataWidth` and stays the same object. So the
`dataWidth` of every column is as before the pass. For one column with header
19 and data 3 in 10 terminal columns the call ends with data width 3 and
width 9. -/
theorem headers_before_data (less : SortedColumnWidth → SortedColumnWidth → Bool)
    (termCols resultColumnsCount : Int) (s s1 : ShrinkState)
    (hlonger : ∃ c ∈ s.columnWidths, c.dataWidth < c.headerWidth)
    (h : shrinkPass less termCols resultColumnsCount s = .ok s1) :
    s1.columnWidths.map SortedColumnWidth.dataWidth =
      (qSort less s.columnWidths).map SortedColumnWidth.dataWidth ∧
    (s1.columnWidths.map SortedColumnWidth.dataWidth).Perm
      (s.columnWidths.map SortedColumnWidth.dataWidth) ∧
    s1.columnWidths.map SortedColumnWidth.addr =
      (qSort less s.columnWidths).map SortedColumnWidth.addr ∧
    (s1.columnWidths = qSort less s.columnWidths ∨
      ∃ (j : Nat) (c d : SortedColumnWidth),
        (qSort less s.columnWidths)[j]? = some c ∧ c.dataWidth < c.headerWidth ∧
        s1.columnWidths = (qSort less s.columnWidths).set j d ∧
        d.headerWidth < c.headerWidth ∧ d.dataWidth = c.dataWidth ∧ d.addr = c.addr) ∧
    (∀ addr : Nat,
      shrinkColumns less [⟨addr, 3, 19, 19⟩] 10 1 19 = .ok ⟨[⟨addr, 3, 9, 9⟩], 9, 19⟩) := by
  have hany := (any_isHeaderLonger_qSort less s.columnWidths).2 hlonger
  have hframe : s1.columnWidths = qSort less s.columnWidths ∨
      ∃ (j : Nat) (c d : SortedColumnWidth),
        (qSort less s.columnWidths)[j]? = some c ∧ c.dataWidth < c.headerWidth ∧
        s1.columnWidths = (qSort less s.columnWidths).set j d ∧
        d.headerWidth < c.headerWidth ∧ d.dataWidth = c.dataWidth ∧ d.addr = c.addr := by
    unfold shrinkPass at h
    simp only [hany, Bool.not_true] at h
    split at h
    · cases h
    · rename_i cols tw hscan
      simp only [Except.ok.injEq] at h
      subst h
      simp only [Bool.false_eq_true, if_false] at hscan
      exact shrinkHeaderScan_frame _ _ _ _ _ hscan
  have hdata : s1.columnWidths.map SortedColumnWidth.dataWidth =
      (qSort less s.columnWidths).map SortedColumnWidth.dataWidth := by
    rcases hframe with hf | ⟨j, c, d, hc, -, hf, -, hd, -⟩
    · rw [hf]
    · rw [hf]
      exact map_set_same _ _ j c d hc hd
  refine ⟨hdata, ?_, ?_, hframe, fun _ => rfl⟩
  · rw [hdata]
    exact (qSort_perm less s.columnWidths).map _
  · rcases hframe with hf | ⟨j, c, d, hc, -, hf, -, -, ha⟩
    · rw [hf]
    · rw [hf]
      exact map_set_same _ _ j c d hc ha

/-- Scenario B of the spec: one column with header 19 and data 3 in 10 terminal
columns. The pass shortens the header to 9 and leaves the data width 3. -/
theorem headers_before_data_witness :
    (∃ c ∈ (shrinkInit [⟨4096, 3, 19, 19⟩] 19).columnWidths, c.dataWidth < c.headerWidth) ∧
    shrinkPass ptrLess 10 1 (shrinkInit [⟨4096, 3, 19, 19⟩] 19) =
      .ok ⟨[⟨4096, 3, 9, 9⟩], 9, 19⟩ ∧
    ([⟨4096, 3, 9, 9⟩] : List SortedColumnWidth).map SortedColumnWidth.dataWidth =
      (qSort ptrLess [⟨4096, 3, 19, 19⟩]).map SortedColumnWidth.dataWidth :=
  ⟨by decide, rfl,
   (headers_before_data ptrLess 10 1 (shrinkInit [⟨4096, 3, 19, 19⟩] 19)
     ⟨[⟨4096, 3, 9, 9⟩], 9, 19⟩ (by decide) rfl).1⟩

theorem shrinkDataScan_keeps (maxSingle : Int) (cols : List SortedColumnWidth) (tw : Int)
    (k : Nat) (r : List SortedColumnWidth × Int)
    (hdata : ∀ c ∈ cols, c.headerWidth ≤ c.dataWidth)
    (h : shrinkDataScan maxSingle k cols tw = .ok r) :
    ∀ c ∈ r.1, c.headerWidth ≤ c.dataWidth := by
  induction k with
  | zero =>
    simp only [shrinkDataScan, Except.ok.injEq] at h
    subst h
    exact hdata
  | succ k ih =>
    simp only [shrinkDataScan] at h
    split at h
    · cases h
    · rename_i c hc
      simp only [SortedColumnWidth.getDataWidth] at h
      split at h
      · simp only [Except.ok.injEq] at h
        subst h
        intro x hx
        rcases List.mem_or_eq_of_mem_set hx with hx | hx
        · exact hdata x hx
        · subst hx
          simp only [SortedColumnWidth.setDataWidth, SortedColumnWidth.setMaxHeaderWidth,
            SortedColumnWidth.updateWidth]
          split
          · exact Int.le_refl _
          · simp only
            omega
      · split at h
        · simp only [Except.ok.injEq] at h
          subst h
          intro x hx
          rcases List.mem_or_eq_of_mem_set hx with hx | hx
          · exact hdata x hx
          · subst hx
            simp only [SortedColumnWidth.decrDataWidth, SortedColumnWidth.setMaxHeaderWidth,
              SortedColumnWidth.updateWidth, defaultStep]
            split
            · exact Int.le_refl _
            · simp only
              omega
        · exact ih h

theorem shrinkDataFlag_iff (less : SortedColumnWidth → SortedColumnWidth → Bool)
    (s : ShrinkState) :
    shrinkDataFlag less s = true ↔ ∀ c ∈ s.columnWidths, c.headerWidth ≤ c.dataWidth := by
  unfold shrinkDataFlag
  rw [Bool.not_eq_true', ← Bool.not_eq_true, any_isHeaderLonger_qSort]
  constructor
  · intro h c hc
    by_contra hlt
    exact h ⟨c, hc, by omega⟩
  · rintro h ⟨c, hc, hlt⟩
    have := h c hc
    omega

theorem shrinkPass_keeps_data (less : SortedColumnWidth → SortedColumnWidth → Bool)
    (termCols n : Int) (s s1 : ShrinkState)
    (hflag : shrinkDataFlag less s = true)
    (h : shrinkPass less termCols n s = .ok s1) :
    shrinkDataFlag less s1 = true := by
  have hdata := (shrinkDataFlag_iff less s).1 hflag
  rw [shrinkDataFlag_iff]
  unfold shrinkDataFlag at hflag
  unfold shrinkPass at h
  simp only [hflag, if_true] at h
  split at h
  · cases h
  · rename_i cols tw hscan
    simp only [Except.ok.injEq] at h
    subst h
    exact shrinkDataScan_keeps _ _ _ _ _
      (fun c hc => hdata c ((mem_qSort less _ c).1 hc)) hscan

/-- C16. Data shrinking never makes a header the longer side again. A pass of
`shrinkColumns` that shrinks data (it starts with no column whose
`headerWidth` exceeds its `dataWidth`) ends with no such column: the column
cut to `maxSingleColumnWidth` and the column decremented by 1 both have their
header capped to the new data width. So from a pass that shrinks data on,
every pass of the same call shrinks data: among the states in which the passes
of a call start, whenever an earlier one has `shrinkData` true a later one has
it true too. -/
theorem data_pass_keeps_headers_capped (less : SortedColumnWidth → SortedColumnWidth → Bool)
    (termCols resultColumnsCount : Int) :
    (∀ s s1 : ShrinkState, (∀ c ∈ s.columnWidths, c.headerWidth ≤ c.dataWidth) →
      shrinkPass less termCols resultColumnsCount s = .ok s1 →
      ∀ c ∈ s1.columnWidths, c.headerWidth ≤ c.dataWidth) ∧
    (∀ (c : SortedColumnWidth) (m : Int),
      ((c.setDataWidth m).setMaxHeaderWidth m).headerWidth ≤
        ((c.setDataWidth m).setMaxHeaderWidth m).dataWidth ∧
      ((c.decrDataWidth defaultStep).setMaxHeaderWidth
          (c.decrDataWidth defaultStep).getDataWidth).headerWidth ≤
        ((c.decrDataWidth defaultStep).setMaxHeaderWidth
          (c.decrDataWidth defaultStep).getDataWidth).dataWidth) ∧
    (∀ (fuel : Nat) (s : ShrinkState), shrinkDataFlag less s = true →
      ∀ t ∈ shrinkTrace less termCols resultColumnsCount fuel s,
        shrinkDataFlag less t = true) ∧
    (∀ (fuel : Nat) (s : ShrinkState),
      (shrinkTrace less termCols resultColumnsCount fuel s).Pairwise
        (fun earlier later =>
          shrinkDataFlag less earlier = true → shrinkDataFlag less later = true)) := by
  have later : ∀ (fuel : Nat) (s : ShrinkState), shrinkDataFlag less s = true →
      ∀ t ∈ shrinkTrace less termCols resultColumnsCount fuel s,
        shrinkDataFlag less t = true := by
    intro fuel
    induction fuel with
    | zero =>
      intro s _ t ht
      simp [shrinkTrace] at ht
    | succ fuel ih =>
      intro s hflag t ht
      simp only [shrinkTrace] at ht
      split at ht
      · split at ht
        · simp only [List.mem_singleton] at ht
          subst ht
          exact hflag
        · rename_i s1 hpass
          rcases List.mem_cons.1 ht with rfl | ht
          · exact hflag
          · exact ih s1 (shrinkPass_keeps_data less termCols resultColumnsCount _ s1 hflag hpass)
              t ht
      · simp at ht
  refine ⟨?_, ?_, later, ?_⟩
  · intro s s1 hdata h
    exact (shrinkDataFlag_iff less s1).1
      (shrinkPass_keeps_data less termCols resultColumnsCount s s1
        ((shrinkDataFlag_iff less s).2 hdata) h)
  · intro c m
    constructor
    · simp only [SortedColumnWidth.setDataWidth, SortedColumnWidth.setMaxHeaderWidth,
        SortedColumnWidth.updateWidth]
      split
      · exact Int.le_refl _
      · simp only
        omega
    · simp only [SortedColumnWidth.decrDataWidth, SortedColumnWidth.setMaxHeaderWidth,
        SortedColumnWidth.updateWidth, SortedColumnWidth.getDataWidth, defaultStep]
      split
      · exact Int.le_refl _
      · simp only
        omega
  · intro fuel
    induction fuel with
    | zero =>
      intro s
      simp [shrinkTrace]
    | succ fuel ih =>
      intro s
      simp only [shrinkTrace]
      split
      · split
        · simp
        · rename_i s1 hpass
          rw [List.pairwise_cons]
          refine ⟨fun t ht hflag => ?_, ih s1⟩
          exact later fuel s1
            (shrinkPass_keeps_data less termCols resultColumnsCount _ s1 hflag hpass) t ht
      · simp


/-- Two columns with data 6 and 3 under headers of one character, in 8 terminal
columns: the first pass shrinks data, no header is longer than its data
afterwards, and the second pass shrinks data again. -/
theorem data_pass_keeps_headers_capped_witness :
    (∀ c ∈ (shrinkInit (measuredColumnWidths risingAlloc abNames 0 sixThreeRows) 10).columnWidths,
      c.headerWidth ≤ c.dataWidth) ∧
    shrinkPass ptrLess 8 2 (shrinkInit (measuredColumnWidths risingAlloc abNames 0 sixThreeRows) 10)
      = .ok ⟨[⟨4096, 6, 1, 6⟩, ⟨4112, 2, 1, 2⟩], 9, 10⟩ ∧
    (∀ c ∈ ([⟨4096, 6, 1, 6⟩, ⟨4112, 2, 1, 2⟩] : List SortedColumnWidth),
      c.headerWidth ≤ c.dataWidth) ∧
    shrinkDataFlag ptrLess
      (shrinkInit (measuredColumnWidths risingAlloc abNames 0 sixThreeRows) 10) = true ∧
    (∀ t ∈ shrinkTrace ptrLess 8 2 2
        (shrinkInit (measuredColumnWidths risingAlloc abNames 0 sixThreeRows) 10),
      shrinkDataFlag ptrLess t = true) :=
  ⟨by decide, rfl,
   (data_pass_keeps_headers_capped ptrLess 8 2).1
     (shrinkInit (measuredColumnWidths risingAlloc abNames 0 sixThreeRows) 10)
     ⟨[⟨4096, 6, 1, 6⟩, ⟨4112, 2, 1, 2⟩], 9, 10⟩ (by decide) rfl,
   rfl,
   (data_pass_keeps_headers_capped ptrLess 8 2).2.2.1 2
     (shrinkInit (measuredColumnWidths risingAlloc abNames 0 sixThreeRows) 10) rfl⟩

/-! ## The code at failing inputs -/

/-- C17, the code at the failing input. Headers of six and of three characters,
no data, 8 terminal columns, the objects at rising addresses. `qSort`
compares the pointers, so the list stays `[6, 3]`, not in the order of the
widths, and the header pass shortens the second column, of header 3, while the
first has header 6. With data of six and of three characters under headers of
one character the data pass shortens the data of 3, not the data of 6. With
`operator<` on widths the same two passes shorten the column of 6. -/
theorem shrinkPass_not_widest_first :
    (measuredColumnWidths risingAlloc sixThreeNames 0 [] = [⟨4096, 0, 6, 6⟩, ⟨4112, 0, 3, 3⟩] ∧
      qSort ptrLess [⟨4096, 0, 6, 6⟩, ⟨4112, 0, 3, 3⟩] = [⟨4096, 0, 6, 6⟩, ⟨4112, 0, 3, 3⟩] ∧
      shrinkPass ptrLess 8 2 (shrinkInit [⟨4096, 0, 6, 6⟩, ⟨4112, 0, 3, 3⟩] 10) =
        .ok ⟨[⟨4096, 0, 6, 6⟩, ⟨4112, 0, 2, 2⟩], 9, 10⟩) ∧
    (measuredColumnWidths risingAlloc abNames 0 sixThreeRows =
        [⟨4096, 6, 1, 6⟩, ⟨4112, 3, 1, 3⟩] ∧
      shrinkPass ptrLess 8 2 (shrinkInit [⟨4096, 6, 1, 6⟩, ⟨4112, 3, 1, 3⟩] 10) =
        .ok ⟨[⟨4096, 6, 1, 6⟩, ⟨4112, 2, 1, 2⟩], 9, 10⟩) ∧
    (shrinkPass SortedColumnWidth.lt 8 2 (shrinkInit [⟨4096, 0, 6, 6⟩, ⟨4112, 0, 3, 3⟩] 10) =
        .ok ⟨[⟨4112, 0, 3, 3⟩, ⟨4096, 0, 5, 5⟩], 9, 10⟩ ∧
      shrinkPass SortedColumnWidth.lt 8 2 (shrinkInit [⟨4096, 6, 1, 6⟩, ⟨4112, 3, 1, 3⟩] 10) =
        .ok ⟨[⟨4112, 3, 1, 3⟩, ⟨4096, 5, 1, 5⟩], 9, 10⟩) :=
  ⟨⟨rfl, rfl, rfl⟩, ⟨rfl, rfl⟩, ⟨rfl, rfl⟩⟩

/-- C18, the code at the failing inputs, both with `2n - 1 = termCols`. FIXED
mode, two columns in 3 terminal columns: `baseColWidth` is `3 / 2 - 1 = 0` and
the widths are `[0, 2]`. COLUMNS mode, one column with header `a` and data
`abc` in 1 terminal column: `maxSingleColumnWidth` is 0, the data is cut to 0
and the header capped to 0, and the final width is 0. -/
theorem zero_width_at_the_limit (less : SortedColumnWidth → SortedColumnWidth → Bool) :
    ((2 : Int) * 2 - 1 ≤ 3 ∧ intDiv 3 2 = .ok 1 ∧ fixedWidths 3 2 (1 - 1) = [0, 2]) ∧
    ((1 : Int) * 2 - 1 ≤ 1 ∧ maxSingleColumnWidth 1 1 = 0 ∧
      measuredColumnWidths risingAlloc ["a".toList] 0 [[.value "abc".toList]] =
        [⟨4096, 3, 1, 3⟩] ∧
      shrinkColumns less [⟨4096, 3, 1, 3⟩] 1 1 3 = .ok ⟨[⟨4096, 0, 0, 0⟩], 0, 3⟩ ∧
      columnsFinalWidths less
        (measuredColumnWidths risingAlloc ["a".toList] 0 [[.value "abc".toList]]) 1 1 =
        .ok [0]) :=
  ⟨⟨by decide, rfl, rfl⟩, ⟨by decide, rfl, rfl, rfl, rfl⟩⟩

/-- C19. The fixed point is reachable. Columns `a` and `b`, one row with an empty
text and a text of 20 characters, 10 terminal columns (`2n - 1 = 3 ≤ 10`,
total 22). The column `a` has header 1 and data 0, so every pass is a header
pass, and its header, which is 1 and within `maxSingleColumnWidth = 7`, cannot
be shortened. The first pass changes nothing, the loop ends after it with
`totalWidth = previousTotalWidth = 22 > 10`, the condition of the warning, and
the widths returned, 1 and 20, sum with the separator to 22. -/
theorem shrinkColumns_fixed_point_reachable :
    (abNames.length : Int) * 2 - 1 ≤ 10 ∧
    measuredColumnWidths risingAlloc abNames 0 emptyLongRows =
      [⟨4096, 0, 1, 1⟩, ⟨4112, 20, 1, 20⟩] ∧
    measuredTotalWidth risingAlloc abNames 0 emptyLongRows = 22 ∧
    (shrinkPass ptrLess 10 2 (shrinkInit [⟨4096, 0, 1, 1⟩, ⟨4112, 20, 1, 20⟩] 22) =
        .ok ⟨[⟨4096, 0, 1, 1⟩, ⟨4112, 20, 1, 20⟩], 22, 22⟩ ∧
      shrinkColumns ptrLess [⟨4096, 0, 1, 1⟩, ⟨4112, 20, 1, 20⟩] 10 2 22 =
        .ok ⟨[⟨4096, 0, 1, 1⟩, ⟨4112, 20, 1, 20⟩], 22, 22⟩ ∧
      shrinkPasses ptrLess 10 2 (shrinkFuel 10 22)
        (shrinkInit [⟨4096, 0, 1, 1⟩, ⟨4112, 20, 1, 20⟩] 22) = 1 ∧
      columnsFinalWidths ptrLess (measuredColumnWidths risingAlloc abNames 0 emptyLongRows)
        10 2 = .ok [1, 20]) ∧
    (shrinkPass SortedColumnWidth.lt 10 2
          (shrinkInit [⟨4096, 0, 1, 1⟩, ⟨4112, 20, 1, 20⟩] 22) =
        .ok ⟨[⟨4096, 0, 1, 1⟩, ⟨4112, 20, 1, 20⟩], 22, 22⟩ ∧
      shrinkColumns SortedColumnWidth.lt [⟨4096, 0, 1, 1⟩, ⟨4112, 20, 1, 20⟩] 10 2 22 =
        .ok ⟨[⟨4096, 0, 1, 1⟩, ⟨4112, 20, 1, 20⟩], 22, 22⟩ ∧
      shrinkPasses SortedColumnWidth.lt 10 2 (shrinkFuel 10 22)
        (shrinkInit [⟨4096, 0, 1, 1⟩, ⟨4112, 20, 1, 20⟩] 22) = 1 ∧
      columnsFinalWidths SortedColumnWidth.lt
        (measuredColumnWidths risingAlloc abNames 0 emptyLongRows) 10 2 = .ok [1, 20]) ∧
    shrinkWarning 10 ⟨[⟨4096, 0, 1, 1⟩, ⟨4112, 20, 1, 20⟩], 22, 22⟩ = true ∧
    ([1, 20] : List Int).sum + ((abNames.length : Int) - 1) = 22 ∧ (10 : Int) < 22 :=
  ⟨by decide, rfl, rfl, ⟨rfl, rfl, rfl, rfl⟩, ⟨rfl, rfl, rfl, rfl⟩, rfl, by decide, by decide⟩

/-- C20, the code at the failing input. Columns `a` and `b`, one row with a null
value and the text `x`, the placeholder `NULL`, 20 terminal columns. The scan
of lines 198-205 measures `toString()`, which is empty for the null value, so
the column `a` has data width 0 and width 1; the total 3 is within 20, only the
last column grows, and the final widths are 1 and 18. `getValueString` gives
the cell `NULL`, of 4 characters, which the width 1 cuts to `N`. -/
theorem null_placeholder_is_cut (less : SortedColumnWidth → SortedColumnWidth → Bool) :
    measuredColumnWidths risingAlloc abNames 0 nullRows =
      [⟨4096, 0, 1, 1⟩, ⟨4112, 1, 1, 1⟩] ∧
    measuredTotalWidth risingAlloc abNames 0 nullRows = 3 ∧ (3 : Int) ≤ 20 ∧
    columnsFinalWidths less (measuredColumnWidths risingAlloc abNames 0 nullRows) 20 2 =
      .ok [1, 18] ∧
    getValueString "NULL".toList QVariant.null = "NULL".toList ∧
    ((getValueString "NULL".toList QVariant.null).length : Int) = 4 ∧
    left (getValueString "NULL".toList QVariant.null) 1 = "N".toList :=
  ⟨rfl, rfl, by decide, rfl, rfl, rfl, rfl⟩


/-! ## The pass when `qSort` compares widths -/

theorem orderedInsert_sorted (x : SortedColumnWidth) (l : List SortedColumnWidth)
    (h : List.Pairwise (fun a b => a.width ≤ b.width) l) :
    List.Pairwise (fun a b => a.width ≤ b.width) (orderedInsert SortedColumnWidth.lt x l) := by
  induction l with
  | nil => simp [orderedInsert]
  | cons y ys ih =>
    rw [List.pairwise_cons] at h
    unfold orderedInsert
    split
    · rename_i hlt
      simp only [SortedColumnWidth.lt, decide_eq_true_eq] at hlt
      rw [List.pairwise_cons]
      refine ⟨?_, ih h.2⟩
      intro a ha
      rcases List.mem_cons.1 ((orderedInsert_perm SortedColumnWidth.lt x ys).mem_iff.1 ha)
        with rfl | ha
      · omega
      · exact h.1 a ha
    · rename_i hlt
      simp only [SortedColumnWidth.lt, decide_eq_true_eq, not_lt] at hlt
      rw [List.pairwise_cons, List.pairwise_cons]
      refine ⟨?_, h⟩
      intro a ha
      rcases List.mem_cons.1 ha with rfl | ha
      · exact hlt
      · exact le_trans hlt (h.1 a ha)

theorem qSort_sorted (l : List SortedColumnWidth) :
    List.Pairwise (fun a b => a.width ≤ b.width) (qSort SortedColumnWidth.lt l) := by
  induction l with
  | nil => simp [qSort]
  | cons x xs ih =>
    unfold qSort
    exact orderedInsert_sorted x _ ih

theorem shrinkHeaderScan_pick (maxSingle : Int) (cols : List SortedColumnWidth) (tw : Int)
    (k : Nat) (r : List SortedColumnWidth × Int)
    (h : shrinkHeaderScan maxSingle k cols tw = .ok r) :
    r.1 = cols ∨
    ∃ (j : Nat) (c d : SortedColumnWidth),
      j < k ∧ cols[j]? = some c ∧ r.1 = cols.set j d ∧ c.dataWidth < c.headerWidth ∧
      (maxSingle < c.headerWidth ∨ 1 < c.headerWidth) ∧
      ∀ (i : Nat) (e : SortedColumnWidth), j < i → i < k → cols[i]? = some e →
        e.dataWidth < e.headerWidth → e.headerWidth ≤ maxSingle ∧ e.headerWidth ≤ 1 := by
  induction k with
  | zero =>
    simp only [shrinkHeaderScan, Except.ok.injEq] at h
    subst h
    exact Or.inl rfl
  | succ k ih =>
    simp only [shrinkHeaderScan] at h
    split at h
    · cases h
    · rename_i c hc
      simp only [SortedColumnWidth.getHeaderWidth] at h
      have skip : (c.dataWidth < c.headerWidth → c.headerWidth ≤ maxSingle ∧ c.headerWidth ≤ 1) →
          shrinkHeaderScan maxSingle k cols tw = .ok r →
          r.1 = cols ∨
          ∃ (j : Nat) (c d : SortedColumnWidth),
            j < k + 1 ∧ cols[j]? = some c ∧ r.1 = cols.set j d ∧ c.dataWidth < c.headerWidth ∧
            (maxSingle < c.headerWidth ∨ 1 < c.headerWidth) ∧
            ∀ (i : Nat) (e : SortedColumnWidth), j < i → i < k + 1 → cols[i]? = some e →
              e.dataWidth < e.headerWidth → e.headerWidth ≤ maxSingle ∧ e.headerWidth ≤ 1 := by
        intro hskip hrec
        rcases ih hrec with hr | ⟨j, c1, d, hj, hc1, hr, hl, hbig, hrest⟩
        · exact Or.inl hr
        · refine Or.inr ⟨j, c1, d, by omega, hc1, hr, hl, hbig, ?_⟩
          intro i e hji hik he hel
          rcases Nat.lt_or_ge i k with hlt | hge
          · exact hrest i e hji hlt he hel
          · have hik' : i = k := by omega
            subst hik'
            rw [hc] at he
            cases he
            exact hskip hel
      split at h
      · rename_i hnot
        simp only [SortedColumnWidth.isHeaderLonger, Bool.not_eq_true', decide_eq_false_iff_not,
          not_lt] at hnot
        exact skip (fun hl => absurd hl (by omega)) h
      · rename_i hlonger
        simp only [SortedColumnWidth.isHeaderLonger, Bool.not_eq_true', decide_eq_false_iff_not,
          not_not] at hlonger
        split at h
        · rename_i hbig
          simp only [Except.ok.injEq] at h
          subst h
          exact Or.inr ⟨k, c, _, by omega, hc, rfl, hlonger, Or.inl hbig,
            fun i e hji hik _ _ => absurd hji (by omega)⟩
        · rename_i hsmall
          split at h
          · rename_i hone
            simp only [Except.ok.injEq] at h
            subst h
            exact Or.inr ⟨k, c, _, by omega, hc, rfl, hlonger, Or.inr hone,
              fun i e hji hik _ _ => absurd hji (by omega)⟩
          · rename_i hone
            exact skip (fun _ => ⟨by omega, by omega⟩) h

theorem shrinkDataScan_pick (maxSingle : Int) (cols : List SortedColumnWidth) (tw : Int)
    (k : Nat) (r : List SortedColumnWidth × Int)
    (h : shrinkDataScan maxSingle k cols tw = .ok r) :
    r.1 = cols ∨
    ∃ (j : Nat) (c d : SortedColumnWidth),
      j < k ∧ cols[j]? = some c ∧ r.1 = cols.set j d ∧
      (maxSingle < c.dataWidth ∨ 1 < c.dataWidth) ∧
      ∀ (i : Nat) (e : SortedColumnWidth), j < i → i < k → cols[i]? = some e →
        e.dataWidth ≤ maxSingle ∧ e.dataWidth ≤ 1 := by
  induction k with
  | zero =>
    simp only [shrinkDataScan, Except.ok.injEq] at h
    subst h
    exact Or.inl rfl
  | succ k ih =>
    simp only [shrinkDataScan] at h
    split at h
    · cases h
    · rename_i c hc
      simp only [SortedColumnWidth.getDataWidth] at h
      split at h
      · rename_i hbig
        simp only [Except.ok.injEq] at h
        subst h
        exact Or.inr ⟨k, c, _, by omega, hc, rfl, Or.inl hbig,
          fun i e hji hik _ => absurd hji (by omega)⟩
      · rename_i hsmall
        split at h
        · rename_i hone
          simp only [Except.ok.injEq] at h
          subst h
          exact Or.inr ⟨k, c, _, by omega, hc, rfl, Or.inr hone,
            fun i e hji hik _ => absurd hji (by omega)⟩
        · rename_i hone
          rcases ih h with hr | ⟨j, c1, d, hj, hc1, hr, hbig, hrest⟩
          · exact Or.inl hr
          · refine Or.inr ⟨j, c1, d, by omega, hc1, hr, hbig, ?_⟩
            intro i e hji hik he
            rcases Nat.lt_or_ge i k with hlt | hge
            · exact hrest i e hji hlt he
            · have hik' : i = k := by omega
              subst hik'
              rw [hc] at he
              cases he
              exact ⟨by omega, by omega⟩

theorem sorted_width_le (l : List SortedColumnWidth)
    (hs : List.Pairwise (fun a b => a.width ≤ b.width) l) (i j : Nat)
    (a b : SortedColumnWidth) (hij : i < j) (ha : l[i]? = some a) (hb : l[j]? = some b) :
    a.width ≤ b.width := by
  rw [List.getElem?_eq_some] at ha hb
  obtain ⟨hi, rfl⟩ := ha
  obtain ⟨hj, rfl⟩ := hb
  exact List.pairwise_iff_getElem.1 hs i j hi hj hij

/-- With `operator<` as the comparison of `qSort`, a pass of `shrinkColumns` over
columns that satisfy the invariant of the class sorts them by width and, if it
changes a column, changes a widest eligible one: in a header pass a column
with `headerWidth > dataWidth` whose header is the greatest among such
columns, in a data pass a column whose data width is the greatest of all. -/
theorem widest_first_under_width_order (termCols resultColumnsCount : Int)
    (s s1 : ShrinkState) (hn : resultColumnsCount = s.columnWidths.length)
    (hok : ∀ c ∈ s.columnWidths, WidthOk c)
    (h : shrinkPass SortedColumnWidth.lt termCols resultColumnsCount s = .ok s1) :
    List.Pairwise (fun a b => a.width ≤ b.width) (qSort SortedColumnWidth.lt s.columnWidths) ∧
    (s1.columnWidths = qSort SortedColumnWidth.lt s.columnWidths ∨
      ∃ (j : Nat) (c d : SortedColumnWidth),
        (qSort SortedColumnWidth.lt s.columnWidths)[j]? = some c ∧
        s1.columnWidths = (qSort SortedColumnWidth.lt s.columnWidths).set j d ∧
        ((shrinkDataFlag SortedColumnWidth.lt s = false ∧ c.dataWidth < c.headerWidth ∧
            ∀ e ∈ s.columnWidths, e.dataWidth < e.headerWidth →
              e.headerWidth ≤ c.headerWidth) ∨
          (shrinkDataFlag SortedColumnWidth.lt s = true ∧
            ∀ e ∈ s.columnWidths, e.dataWidth ≤ c.dataWidth))) := by
  have hsorted := qSort_sorted s.columnWidths
  refine ⟨hsorted, ?_⟩
  have hk : resultColumnsCount.toNat = (qSort SortedColumnWidth.lt s.columnWidths).length := by
    rw [qSort_length, hn, Int.toNat_ofNat]
  have hok' : ∀ c ∈ qSort SortedColumnWidth.lt s.columnWidths, WidthOk c :=
    fun c hc => hok c ((mem_qSort _ _ c).1 hc)
  have index : ∀ e ∈ s.columnWidths,
      ∃ i, i < (qSort SortedColumnWidth.lt s.columnWidths).length ∧
        (qSort SortedColumnWidth.lt s.columnWidths)[i]? = some e := by
    intro e he
    obtain ⟨i, hi, hie⟩ := List.getElem_of_mem ((mem_qSort SortedColumnWidth.lt _ e).2 he)
    exact ⟨i, hi, by rw [List.getElem?_eq_getElem hi, hie]⟩
  unfold shrinkPass at h
  simp only at h
  split at h
  · cases h
  · rename_i cols tw hscan
    simp only [Except.ok.injEq] at h
    subst h
    simp only
    by_cases hflag : shrinkDataFlag SortedColumnWidth.lt s = true
    · have hdata := (shrinkDataFlag_iff SortedColumnWidth.lt s).1 hflag
      unfold shrinkDataFlag at hflag
      simp only [hflag, if_true] at hscan
      rcases shrinkDataScan_pick _ _ _ _ _ hscan with hr | ⟨j, c, d, hj, hc, hr, hbig, hrest⟩
      · exact Or.inl hr
      · refine Or.inr ⟨j, c, d, hc, hr, Or.inr ⟨by unfold shrinkDataFlag; exact hflag, ?_⟩⟩
        intro e he
        obtain ⟨i, hi, hie⟩ := index e he
        have hcmem : c ∈ s.columnWidths := (mem_qSort _ _ c).1 (List.getElem?_mem hc)
        have hwc : c.width = c.dataWidth := by
          have := hok c hcmem
          unfold WidthOk at this
          rw [this, max_eq_right (hdata c hcmem)]
        have hwe : e.width = e.dataWidth := by
          have := hok e he
          unfold WidthOk at this
          rw [this, max_eq_right (hdata e he)]
        rcases Nat.lt_trichotomy i j with hlt | heq | hgt
        · have := sorted_width_le _ hsorted i j e c hlt hie hc
          omega
        · subst heq
          rw [hc] at hie
          cases hie
          exact Int.le_refl _
        · have := hrest i e hgt (by omega) hie
          omega
    · have hflag' : shrinkDataFlag SortedColumnWidth.lt s = false := by
        simpa using hflag
      unfold shrinkDataFlag at hflag'
      simp only [hflag', Bool.false_eq_true, if_false] at hscan
      rcases shrinkHeaderScan_pick _ _ _ _ _ hscan with
        hr | ⟨j, c, d, hj, hc, hr, hlonger, hbig, hrest⟩
      · exact Or.inl hr
      · refine Or.inr ⟨j, c, d, hc, hr,
          Or.inl ⟨by unfold shrinkDataFlag; exact hflag', hlonger, ?_⟩⟩
        intro e he hel
        obtain ⟨i, hi, hie⟩ := index e he
        have hcmem : c ∈ s.columnWidths := (mem_qSort _ _ c).1 (List.getElem?_mem hc)
        have hwc : c.width = c.headerWidth := by
          have := hok c hcmem
          unfold WidthOk at this
          rw [this, max_eq_left (by omega)]
        have hwe : e.width = e.headerWidth := by
          have := hok e he
          unfold WidthOk at this
          rw [this, max_eq_left (by omega)]
        rcases Nat.lt_trichotomy i j with hlt | heq | hgt
        · have := sorted_width_le _ hsorted i j e c hlt hie hc
          omega
        · subst heq
          rw [hc] at hie
          cases hie
          exact Int.le_refl _
        · have := hrest i e hgt (by omega) hie hel
          omega


/-! ## Shrinking in steps of one -/

theorem shrinkPass_step (less : SortedColumnWidth → SortedColumnWidth → Bool)
    (termCols n : Int) (s s1 : ShrinkState)
    (hinv : ∀ c ∈ s.columnWidths, WithinSingle (maxSingleColumnWidth termCols n) c)
    (h : shrinkPass less termCols n s = .ok s1) :
    (s1.totalWidth = s.totalWidth ∧ s1.columnWidths = qSort less s.columnWidths) ∨
    (s1.totalWidth = s.totalWidth - 1 ∧
      totalWidthOf s1.columnWidths n = totalWidthOf s.columnWidths n - 1) := by
  obtain ⟨-, hp⟩ := shrinkPass_exact less termCols n s s1 hinv h
  obtain ⟨-, -, hq⟩ := shrinkPass_progress less termCols n s s1 h
  rcases hp with ⟨htw, -⟩ | ⟨htw, hsum⟩
  · rcases hq with hq | hq
    · omega
    · exact Or.inl ⟨htw, hq.2⟩
  · right
    refine ⟨htw, ?_⟩
    unfold totalWidthOf
    omega

theorem shrinkTrace_step (less : SortedColumnWidth → SortedColumnWidth → Bool)
    (termCols n : Int) (fuel : Nat) (s : ShrinkState)
    (hn : n = s.columnWidths.length)
    (hinv : ∀ c ∈ s.columnWidths, WithinSingle (maxSingleColumnWidth termCols n) c)
    (htrack : s.totalWidth = totalWidthOf s.columnWidths n) :
    ∀ t ∈ shrinkTrace less termCols n fuel s,
      t.totalWidth = totalWidthOf t.columnWidths n ∧
      ∃ t1, shrinkPass less termCols n t = .ok t1 ∧
        ((t1.totalWidth = t.totalWidth ∧ t1.columnWidths = qSort less t.columnWidths) ∨
          (t1.totalWidth = t.totalWidth - 1 ∧
            totalWidthOf t1.columnWidths n = totalWidthOf t.columnWidths n - 1)) := by
  induction fuel generalizing s with
  | zero =>
    intro t ht
    simp [shrinkTrace] at ht
  | succ fuel ih =>
    intro t ht
    simp only [shrinkTrace] at ht
    split at ht
    · obtain ⟨s1, hs1⟩ := shrinkPass_ok less termCols n s hn
      rw [hs1] at ht
      simp only at ht
      have hstep := shrinkPass_step less termCols n s s1 hinv hs1
      rcases List.mem_cons.1 ht with rfl | ht
      · exact ⟨htrack, s1, hs1, hstep⟩
      · obtain ⟨hinv1, hp⟩ := shrinkPass_exact less termCols n s s1 hinv hs1
        have hlen := (shrinkPass_progress less termCols n s s1 hs1).2.1
        refine ih s1 (by rw [hlen]; exact hn) hinv1 ?_ t ht
        unfold totalWidthOf at htrack ⊢
        rcases hp with hp | hp <;> omega
    · simp at ht

/-- C21. Exact landing without clamping. Take a list of columns that satisfy
`width = max(headerWidth, dataWidth)`, none with a header or data width above
`maxSingleColumnWidth = termCols - 2(n-1) - 1`, whose total (widths and `n - 1`
separators) exceeds `termCols`. In every pass of `shrinkColumns` the tracked
`totalWidth` is the actual total, and the pass either changes nothing (the list
is only sorted, `totalWidth` stays) or lowers `totalWidth` and the actual total
by exactly 1. `shrinkColumns` returns, and on return the tracked and the actual
total agree and either the total is `termCols` exactly or the loop stopped at
its fixed point, the condition of the warning. (The premises make
`2n - 1 ≤ termCols` hold for a non-empty list; neither is needed as a premise
of its own.) -/
theorem exact_landing_without_clamping (less : SortedColumnWidth → SortedColumnWidth → Bool)
    (termCols : Int) (columnWidths : List SortedColumnWidth)
    (hok : ∀ c ∈ columnWidths, c.width = max c.headerWidth c.dataWidth)
    (hsingle : ∀ c ∈ columnWidths,
      c.headerWidth ≤ maxSingleColumnWidth termCols columnWidths.length ∧
      c.dataWidth ≤ maxSingleColumnWidth termCols columnWidths.length)
    (hover : termCols < totalWidthOf columnWidths columnWidths.length) :
    (∀ (fuel : Nat),
      ∀ t ∈ shrinkTrace less termCols columnWidths.length fuel
          (shrinkInit columnWidths (totalWidthOf columnWidths columnWidths.length)),
        t.totalWidth = totalWidthOf t.columnWidths columnWidths.length ∧
        ∃ t1, shrinkPass less termCols columnWidths.length t = .ok t1 ∧
          ((t1.totalWidth = t.totalWidth ∧ t1.columnWidths = qSort less t.columnWidths) ∨
            (t1.totalWidth = t.totalWidth - 1 ∧
              totalWidthOf t1.columnWidths columnWidths.length =
                totalWidthOf t.columnWidths columnWidths.length - 1))) ∧
    (∃ s,
      shrinkColumns less columnWidths termCols columnWidths.length
        (totalWidthOf columnWidths columnWidths.length) = .ok s ∧
      s.columnWidths.length = columnWidths.length ∧
      s.totalWidth = totalWidthOf s.columnWidths columnWidths.length ∧
      (sumWidths s.columnWidths + ((columnWidths.length : Int) - 1) = termCols ∨
        shrinkWarning termCols s = true)) := by
  have hinv : ∀ c ∈ (shrinkInit columnWidths
      (totalWidthOf columnWidths columnWidths.length)).columnWidths,
      WithinSingle (maxSingleColumnWidth termCols columnWidths.length) c :=
    fun c hc => ⟨hok c hc, hsingle c hc⟩
  constructor
  · intro fuel
    exact shrinkTrace_step less termCols columnWidths.length fuel _ rfl hinv rfl
  · obtain ⟨s, hs, hsl⟩ := shrinkLoop_ok less termCols columnWidths.length
      (shrinkFuel termCols (totalWidthOf columnWidths columnWidths.length))
      (shrinkInit columnWidths (totalWidthOf columnWidths columnWidths.length)) rfl
    have hexit := shrinkLoop_exit less termCols columnWidths.length _ _ s
      (shrinkInit_fuel termCols _ _) hs
    obtain ⟨-, htrack, hge⟩ := shrinkLoop_exact less termCols columnWidths.length _ _ s
      hinv rfl (le_of_lt hover) hs
    refine ⟨s, hs, hsl, htrack, ?_⟩
    simp only [shrinkLoopCond, Bool.and_eq_false_iff, decide_eq_false_iff_not, not_not,
      not_lt] at hexit
    unfold totalWidthOf at htrack
    by_cases hw : shrinkWarning termCols s = true
    · exact Or.inr hw
    · left
      simp only [shrinkWarning, Bool.and_eq_true, decide_eq_true_eq, not_and, not_lt] at hw
      rcases hexit with h | h
      · omega
      · have := hw h
        omega

/-- Two headers of six characters in 10 terminal columns (`maxSingleColumnWidth`
7, total 13): three passes, each lowering the total by 1, and the widths 6
and 3 returned sum with the separator to 10. -/
theorem exact_landing_without_clamping_witness :
    (∀ c ∈ measuredColumnWidths risingAlloc sixSixNames 0 [],
      c.width = max c.headerWidth c.dataWidth) ∧
    (∀ c ∈ measuredColumnWidths risingAlloc sixSixNames 0 [],
      c.headerWidth ≤
          maxSingleColumnWidth 10 (measuredColumnWidths risingAlloc sixSixNames 0 []).length ∧
      c.dataWidth ≤
          maxSingleColumnWidth 10 (measuredColumnWidths risingAlloc sixSixNames 0 []).length) ∧
    10 < totalWidthOf (measuredColumnWidths risingAlloc sixSixNames 0 [])
      (measuredColumnWidths risingAlloc sixSixNames 0 []).length ∧
    shrinkColumns ptrLess (measuredColumnWidths risingAlloc sixSixNames 0 []) 10 2 13 =
      .ok ⟨[⟨4096, 0, 6, 6⟩, ⟨4112, 0, 3, 3⟩], 10, 11⟩ ∧
    shrinkPasses ptrLess 10 2 (shrinkFuel 10 13)
      (shrinkInit (measuredColumnWidths risingAlloc sixSixNames 0 []) 13) = 3 ∧
    ∃ s,
      shrinkColumns ptrLess (measuredColumnWidths risingAlloc sixSixNames 0 []) 10
        (measuredColumnWidths risingAlloc sixSixNames 0 []).length
        (totalWidthOf (measuredColumnWidths risingAlloc sixSixNames 0 [])
          (measuredColumnWidths risingAlloc sixSixNames 0 []).length) = .ok s ∧
      (sumWidths s.columnWidths +
          (((measuredColumnWidths risingAlloc sixSixNames 0 []).length : Int) - 1) = 10 ∨
        shrinkWarning 10 s = true) := by
  refine ⟨by decide, by decide, by decide, rfl, rfl, ?_⟩
  obtain ⟨s, h1, -, -, h4⟩ :=
    (exact_landing_without_clamping ptrLess 10
      (measuredColumnWidths risingAlloc sixSixNames 0 []) (by decide) (by decide)
      (by decide)).2
  exact ⟨s, h1, h4⟩


end CliCommandSql
